import Mathlib

/-!
# ConfluxWeb: a verification development

Shallow embedding of parts of the ConfluxWeb JavaScript client library and
theorems about them. JavaScript strings are lists of characters, numbers that
count bytes or milliseconds are natural numbers, a function that may throw
returns an `Except`, and `undefined` or `null` is `none`. Code that the
embedded files import from elsewhere is a parameter, or is modelled from the
specification where its doc comment says so.

* `AbiUtils`  : `packages/conflux-web-utils/src/abi/utils.js`
  (`padBuffer`, `HexStream`).
* `Accounts`  : `packages/conflux-web-cfx-accounts/src/Accounts.js`
  (`recoverTransaction`).
* `Poll`  : `packages/conflux-web/src/poll/pendingTransaction.js`
  (`PendingTransaction`).
* `Method`  : `CfxSendTransactionMethod.js` (under
  `packages/conflux-web-core-method/src/methods/transaction`), with the
  `execute` and `handleError` of `AbstractObservedTransactionMethod.js` that it
  inherits, and `CfxSignTransactionMethod.js` (under
  `packages/conflux-web-cfx/src/methods`).
* `ContractJs`  : `packages/conflux-web/src/contract.js`
  (`Called`, `ContractFunction`, `ContractEvent`, `ABI`, `Contract`).
-/

namespace ConfluxWeb

/-! ## JavaScript primitives used by the embedded code -/

namespace Js

/-- JavaScript `String.prototype.substring(start, end)` for non-negative integer
arguments: both indices are clamped to the length of the string and swapped
when `start > end`. Strings are modelled as lists of characters. -/
def substring (s : List Char) (start stop : Nat) : List Char :=
  let a := min start s.length
  let b := min stop s.length
  (s.drop (min a b)).take (max a b - min a b)

/-- JavaScript `String.prototype.startsWith(prefix)`. -/
def startsWith (s pre : List Char) : Bool :=
  pre.isPrefixOf s

/-- JavaScript `String.prototype.slice(start)` for a non-negative `start`. -/
def sliceFrom (s : List Char) (start : Nat) : List Char :=
  s.drop start

/-- JavaScript `String.prototype.slice(0, stop)` for a non-negative `stop`. -/
def sliceTo (s : List Char) (stop : Nat) : List Char :=
  s.take stop

/-- JavaScript `Array.prototype.slice(start, end)` for non-negative indices. -/
def arraySlice {α : Type} (xs : List α) (start stop : Nat) : List α :=
  (xs.take stop).drop start

/-- A JavaScript number as far as the embedded code meets one: an integer, or
`NaN`. -/
inductive Number where
  | int (n : Int)
  | nan
  deriving Repr, DecidableEq

/-- The comparison `x < bound` with an integer literal; false for `NaN`. -/
def Number.lt (x : Number) (bound : Int) : Bool :=
  match x with
  | .int n => decide (n < bound)
  | .nan => false

/-- The conversion `ToInt32` of an integer: it is reduced modulo `2^32` into
the range from `-2^31` to `2^31 - 1`. -/
def toInt32 (x : Int) : Int :=
  (x + 2147483648) % 4294967296 - 2147483648

/-- The expression `(x - y) >> count`, with `y` and `count` integer literals:
the difference is converted with `ToInt32` (`NaN` becomes 0) and shifted right
with sign, the count being taken modulo 32. -/
def subShiftRight (x : Number) (y : Int) (count : Nat) : Int :=
  match x with
  | .int n => toInt32 (n - y) / (2 : Int) ^ (count % 32)
  | .nan => 0

end Js

/-! ## `conflux-web-utils/src/abi/utils.js` -/

namespace AbiUtils

/-- Characters per byte of a hex string. -/
def BYTE_CHARS : Nat := 2

/-- Bits per byte. -/
def BYTE_BITS : Nat := 8

/-- Bytes per word. -/
def WORD_BYTES : Nat := 32

/-- A Node.js `Buffer`: a sequence of bytes. -/
abbrev Buffer := List (Fin 256)

/-- The constant `ZERO_BUFFER`: the buffer of the hex literal made of 64 zero
digits, that is 32 zero bytes. -/
def ZERO_BUFFER : Buffer := List.replicate 32 0

/-- The argument of `padBuffer`: either a `Buffer` or something else (a hex
string) that is first handed to `Hex.toBuffer`. -/
inductive BufferLike where
  | buffer (b : Buffer)
  | hex (h : String)
  deriving Repr, DecidableEq

/-- The function `padBuffer(buffer, alignLeft)`. `Hex.toBuffer` lives outside
this file of the repository and is taken as the parameter `toBuffer`. -/
def padBuffer {ε : Type} (toBuffer : String → Except ε Buffer)
    (buffer : BufferLike) (alignLeft : Bool) : Except ε Buffer := do
  let buffer ← match buffer with
    | .buffer b => pure b
    | .hex h => toBuffer h
  let count := WORD_BYTES - (buffer.length % WORD_BYTES)
  if 0 < count ∧ count < WORD_BYTES then
    if alignLeft then
      pure (buffer ++ ZERO_BUFFER.take count)
    else
      pure (ZERO_BUFFER.take count ++ buffer)
  else
    pure buffer

/-- A JavaScript value passed as the `length` of a read: an integer number,
or any value for which `Number.isInteger` is false. -/
inductive JsValue where
  | int (n : Int)
  | nonInteger
  deriving Repr, DecidableEq

/-- The class `HexStream`: a hex string (without prefix) and a cursor counted
in bytes. -/
structure HexStream where
  string : List Char
  index : Nat
  deriving Repr, DecidableEq

/-- The errors thrown by the two `assert` calls of `HexStream.read`, with the
fields of the object that is put in the message. -/
inductive ReadError where
  | invalidLength (got : JsValue) (stream : HexStream)
  | lengthNotMatch (expect got : Nat) (stream : HexStream)
  deriving Repr, DecidableEq

/-- The `message` field of the asserted object. -/
def ReadError.message : ReadError → String
  | .invalidLength _ _ => "invalid length"
  | .lengthNotMatch _ _ _ => "length not match"

/-- The static method `HexStream.from(hex)`: drops a leading `0x`. -/
def HexStream.from (hex : List Char) : HexStream :=
  match hex with
  | '0' :: 'x' :: rest => { string := rest, index := 0 }
  | _ => { string := hex, index := 0 }

/-- The method `cut(start, size)`. -/
def HexStream.cut (s : HexStream) (start size : Nat) : List Char :=
  Js.substring s.string (BYTE_CHARS * start) (BYTE_CHARS * (start + size))

/-- The number of pad bytes `skip` computed by `read` for a given length. -/
def HexStream.skip (length : Nat) : Nat :=
  let count := WORD_BYTES - (length % WORD_BYTES)
  if 0 < count ∧ count < WORD_BYTES then count else 0

/-- The method `read(length, alignLeft)`: the string read and the stream with
the advanced cursor, or the error thrown by an assertion (the stream is then
left as it was). -/
def HexStream.read (s : HexStream) (length : JsValue) (alignLeft : Bool) :
    Except ReadError (List Char × HexStream) :=
  match length with
  | .nonInteger => .error (.invalidLength length s)
  | .int i =>
    if 0 ≤ i then
      let length := i.toNat
      let skip := HexStream.skip length
      let string :=
        if alignLeft then s.cut s.index length else s.cut (s.index + skip) length
      if string.length = BYTE_CHARS * length then
        .ok (string, { s with index := s.index + (length + skip) })
      else
        .error (.lengthNotMatch (BYTE_CHARS * length) string.length s)
    else
      .error (.invalidLength length s)

/-- A sequence of reads made one after the other on the same stream; it stops
at the first read that throws. -/
def HexStream.reads (s : HexStream) :
    List (JsValue × Bool) → Except ReadError (List (List Char) × HexStream)
  | [] => .ok ([], s)
  | (length, alignLeft) :: rest =>
    match s.read length alignLeft with
    | .error e => .error e
    | .ok (out, s') =>
      match HexStream.reads s' rest with
      | .error e => .error e
      | .ok (outs, s'') => .ok (out :: outs, s'')

/-- The hex digit of a number below 16, in lower case. -/
def hexDigit (n : Nat) : Char :=
  "0123456789abcdef".toList.getD n '0'

/-- The call `buffer.toString('hex')` of Node.js: two lower-case hex digits
per byte. -/
def bufferToHex (buffer : Buffer) : List Char :=
  match buffer with
  | [] => []
  | byte :: rest => hexDigit (byte.val / 16) :: hexDigit (byte.val % 16) :: bufferToHex rest

/-- The stream `new HexStream(Buffer.concat(buffers).toString('hex'))`. -/
def HexStream.ofBuffers (buffers : List Buffer) : HexStream :=
  { string := bufferToHex buffers.flatten, index := 0 }

/-- A call of `read` whose exception is caught by the caller
(`try { stream.read(length, alignLeft) } catch (e) { ... }`): the outcome and
the stream as the caller finds it afterwards. Both `assert` calls of `read`
come before its only assignment `this.index += length + skip`, so a read that
throws has assigned nothing. -/
def HexStream.tryRead (s : HexStream) (length : JsValue) (alignLeft : Bool) :
    Except ReadError (List Char) × HexStream :=
  match s.read length alignLeft with
  | .ok (out, s') => (.ok out, s')
  | .error e => (.error e, s)

end AbiUtils

/-! ## `conflux-web/src/contract.js` -/

namespace ContractJs

/-- A thrown JavaScript error, by its message. -/
abbrev JsError := String

/-- A plain JavaScript object as the list of its own properties, in insertion
order (the order of `Object.values` for keys that are not numbers, as the names
of contract members and the hex codes are). Properties inherited from
`Object.prototype` are not modelled: their names, such as `toString`, are
neither hex strings nor codes. -/
abbrev JsObject (κ ν : Type) := List (κ × ν)

/-- Reading `obj[key]`: the value of the own property, if there is one. -/
def JsObject.get {κ ν : Type} [DecidableEq κ] (obj : JsObject κ ν) (key : κ) : Option ν :=
  match obj with
  | [] => none
  | (k, v) :: rest => if k = key then some v else JsObject.get rest key

/-- The assignment `obj[key] = value`: an existing property keeps its place and
takes the new value, a new one is added at the end. -/
def JsObject.set {κ ν : Type} [DecidableEq κ] (obj : JsObject κ ν) (key : κ) (value : ν) :
    JsObject κ ν :=
  match obj with
  | [] => [(key, value)]
  | (k, v) :: rest =>
    if k = key then (k, value) :: rest else (k, v) :: JsObject.set rest key value

/-- One member of a contract interface description: its `type`
(`constructor`, `function`, `event`, `fallback`), its `name` (absent for a
constructor), the types of its parameters and its state mutability. -/
structure Fragment where
  type : String
  name : Option String
  inputs : List String
  stateMutability : Option String
  deriving Repr, DecidableEq

/-- Modelled from the spec: the class `FunctionCoder` of `conflux-web-utils`
(the ABI type coder), which is not among the sources at hand. It gives the
selector of a fragment (`signature()`), encodes an argument list to a hex
string (`encodeInputs`) and decodes one from the bytes of a hex string
(`decodeInputs`, `decodeOutputs`). Argument lists are values of `α`. -/
structure FunctionCoder (α : Type) where
  signature : List Char
  encodeInputs : α → Except JsError (List Char)
  decodeInputs : List Char → Except JsError α
  decodeOutputs : List Char → Except JsError α

/-- Modelled from the spec: what the spec promises of a `FunctionCoder`. The
selector is 4 bytes, written as `0x` and 8 characters; an encoded value is a
hex string with the `0x` prefix, and "ABI encode then decode with the same
type list yields a value equal to the original input", the decoder being given
the encoded bytes. -/
def FunctionCoder.Lawful {α : Type} (c : FunctionCoder α) : Prop :=
  (∃ sel : List Char, c.signature = '0' :: 'x' :: sel ∧ sel.length = 8) ∧
  ∀ (args : α) (hex : List Char), c.encodeInputs args = .ok hex →
    ∃ body : List Char, hex = '0' :: 'x' :: body ∧ c.decodeInputs body = .ok args

/-- A log entry, as far as decoding looks at it. -/
structure Log where
  topics : List (List Char)
  data : List Char
  deriving Repr, DecidableEq

/-- Modelled from the spec: the class `EventCoder` of `conflux-web-utils`,
which is not among the sources at hand: the signature of an event (its topic
0) and the decoding of a log into the event's parameters, values of `α`. -/
structure EventCoder (α : Type) where
  signature : List Char
  encodeInputByIndex : α → Nat → Except JsError (List Char)
  decodeLog : Log → Except JsError α

/-- Removes the `0x` prefix of a hex string, if it has one. -/
def Hex.strip (hex : List Char) : List Char :=
  match hex with
  | '0' :: 'x' :: rest => rest
  | _ => hex

/-- Modelled from the spec: the helper `Hex.concat` of `conflux-web-utils`,
which is not among the sources at hand; with it "function call encoding
prepends the 4-byte Selector to the encoded parameter head+tail": the bytes of
the two hex strings one after the other, as one hex string. -/
def Hex.concat (a b : List Char) : List Char :=
  '0' :: 'x' :: (Hex.strip a ++ Hex.strip b)

/-- The classes `ContractFunction` and `ContractConstructor` (the latter
extends the former): the fragment, its coder and the `code` that call data
begins with. -/
structure ContractFunction (α : Type) where
  fragment : Fragment
  coder : FunctionCoder α
  code : List Char

/-- The constructor of `ContractFunction`: `code || this.coder.signature()`,
where an absent or empty `code` is falsy. `newCoder` is `new FunctionCoder`. -/
def ContractFunction.new {α : Type} (newCoder : Fragment → FunctionCoder α)
    (fragment : Fragment) (code : Option (List Char)) : ContractFunction α :=
  let coder := newCoder fragment
  { fragment := fragment
    coder := coder
    code := match code with
      | some (c :: cs) => c :: cs
      | _ => coder.signature }

/-- The method `ContractFunction.params(hex)`; `none` is `undefined`. -/
def ContractFunction.params {α : Type} (f : ContractFunction α) (hex : List Char) :
    Except JsError (Option α) :=
  if !Js.startsWith hex f.code then
    .ok none
  else
    match f.coder.decodeInputs (Js.sliceFrom hex f.code.length) with
    | .error e => .error e
    | .ok params => .ok (some params)

/-- The method `ContractFunction.encode(params)`. -/
def ContractFunction.encode {α : Type} (f : ContractFunction α) (params : α) :
    Except JsError (List Char) :=
  match f.coder.encodeInputs params with
  | .error e => .error e
  | .ok encoded => .ok (Hex.concat f.code encoded)

/-- The method `ContractConstructor.encode(params)`. -/
def ContractConstructor.encode {α : Type} (f : ContractFunction α) (params : α) :
    Except JsError (List Char) :=
  if f.code = [] then
    .error "contract.constructor.code is empty"
  else
    match f.coder.encodeInputs params with
    | .error e => .error e
    | .ok encoded => .ok (Hex.concat f.code encoded)

/-- The class `ContractEvent`. -/
structure ContractEvent (α : Type) where
  fragment : Fragment
  coder : EventCoder α
  code : List Char

/-- The constructor of `ContractEvent`. `newCoder` is `new EventCoder`. -/
def ContractEvent.new {α : Type} (newCoder : Fragment → EventCoder α) (fragment : Fragment) :
    ContractEvent α :=
  let coder := newCoder fragment
  { fragment := fragment, coder := coder, code := coder.signature }

/-- The method `ContractEvent.params(log)`; `log.topics[0]` is `undefined` for
a log without topics, which no `code` is equal to. -/
def ContractEvent.params {α : Type} (e : ContractEvent α) (log : Log) :
    Except JsError (Option α) :=
  if some e.code ≠ log.topics.head? then
    .ok none
  else
    match e.coder.decodeLog log with
    | .error err => .error err
    | .ok params => .ok (some params)

/-- The class `ABI`: the constructor instance, and the functions and events by
their code. -/
structure ABI (α : Type) where
  _constructorFunction : Option (ContractFunction α)
  _codeToFunction : JsObject (List Char) (ContractFunction α)
  _codeToEvent : JsObject (List Char) (ContractEvent α)

/-- A value held by a property of a `Contract` object: the `address` (a string
or `undefined`), an instance of one of the three member classes, or the `abi`. -/
inductive Member (α : Type) where
  | address (a : Option (List Char))
  | ctor (c : ContractFunction α)
  | function (f : ContractFunction α)
  | event (e : ContractEvent α)
  | abi (a : ABI α)

/-- The class `Contract`: its own properties. -/
structure Contract (α : Type) where
  props : JsObject String (Member α)

/-- Reading `contract.abi`. -/
def Contract.abi {α : Type} (contract : Contract α) : Option (ABI α) :=
  match contract.props.get "abi" with
  | some (.abi a) => some a
  | _ => none

/-- The callback of the `forEach` in the constructor of `ABI`. Reading
`instance.constructor` of `undefined` throws a `TypeError`. -/
def ABI.add {α : Type} (abi : ABI α) (inst : Member α) : Except JsError (ABI α) :=
  match inst with
  | .address none => .error "TypeError: Cannot read property 'constructor' of undefined"
  | .address (some _) => .ok abi
  | .ctor c => .ok { abi with _constructorFunction := some c }
  | .function f => .ok { abi with _codeToFunction := abi._codeToFunction.set f.code f }
  | .event e => .ok { abi with _codeToEvent := abi._codeToEvent.set e.code e }
  | .abi _ => .ok abi

/-- The loop `Object.values(contract).forEach(...)` of the constructor of `ABI`. -/
def ABI.addAll {α : Type} (abi : ABI α) : List (String × Member α) → Except JsError (ABI α)
  | [] => .ok abi
  | (_, inst) :: rest =>
    match abi.add inst with
    | .error e => .error e
    | .ok abi' => ABI.addAll abi' rest

/-- The constructor of `ABI`. -/
def ABI.new {α : Type} (contract : JsObject String (Member α)) : Except JsError (ABI α) :=
  ABI.addAll { _constructorFunction := none, _codeToFunction := [], _codeToEvent := [] } contract

/-- What `decodeData` and `decodeLog` return: `{ name, params }`. -/
structure Decoded (α : Type) where
  name : Option String
  params : Option α

/-- The method `ABI.decodeData(data)`; `none` is `undefined`. -/
def ABI.decodeData {α : Type} (abi : ABI α) (data : List Char) :
    Except JsError (Option (Decoded α)) :=
  match abi._codeToFunction.get (Js.sliceTo data 10) with
  | some _function =>
    match _function.params data with
    | .error e => .error e
    | .ok params => .ok (some { name := _function.fragment.name, params := params })
  | none =>
    match abi._constructorFunction with
    | some _constructor =>
      if Js.startsWith data _constructor.code then
        match _constructor.params data with
        | .error e => .error e
        | .ok params => .ok (some { name := some _constructor.fragment.type, params := params })
      else
        .ok none
    | none => .ok none

/-- The method `ABI.decodeLog(log)`; a log without topics is looked up under
the key `undefined`. -/
def ABI.decodeLog {α : Type} (abi : ABI α) (log : Log) :
    Except JsError (Option (Decoded α)) :=
  match abi._codeToEvent.get (log.topics.head?.getD "undefined".toList) with
  | none => .ok none
  | some event =>
    match event.params log with
    | .error e => .error e
    | .ok params => .ok (some { name := event.fragment.name, params := params })

/-- The body of the `forEach` over the fragments in the constructor of
`Contract`; a fragment without a name is stored under the key `undefined`. -/
def Contract.addFragment {α : Type} (newFunctionCoder : Fragment → FunctionCoder α)
    (newEventCoder : Fragment → EventCoder α) (code : Option (List Char))
    (props : JsObject String (Member α)) (fragment : Fragment) : JsObject String (Member α) :=
  if fragment.type = "constructor" then
    props.set "constructor" (.ctor (ContractFunction.new newFunctionCoder fragment code))
  else if fragment.type = "function" then
    props.set (fragment.name.getD "undefined")
      (.function (ContractFunction.new newFunctionCoder fragment none))
  else if fragment.type = "event" then
    props.set (fragment.name.getD "undefined") (.event (ContractEvent.new newEventCoder fragment))
  else
    props

/-- The properties of a `Contract` when its constructor reaches
`new ABI(this)`: the address, then the members made from the fragments. -/
def Contract.members {α : Type} (newFunctionCoder : Fragment → FunctionCoder α)
    (newEventCoder : Fragment → EventCoder α)
    (contractABI : List Fragment) (address code : Option (List Char)) :
    JsObject String (Member α) :=
  contractABI.foldl (Contract.addFragment newFunctionCoder newEventCoder code)
    [("address", .address address)]

/-- The constructor of `Contract` for the options `{ abi, address, code }`. -/
def Contract.new {α : Type} (newFunctionCoder : Fragment → FunctionCoder α)
    (newEventCoder : Fragment → EventCoder α)
    (contractABI : List Fragment) (address code : Option (List Char)) :
    Except JsError (Contract α) :=
  let props := Contract.members newFunctionCoder newEventCoder contractABI address code
  match ABI.new props with
  | .error e => .error e
  | .ok abi => .ok { props := props.set "abi" (.abi abi) }

/-! ### A small instance, used to exercise the theorems -/

/-- A coder whose argument lists are hex digit strings, encoded as themselves;
its selector is made from the number of parameters of the fragment. -/
def Example.functionCoder (fragment : Fragment) : FunctionCoder (List Char) where
  signature := '0' :: 'x' :: List.replicate 8 (Nat.digitChar fragment.inputs.length)
  encodeInputs := fun args => .ok ('0' :: 'x' :: args)
  decodeInputs := fun hex => .ok hex
  decodeOutputs := fun hex => .ok hex

/-- An event coder that decodes a log to its data. -/
def Example.eventCoder (fragment : Fragment) : EventCoder (List Char) where
  signature := '0' :: 'x' :: List.replicate 64 (Nat.digitChar fragment.inputs.length)
  encodeInputByIndex := fun value _ => .ok value
  decodeLog := fun log => .ok log.data

/-- The fragment of a function `inc(uint256)`. -/
def Example.inc : Fragment :=
  { type := "function", name := some "inc", inputs := ["uint256"],
    stateMutability := some "nonpayable" }

/-- The fragment of a function `count()`. -/
def Example.count : Fragment :=
  { type := "function", name := some "count", inputs := [], stateMutability := some "view" }

/-- The fragment of an event `Changed(uint256)`. -/
def Example.changed : Fragment :=
  { type := "event", name := some "Changed", inputs := ["uint256"], stateMutability := none }

/-- A hex digit, in either case. -/
def Hex.isDigit (c : Char) : Bool :=
  c.isDigit || (decide ('a' ≤ c) && decide (c ≤ 'f')) || (decide ('A' ≤ c) && decide (c ≤ 'F'))

/-- A hex string as the node gives it for call data and for topics: `0x` and
then hex digits. No property that an object inherits has such a name. -/
def Hex.isHex (hex : List Char) : Bool :=
  match hex with
  | '0' :: 'x' :: digits => digits.all Hex.isDigit
  | _ => false

/-- The object `{ ...target, ...source }` continued from `target`: the own
properties of `source` are copied in their order; one that `target` has takes
the value of `source` and keeps its place, a new one is added at the end. -/
def JsObject.spread {κ ν : Type} [DecidableEq κ] (target source : JsObject κ ν) :
    JsObject κ ν :=
  source.foldl (fun obj p => JsObject.set obj p.1 p.2) target

/-- The class `Called`, as far as its methods read it: the fields `to` and
`data`, which `ContractFunction.call` fills with `contract.address` and with
`this.encode(params)`. Field values are values of `ν`. -/
structure Called (ν : Type) where
  to_ : ν
  data : ν

/-- The object `{ to: this.to, data: this.data, ...options }` that the three
methods of `Called` build; `none` is a call without options, whose spread adds
nothing. -/
def Called.request {ν : Type} (c : Called ν) (options : Option (JsObject String ν)) :
    JsObject String ν :=
  JsObject.spread [("to", c.to_), ("data", c.data)] (options.getD [])

/-- A call of a method of the client `cfx`, with its arguments. -/
inductive ClientCall (ν : Type) where
  | sendTransaction (options : JsObject String ν)
  | estimateGas (options : JsObject String ν)
  | call (options : JsObject String ν) (epochNumber : Option ν)

/-- The method `Called.sendTransaction(options)`: the call it makes. -/
def Called.sendTransaction {ν : Type} (c : Called ν) (options : Option (JsObject String ν)) :
    ClientCall ν :=
  .sendTransaction (c.request options)

/-- The method `Called.estimateGas(options)`: the call it makes. -/
def Called.estimateGas {ν : Type} (c : Called ν) (options : Option (JsObject String ν)) :
    ClientCall ν :=
  .estimateGas (c.request options)

/-- The method `Called.call(options, epochNumber)`: the call it makes; its
answer is then handed to `method.decode`. -/
def Called.call {ν : Type} (c : Called ν) (options : Option (JsObject String ν))
    (epochNumber : Option ν) : ClientCall ν :=
  .call (c.request options) epochNumber

/-- The request object of a call of the client. -/
def ClientCall.options {ν : Type} : ClientCall ν → JsObject String ν
  | .sendTransaction options => options
  | .estimateGas options => options
  | .call options _ => options

/-- A method call of a contract at `0xc0`, with the call data `0xd0`. -/
def Example.called : Called String :=
  { to_ := "0xc0", data := "0xd0" }

end ContractJs

/-! ## `conflux-web-cfx-accounts/src/Accounts.js` -/

namespace Accounts

open ContractJs (JsError)

/-- The functions of the library `cfx-lib` that `recoverTransaction` calls, as
parameters: `RLP.decode` and `RLP.encode` on a flat list of byte strings (hex
strings), `Hash.keccak256`, `encodeSignature`, `Bytes.toNumber` (its argument
is `undefined` when the list has no such element), `Bytes.fromNumber` and
`recover`. Each may throw, but for the hash and `Bytes.fromNumber`. -/
structure CfxLib where
  rlpDecode : List Char → Except JsError (List (List Char))
  rlpEncode : List (List Char) → Except JsError (List Char)
  keccak256 : List Char → List Char
  encodeSignature : List (List Char) → Except JsError (List Char)
  toNumber : Option (List Char) → Except JsError Js.Number
  fromNumber : Int → List Char
  recover : List Char → List Char → Except JsError (List Char)

/-- The fields handed to `encodeSignature`: `values.slice(6, 9)`. -/
def signatureFields (values : List (List Char)) : List (List Char) :=
  Js.arraySlice values 6 9

/-- The field read as the recovery value: `values[6]`. -/
def recoveryField (values : List (List Char)) : Option (List Char) :=
  values.get? 6

/-- The leading fields kept for the signing payload: `values.slice(0, 6)`. -/
def leadingFields (values : List (List Char)) : List (List Char) :=
  Js.arraySlice values 0 6

/-- The chain id computed from the recovery value: `(recovery - 35) >> 1`. -/
def replayChainId (recovery : Js.Number) : Int :=
  Js.subShiftRight recovery 35 1

/-- The constant `extraData`: nothing when `recovery < 35`, otherwise the chain
id and two empty fields. -/
def extraData (lib : CfxLib) (recovery : Js.Number) : List (List Char) :=
  if recovery.lt 35 then []
  else [lib.fromNumber (replayChainId recovery), ['0', 'x'], ['0', 'x']]

/-- The constant `signingData`. -/
def signingData (lib : CfxLib) (values : List (List Char)) (recovery : Js.Number) :
    List (List Char) :=
  leadingFields values ++ extraData lib recovery

/-- The body of `recoverTransaction` after the envelope is decoded. -/
def recoverValues (lib : CfxLib) (values : List (List Char)) : Except JsError (List Char) :=
  match lib.encodeSignature (signatureFields values) with
  | .error e => .error e
  | .ok signature =>
    match lib.toNumber (recoveryField values) with
    | .error e => .error e
    | .ok recovery =>
      match lib.rlpEncode (signingData lib values recovery) with
      | .error e => .error e
      | .ok signingDataHex => lib.recover (lib.keccak256 signingDataHex) signature

/-- The method `Accounts.recoverTransaction(rawTx)`. -/
def recoverTransaction (lib : CfxLib) (rawTx : List Char) : Except JsError (List Char) :=
  match lib.rlpDecode rawTx with
  | .error e => .error e
  | .ok values => recoverValues lib values

/-- The transaction of the data model: its nine fields, as byte strings. -/
structure Transaction where
  nonce : List Char
  gasPrice : List Char
  gas : List Char
  to_ : List Char
  value : List Char
  storageLimit : List Char
  epochHeight : List Char
  chainId : List Char
  data : List Char
  deriving Repr, DecidableEq

/-- The unsigned tuple, in the fixed order of the wire format. -/
def Transaction.fields (tx : Transaction) : List (List Char) :=
  [tx.nonce, tx.gasPrice, tx.gas, tx.to_, tx.value, tx.storageLimit, tx.epochHeight,
    tx.chainId, tx.data]

/-- Modelled from the spec: the signing primitive and the address of a key,
which the spec leaves to "an elliptic-curve signing primitive": `ecSign hash
key` gives the fields `(v, r, s)`, `addressOf key` the "address derived from
privateKey". -/
structure Curve where
  ecSign : List Char → List Char → Except JsError (List Char × List Char × List Char)
  addressOf : List Char → Except JsError (List Char)

/-- The result of signing: the raw envelope and its hash. -/
structure SignedTransaction where
  rawTransaction : List Char
  transactionHash : List Char
  deriving Repr, DecidableEq

/-- Modelled from the spec: `sign(transaction, privateKey)` of the class
`TransactionSigner`, which is not among the sources at hand. It "RLP-encodes
the unsigned 9-field tuple, hashes it, produces a (v,r,s) signature over the
hash using an elliptic-curve signing primitive, appends the signature to the
tuple, RLP-encodes the resulting 12-field tuple, and returns both the
RawTransactionEnvelope and its hash". -/
def sign (lib : CfxLib) (curve : Curve) (tx : Transaction) (privateKey : List Char) :
    Except JsError SignedTransaction :=
  match lib.rlpEncode tx.fields with
  | .error e => .error e
  | .ok unsigned =>
    match curve.ecSign (lib.keccak256 unsigned) privateKey with
    | .error e => .error e
    | .ok (v, r, s) =>
      match lib.rlpEncode (tx.fields ++ [v, r, s]) with
      | .error e => .error e
      | .ok raw => .ok { rawTransaction := raw, transactionHash := lib.keccak256 raw }

/-! ### A small instance, used to exercise the theorems -/

/-- Joins byte strings with a separator, as a stand-in for an encoding. -/
def Example.join : List (List Char) → List Char
  | [] => []
  | x :: xs => x ++ '|' :: Example.join xs

/-- Splits what `Example.join` made. -/
def Example.split (acc : List Char) : List Char → List (List Char)
  | [] => []
  | c :: cs => if c = '|' then acc.reverse :: Example.split [] cs
               else Example.split (c :: acc) cs

/-- Reads decimal digits, most significant first. -/
def Example.parse (acc : Nat) : List Char → Option Nat
  | [] => some acc
  | c :: cs => if c.isDigit then Example.parse (acc * 10 + (c.toNat - 48)) cs else none

/-- Reads a decimal number written after `0x`; anything else is `NaN`. -/
def Example.toNumber : Option (List Char) → Except JsError Js.Number
  | some ('0' :: 'x' :: d :: digits) =>
    match Example.parse 0 (d :: digits) with
    | some n => .ok (.int n)
    | none => .ok .nan
  | some _ => .ok .nan
  | none => .error "TypeError: Cannot read property 'slice' of undefined"

/-- Writes an integer in decimal after `0x`. -/
def Example.fromNumber (n : Int) : List Char :=
  if n < 0 then '0' :: 'x' :: '-' :: Nat.toDigits 10 n.natAbs
  else '0' :: 'x' :: Nat.toDigits 10 n.toNat

/-- A stand-in library: the encoding joins the fields (which may not hold the
separator), the hash replaces the separators by commas, a signature is its
three fields joined, and `recover` gives back the second field, the signer, of
a signature whose third field is the hash. -/
def Example.lib : CfxLib where
  rlpDecode := fun raw => .ok (Example.split [] raw)
  rlpEncode := fun values =>
    if values.all (fun x => !x.contains '|') then .ok (Example.join values)
    else .error "invalid byte string"
  keccak256 := fun hex => hex.map (fun c => if c = '|' then ',' else c)
  encodeSignature := fun fields =>
    if fields.length = 3 then .ok (Example.join fields) else .error "invalid signature"
  toNumber := Example.toNumber
  fromNumber := Example.fromNumber
  recover := fun hash signature =>
    match Example.split [] signature with
    | [_, r, s] => if s = hash then .ok r else .error "invalid signature"
    | _ => .error "invalid signature"

/-- A stand-in curve for `Example.lib`: the signature of a hash names the key
and the hash, and the address of a key is the key. -/
def Example.curve : Curve where
  ecSign := fun hash key => .ok (['0', 'x', '0'], key, hash)
  addressOf := fun key => .ok key

/-- A transaction with distinct fields. -/
def Example.tx : Transaction :=
  { nonce := "0x1".toList, gasPrice := "0x2".toList, gas := "0x3".toList,
    to_ := "0x4".toList, value := "0x5".toList, storageLimit := "0x6".toList,
    epochHeight := "0x7".toList, chainId := "0x8".toList, data := "0x9".toList }

end Accounts

/-! ## `conflux-web/src/poll/pendingTransaction.js` -/

namespace Poll

/-- A transaction or block hash as the node gives it: a hex string, never the
empty string. -/
abbrev Hash := { hex : List Char // hex ≠ [] }

/-- The truthiness of a field that holds a hash or `null`. -/
def truthy (value : Option Hash) : Bool :=
  match value with
  | none => false
  | some hash => !hash.val.isEmpty

/-- The record returned by "get transaction by hash", as far as the polling
looks at it: `blockHash` is `null` until the transaction is mined. -/
structure TxRecord where
  hash : List Char
  blockHash : Option Hash
  deriving Repr, DecidableEq

/-- The receipt of the data model. -/
structure Receipt where
  transactionHash : List Char
  blockHash : Option Hash
  outcomeStatus : Int
  contractCreated : Option (List Char)
  epochNumber : Nat
  gasUsed : Nat
  deriving Repr, DecidableEq

/-- The errors with which the lifecycle operations reject: the time-out of the
polling loop (with the time elapsed), the two errors thrown in
`pendingTransaction.js` (their messages hold the hash and the outcome status),
the `TypeError` of reading a property of `null`, and an error of the transport
or of the sending of the transaction. -/
inductive PollError where
  | timeout (elapsed : Nat)
  | executedFailed (txHash : List Char) (outcomeStatus : Int)
  | deployFailed (transactionHash : List Char) (outcomeStatus : Int)
  | typeError (message : String)
  | transport (message : String)
  deriving Repr, DecidableEq

/-- The answer of the node to one request: what the request resolves or
rejects with, and the time it took, in ms. -/
structure Reply (α : Type) where
  result : Except PollError α
  took : Nat

/-- The client `cfx` as the transport behind it answers: for each of the three
requests of the polling, the answer to the request number `i` (from 0) of that
kind. -/
structure Node where
  getTransactionByHash : Nat → List Char → Reply (Option TxRecord)
  getTransactionReceipt : Nat → List Char → Reply (Option Receipt)
  getRiskCoefficient : Nat → Nat → Reply ℚ

/-- The state of the world between two steps of a lifecycle operation: the
clock `Date.now()` in ms and the number of requests of each kind sent so far. -/
structure World where
  now : Nat
  txRequests : Nat
  receiptRequests : Nat
  riskRequests : Nat
  deriving Repr, DecidableEq

/-- Modelled from the spec: the helper `sleep(ms)` of `conflux-web/src/utils`,
which is not among the sources at hand: the clock moves on by `ms`. -/
def sleep (ms : Nat) (w : World) : World :=
  { w with now := w.now + ms }

/-- Modelled from the spec: the polling loop, started at the time `start`.
"Timeouts are wall-clock deadlines checked at the start of each poll
iteration": a stage "exceeding its timeout budget transitions to TimedOut and
the operation fails"; otherwise the callback is run, a value it returns ends
the loop, an error it throws is the error of the loop, and on `undefined`
(`none`) the loop waits for the interval `delta` and polls again. `fuel` bounds
the number of iterations; `none` is returned when it is used up. -/
def loopFrom {ρ : Type} (start delta timeout : Nat)
    (func : World → Option (Except PollError (Option ρ) × World)) :
    Nat → World → Option (Except PollError ρ × World)
  | 0, _ => none
  | fuel + 1, w =>
    if w.now - start < timeout then
      match func w with
      | none => none
      | some (.error e, w') => some (.error e, w')
      | some (.ok (some ret), w') => some (.ok ret, w')
      | some (.ok none, w') => loopFrom start delta timeout func fuel (sleep delta w')
    else
      some (.error (.timeout (w.now - start)), w)

/-- Modelled from the spec: the helper `loop({ delta, timeout }, func)` of
`conflux-web/src/utils`, which is not among the sources at hand: the polling
loop, whose budget runs from the time of the call. -/
def loop {ρ : Type} (fuel delta timeout : Nat)
    (func : World → Option (Except PollError (Option ρ) × World)) (w : World) :
    Option (Except PollError ρ × World) :=
  loopFrom w.now delta timeout func fuel w

/-- The class `PendingTransaction`: the client and, modelled from the spec, the
`LazyPromise` it extends (of `conflux-web/src/utils`, not among the sources at
hand), which gives the hash of the transaction "once submission succeeds" or
the error of the submission. -/
structure PendingTransaction where
  cfx : Node
  txHash : Except PollError (List Char)

/-- The options `{ delta, timeout, threshold }` of the lifecycle operations;
each may be left out. -/
structure Options where
  delta : Option Nat
  timeout : Option Nat
  threshold : Option ℚ

/-- The call without options. -/
def Options.none : Options :=
  { delta := Option.none, timeout := Option.none, threshold := Option.none }

/-- The method `get({ delay = 0 })`. -/
def PendingTransaction.get (pt : PendingTransaction) (delay : Option Nat) (w : World) :
    Except PollError (Option TxRecord) × World :=
  let w := sleep (delay.getD 0) w
  match pt.txHash with
  | .error e => (.error e, w)
  | .ok txHash =>
    let reply := pt.cfx.getTransactionByHash w.txRequests txHash
    (reply.result, { w with now := w.now + reply.took, txRequests := w.txRequests + 1 })

/-- The callback of the loop of `mined`. Reading `tx.blockHash` of `null`
throws a `TypeError`. -/
def PendingTransaction.minedStep (pt : PendingTransaction) (w : World) :
    Except PollError (Option TxRecord) × World :=
  match pt.get Option.none w with
  | (.error e, w') => (.error e, w')
  | (.ok Option.none, w') =>
    (.error (.typeError "Cannot read property 'blockHash' of null"), w')
  | (.ok (some tx), w') =>
    if truthy tx.blockHash then (.ok (some tx), w') else (.ok Option.none, w')

/-- The method `mined({ delta = 1000, timeout = 60 * 1000 })`. -/
def PendingTransaction.mined (pt : PendingTransaction) (fuel : Nat) (options : Options)
    (w : World) : Option (Except PollError TxRecord × World) :=
  loop fuel (options.delta.getD 1000) (options.timeout.getD (60 * 1000))
    (fun w => some (pt.minedStep w)) w

/-- The callback of the loop of `executed`. -/
def PendingTransaction.executedStep (pt : PendingTransaction) (txHash : List Char)
    (w : World) : Except PollError (Option Receipt) × World :=
  let reply := pt.cfx.getTransactionReceipt w.receiptRequests txHash
  let w' := { w with now := w.now + reply.took, receiptRequests := w.receiptRequests + 1 }
  match reply.result with
  | .error e => (.error e, w')
  | .ok Option.none => (.ok Option.none, w')
  | .ok (some receipt) =>
    if receipt.outcomeStatus = 0 then (.ok (some receipt), w')
    else (.error (.executedFailed txHash receipt.outcomeStatus), w')

/-- The method `executed({ delta = 1000, timeout = 5 * 60 * 1000 })`. -/
def PendingTransaction.executed (pt : PendingTransaction) (fuel : Nat) (options : Options)
    (w : World) : Option (Except PollError Receipt × World) :=
  match pt.txHash with
  | .error e => some (.error e, w)
  | .ok txHash =>
    loop fuel (options.delta.getD 1000) (options.timeout.getD (5 * 60 * 1000))
      (fun w => some (pt.executedStep txHash w)) w

/-- The callback of the loop of `confirmed`, for the `delta`, `timeout` and
`threshold` of the call. -/
def PendingTransaction.confirmedStep (pt : PendingTransaction) (fuel : Nat)
    (threshold : ℚ) (delta timeout : Nat) (w : World) :
    Option (Except PollError (Option Receipt) × World) :=
  let options : Options :=
    { delta := some delta, timeout := some timeout, threshold := Option.none }
  match pt.executed fuel options w with
  | Option.none => Option.none
  | some (.error e, w') => some (.error e, w')
  | some (.ok receipt, w') =>
    let reply := pt.cfx.getRiskCoefficient w'.riskRequests receipt.epochNumber
    let w'' := { w' with now := w'.now + reply.took, riskRequests := w'.riskRequests + 1 }
    match reply.result with
    | .error e => some (.error e, w'')
    | .ok risk =>
      if risk < threshold then some (.ok (some receipt), w'') else some (.ok Option.none, w'')

/-- The method `confirmed({ threshold = 0.01, delta = 1000, timeout = 30 * 60 *
1000 })`. -/
def PendingTransaction.confirmed (pt : PendingTransaction) (fuel : Nat) (options : Options)
    (w : World) : Option (Except PollError Receipt × World) :=
  loop fuel (options.delta.getD 1000) (options.timeout.getD (30 * 60 * 1000))
    (pt.confirmedStep fuel (options.threshold.getD (1 / 100)) (options.delta.getD 1000)
      (options.timeout.getD (30 * 60 * 1000))) w

/-- The method `deployed(options)`; the value returned is `contractCreated`,
which may be `null`. -/
def PendingTransaction.deployed (pt : PendingTransaction) (fuel : Nat) (options : Options)
    (w : World) : Option (Except PollError (Option (List Char)) × World) :=
  match pt.confirmed fuel options w with
  | Option.none => Option.none
  | some (.error e, w') => some (.error e, w')
  | some (.ok receipt, w') =>
    if receipt.outcomeStatus = 0 then some (.ok receipt.contractCreated, w')
    else some (.error (.deployFailed receipt.transactionHash receipt.outcomeStatus), w')

/-! ### A small instance, used to exercise the theorems -/

/-- A record of the transaction `0xabc`, not mined yet. -/
def Example.pending : TxRecord :=
  { hash := "0xabc".toList, blockHash := Option.none }

/-- A record of the transaction `0xabc`, mined in the block `0xb10c`. -/
def Example.minedRecord : TxRecord :=
  { hash := "0xabc".toList, blockHash := some ⟨"0xb10c".toList, by decide⟩ }

/-- A node that answers the first two requests for the transaction with the
pending record and the later ones with the mined record, each after 10 ms. -/
def Example.node : Node where
  getTransactionByHash := fun i _ =>
    { result := .ok (some (if i < 2 then Example.pending else Example.minedRecord)), took := 10 }
  getTransactionReceipt := fun _ _ => { result := .ok Option.none, took := 10 }
  getRiskCoefficient := fun _ _ => { result := .ok 1, took := 10 }

/-- The handle of the transaction `0xabc` on `Example.node`. -/
def Example.handle : PendingTransaction :=
  { cfx := Example.node, txHash := .ok "0xabc".toList }

/-- The world at the time 0, before any request. -/
def Example.world : World :=
  { now := 0, txRequests := 0, receiptRequests := 0, riskRequests := 0 }

/-- A receipt of the transaction `0xabc` with the outcome status 0, of a
transaction that created no contract. -/
def Example.receipt : Receipt :=
  { transactionHash := "0xabc".toList, blockHash := some ⟨"0xb10c".toList, by decide⟩,
    outcomeStatus := 0, contractCreated := Option.none, epochNumber := 7, gasUsed := 21000 }

/-- A node that has no receipt at the first request and `Example.receipt` from
then on, and answers the first request for the risk with 0.05 and the later
ones with 0.005; each request takes 10 ms. -/
def Example.receiptNode : Node where
  getTransactionByHash := fun _ _ => { result := .ok (some Example.minedRecord), took := 10 }
  getTransactionReceipt := fun i _ =>
    { result := .ok (if i < 1 then Option.none else some Example.receipt), took := 10 }
  getRiskCoefficient := fun i _ => { result := .ok (if i < 1 then 1 / 20 else 1 / 200), took := 10 }

/-- The handle of the transaction `0xabc` on `Example.receiptNode`. -/
def Example.receiptHandle : PendingTransaction :=
  { cfx := Example.receiptNode, txHash := .ok "0xabc".toList }

/-- The world after one request for the receipt, at the time 1010. -/
def Example.laterWorld : World :=
  { now := 1010, txRequests := 0, receiptRequests := 1, riskRequests := 0 }

/-- A receipt of the transaction `0xabc` with the outcome status 1 and the
given amount of gas used. -/
def Example.failedReceipt (gasUsed : Nat) : Receipt :=
  { transactionHash := "0xabc".toList, blockHash := some ⟨"0xb10c".toList, by decide⟩,
    outcomeStatus := 1, contractCreated := Option.none, epochNumber := 7, gasUsed := gasUsed }

/-- The handle of the transaction `0xabc` on a node that answers every request
for the receipt with `Example.failedReceipt gasUsed`. -/
def Example.failedHandle (gasUsed : Nat) : PendingTransaction :=
  { cfx :=
      { getTransactionByHash := fun _ _ =>
          { result := .ok (some Example.minedRecord), took := 10 }
        getTransactionReceipt := fun _ _ =>
          { result := .ok (some (Example.failedReceipt gasUsed)), took := 10 }
        getRiskCoefficient := fun _ _ => { result := .ok 0, took := 10 } }
    txHash := .ok "0xabc".toList }

/-- The handle of the transaction `0xabc` on a node on which no stage is ever
reached: the transaction is never mined, and its receipt, which the node has,
never gets a risk below 1. -/
def Example.stuckHandle : PendingTransaction :=
  { cfx :=
      { getTransactionByHash := fun _ _ => { result := .ok (some Example.pending), took := 10 }
        getTransactionReceipt := fun _ _ => { result := .ok (some Example.receipt), took := 10 }
        getRiskCoefficient := fun _ _ => { result := .ok 1, took := 10 } }
    txHash := .ok "0xabc".toList }

/-- The handle of the transaction `0xabc` on a node that does not know the
transaction at the first request (it answers `null`) and has the mined record
from then on. -/
def Example.unknownHandle : PendingTransaction :=
  { cfx :=
      { getTransactionByHash := fun i _ =>
          { result := .ok (if i < 1 then Option.none else some Example.minedRecord), took := 10 }
        getTransactionReceipt := fun _ _ => { result := .ok (some Example.receipt), took := 10 }
        getRiskCoefficient := fun _ _ => { result := .ok 0, took := 10 } }
    txHash := .ok "0xabc".toList }

end Poll

/-! ## `CfxSendTransactionMethod.js` and `CfxSignTransactionMethod.js` -/

namespace Method

open ContractJs (JsError)

/-- A JavaScript value held by a field of a transaction object or passed as a
parameter: `undefined`, `null`, a number or a string. -/
inductive Value where
  | undefined
  | null
  | number (n : Js.Number)
  | string (s : String)
  deriving Repr, DecidableEq

/-- The truthiness of a value: `undefined`, `null`, `0`, `NaN` and the empty
string are falsy. -/
def Value.truthy : Value → Bool
  | .undefined => false
  | .null => false
  | .number (.int n) => decide (n ≠ 0)
  | .number .nan => false
  | .string s => decide (s ≠ "")

/-- The expression `a || b`. -/
def Value.or (a b : Value) : Value :=
  if a.truthy then a else b

/-- The property key that a value is turned into in `wallet[value]`. -/
def Value.toKey : Value → String
  | .undefined => "undefined"
  | .null => "null"
  | .number (.int n) => toString n
  | .number .nan => "NaN"
  | .string s => s

/-- A transaction object: its own properties. -/
abbrev TxObject := ContractJs.JsObject String Value

/-- Reading `transaction.key`: `undefined` when there is no such property. -/
def TxObject.field (tx : TxObject) (key : String) : Value :=
  (ContractJs.JsObject.get tx key).getD .undefined

/-- The assignment `transaction.key = value`. -/
def TxObject.assign (tx : TxObject) (key : String) (value : Value) : TxObject :=
  ContractJs.JsObject.set tx key value

/-- The statement `delete transaction.key`. -/
def TxObject.delete (tx : TxObject) (key : String) : TxObject :=
  List.filter (fun p => decide (p.1 ≠ key)) tx

/-- An entry of the wallet. -/
structure Account where
  address : String
  privateKey : String
  deriving Repr, DecidableEq

/-- The object `moduleInstance.accounts.wallet`: its entries, by index and by
address, and its `accountsIndex`. The other properties of the wallet object
(its methods) are not modelled. -/
structure Wallet where
  entries : ContractJs.JsObject String Account
  accountsIndex : Nat

/-- Reading `wallet[key]`. -/
def Wallet.get (wallet : Wallet) (key : Value) : Option Account :=
  ContractJs.JsObject.get wallet.entries key.toKey

/-- What `transactionSigner.sign` resolves with. -/
structure SignedResponse where
  rawTransaction : Value
  deriving Repr, DecidableEq

/-- A request to the node: `currentProvider.send('cfx_gasPrice', [])`,
`currentProvider.send('cfx_epochNumber', [])`, the execution of the
`getTransactionCountMethod` with the parameters `[address, epoch]`, and
`currentProvider.send(rpcMethod, parameters)` with a transaction object or
with a raw transaction as the parameter. -/
inductive Rpc where
  | gasPrice
  | epochNumber
  | getTransactionCount (address : Value) (epoch : String)
  | sendTransaction (rpcMethod : String) (transaction : TxObject)
  | sendRawTransaction (rawTransaction : Value)
  deriving Repr, DecidableEq

/-- What a method does that can be seen from outside: a request to the node, or
the call `transactionSigner.sign(transaction, privateKey)`. -/
inductive Event where
  | request (rpc : Rpc)
  | sign (transaction : TxObject) (privateKey : Value)
  deriving Repr, DecidableEq

/-- The object `moduleInstance` as the methods use it: the defaults, the
accounts (absent in a module without accounts), the type and the `sign` of the
transaction signer, and the answers of the node to the requests. -/
structure Module where
  defaultGas : Value
  defaultGasPrice : Value
  accounts : Option Wallet
  signerType : Value
  sign : TxObject → Value → Except JsError SignedResponse
  send : Rpc → Except JsError Value

/-- The method `beforeExecution` of `CfxSendTransactionMethod`: unless the
request is `cfx_sendRawTransaction`, that of the base class, which replaces
the transaction by `formatters.inputTransactionFormatter(transaction,
moduleInstance)`. The formatter is the parameter `format`. -/
def CfxSendTransactionMethod.beforeExecution (format : TxObject → Except JsError TxObject)
    (rpcMethod : String) (tx : TxObject) : Except JsError TxObject :=
  if rpcMethod ≠ "cfx_sendRawTransaction" then format tx else .ok tx

/-- The nonce of `sendRawTransaction`: when `!nonce && nonce !== 0`, it is
asked of the node for `[from, 'latest_state']`. -/
def CfxSendTransactionMethod.fillNonce (m : Module) (tx : TxObject) :
    List Event × Except JsError TxObject :=
  if !(tx.field "nonce").truthy ∧ tx.field "nonce" ≠ .number (.int 0) then
    match m.send (.getTransactionCount (tx.field "from") "latest_state") with
    | .error e => ([.request (.getTransactionCount (tx.field "from") "latest_state")], .error e)
    | .ok nonce =>
      ([.request (.getTransactionCount (tx.field "from") "latest_state")],
        .ok (tx.assign "nonce" nonce))
  else
    ([], .ok tx)

/-- The defaults of `sendRawTransaction` for `storageLimit` and `chainId`. -/
def CfxSendTransactionMethod.fillDefaults (tx : TxObject) : TxObject :=
  let tx :=
    if !(tx.field "storageLimit").truthy then
      tx.assign "storageLimit" (.number (.int 100000000))
    else tx
  if !(tx.field "chainId").truthy then tx.assign "chainId" (.number (.int 0)) else tx

/-- The epoch height of `sendRawTransaction`: when `!epochHeight`, it is asked
of the node with `cfx_epochNumber`. -/
def CfxSendTransactionMethod.fillEpochHeight (m : Module) (tx : TxObject) :
    List Event × Except JsError TxObject :=
  if !(tx.field "epochHeight").truthy then
    match m.send .epochNumber with
    | .error e => ([.request .epochNumber], .error e)
    | .ok epochNumber => ([.request .epochNumber], .ok (tx.assign "epochHeight" epochNumber))
  else
    ([], .ok tx)

/-- The last statements of `sendRawTransaction` before the signing: `to`,
`data` and `value` become `'0x'` when falsy, and `from` is deleted. -/
def CfxSendTransactionMethod.finish (tx : TxObject) : TxObject :=
  let tx := tx.assign "to" ((tx.field "to").or (.string "0x"))
  let tx := tx.assign "data" ((tx.field "data").or (.string "0x"))
  let tx := tx.assign "value" ((tx.field "value").or (.string "0x"))
  tx.delete "from"

/-- How `sendRawTransaction` ends: its promise rejects with an error thrown on
the way, or it reaches `super.execute()` (the `execute` of
`AbstractObservedTransactionMethod`), which sends the raw transaction to the
node and gets the answer given. -/
inductive SendOutcome where
  | threw (error : JsError)
  | sent (reply : Except JsError Value)

/-- The method `sendRawTransaction(privateKey = null)` of a method whose
request is `rpcMethod` and whose first parameter is `tx`: the requests and the
call of the signer it makes, in order, and how it ends. -/
def CfxSendTransactionMethod.sendRawTransaction (m : Module)
    (format : TxObject → Except JsError TxObject) (rpcMethod : String) (tx : TxObject)
    (privateKey : Value) : List Event × SendOutcome :=
  let privateKey := if privateKey = .undefined then Value.null else privateKey
  match CfxSendTransactionMethod.beforeExecution format rpcMethod tx with
  | .error e => ([], .threw e)
  | .ok tx =>
    match CfxSendTransactionMethod.fillNonce m tx with
    | (requests, .error e) => (requests, .threw e)
    | (requests, .ok tx) =>
      match CfxSendTransactionMethod.fillEpochHeight m
          (CfxSendTransactionMethod.fillDefaults tx) with
      | (requests', .error e) => (requests ++ requests', .threw e)
      | (requests', .ok tx) =>
        let transaction := CfxSendTransactionMethod.finish tx
        match m.sign transaction privateKey with
        | .error e => (requests ++ requests' ++ [.sign transaction privateKey], .threw e)
        | .ok response =>
          (requests ++ requests' ++ [.sign transaction privateKey,
              .request (.sendRawTransaction response.rawTransaction)],
            .sent (m.send (.sendRawTransaction response.rawTransaction)))

/-- How `execute` of `CfxSignTransactionMethod` ends: it never returns (the
busy wait of `getEpochHeight` goes on when the request fails), it throws, it
returns the promise of `transactionSigner.sign`, or it calls `super.execute()`
with the transaction and the second parameter. -/
inductive SignOutcome where
  | hangs
  | threw (error : JsError)
  | signed (response : Except JsError SignedResponse)
  | remote (transaction : TxObject) (address : Value)

/-- The defaults of `execute` of `CfxSignTransactionMethod` for `storageLimit`
and `chainId`, set when the field `=== undefined`. -/
def CfxSignTransactionMethod.fillDefaults (tx : TxObject) : TxObject :=
  let tx :=
    if tx.field "storageLimit" = .undefined then
      tx.assign "storageLimit" (.number (.int 100000000))
    else tx
  if tx.field "chainId" = .undefined then tx.assign "chainId" (.number (.int 0)) else tx

/-- The signing with an entry of the wallet in `execute` of
`CfxSignTransactionMethod`; without an entry for the key, `none`. Reading
`wallet` of a module without accounts throws a `TypeError`. -/
def CfxSignTransactionMethod.signWith (m : Module) (tx : TxObject) (key : Value) :
    Option (List Event × SignOutcome) :=
  match m.accounts with
  | none => some ([], .threw "TypeError: Cannot read property 'wallet' of undefined")
  | some wallet =>
    match wallet.get key with
    | none => none
    | some account =>
      some ([.sign tx (.string account.privateKey)],
        .signed (m.sign tx (.string account.privateKey)))

/-- The epoch height of `execute` of `CfxSignTransactionMethod`: when the
field `=== undefined`, `getEpochHeight()` asks the node with `cfx_epochNumber`
and waits in a busy loop for the answer; when the request fails the loop never
ends (`none`). -/
def CfxSignTransactionMethod.fillEpochHeight (m : Module) (tx : TxObject) :
    List Event × Option TxObject :=
  if tx.field "epochHeight" = .undefined then
    match m.send .epochNumber with
    | .error _ => ([.request .epochNumber], none)
    | .ok epochNumber => ([.request .epochNumber], some (tx.assign "epochHeight" epochNumber))
  else ([], some tx)

/-- The end of `execute` of `CfxSignTransactionMethod`: the signing with the
wallet entry of the second parameter when it is a string, else with that of
`from` when it is a number, else `super.execute()`. -/
def CfxSignTransactionMethod.signLocally (m : Module) (tx : TxObject) (address : Value) :
    List Event × SignOutcome :=
  let byAddress :=
    match address with
    | .string _ => CfxSignTransactionMethod.signWith m tx address
    | _ => none
  match byAddress with
  | some result => result
  | none =>
    let byFrom :=
      match tx.field "from" with
      | .number _ => CfxSignTransactionMethod.signWith m tx (tx.field "from")
      | _ => none
    match byFrom with
    | some result => result
    | none => ([], .remote tx address)

/-- The method `execute` of `CfxSignTransactionMethod` with the parameters
`[tx, address]`: the requests and the call of the signer it makes, in order,
and how it ends. -/
def CfxSignTransactionMethod.execute (m : Module) (tx : TxObject) (address : Value) :
    List Event × SignOutcome :=
  match CfxSignTransactionMethod.fillEpochHeight m
      (CfxSignTransactionMethod.fillDefaults tx) with
  | (requests, none) => (requests, .hangs)
  | (requests, some tx) =>
    (requests ++ (CfxSignTransactionMethod.signLocally m tx address).1,
      (CfxSignTransactionMethod.signLocally m tx address).2)

/-! ### A small instance, used to exercise the theorems -/

/-- A module with one account in its wallet, under the index 0 and under its
address, whose signer gives back a fixed raw transaction and whose node
answers every request with `0x7b`. -/
def Example.module : Module where
  defaultGas := .undefined
  defaultGasPrice := .undefined
  accounts := some
    { entries := [("0", { address := "0xa1", privateKey := "0xkey" }),
        ("0xa1", { address := "0xa1", privateKey := "0xkey" })]
      accountsIndex := 1 }
  signerType := .string "TransactionSigner"
  sign := fun _ _ => .ok { rawTransaction := .string "0xf86b" }
  send := fun _ => .ok (.string "0x7b")

/-- A transaction in which the caller set every field, several of them to 0. -/
def Example.zeroTx : TxObject :=
  [("from", .number (.int 0)), ("to", .string "0xb2"), ("gas", .number (.int 21000)),
    ("gasPrice", .number (.int 1)), ("value", .number (.int 0)), ("nonce", .number (.int 0)),
    ("storageLimit", .number (.int 0)), ("chainId", .number (.int 0)),
    ("epochHeight", .number (.int 0))]

/-- A transaction in which the caller set `from`, `gas` and `gasPrice` only. -/
def Example.bareTx : TxObject :=
  [("from", .number (.int 0)), ("gas", .number (.int 21000)), ("gasPrice", .number (.int 1))]

/-! ### `execute` of `CfxSendTransactionMethod` -/

/-- What `execute` reads of the method object besides its first parameter: the
name of the request, whether a callback was given (`this.callback`), and the
number of listeners of the event `error` on the `PromiEvent` it returns
(`this.promiEvent.listenerCount('error')`). -/
structure MethodState where
  rpcMethod : String
  hasCallback : Bool
  errorListeners : Nat
  deriving Repr, DecidableEq

/-- How the outcome of `execute` reaches the caller: the calls
`promiEvent.resolve(transactionHash)`,
`promiEvent.resolve(callback(false, transactionHash))`, `callback(error, null)`,
`promiEvent.emit('error', error, false, 0)` and `promiEvent.reject(error)`, or
an error that `execute` itself throws before it returns the `PromiEvent`. -/
inductive Delivery where
  | resolved (transactionHash : Value)
  | callbackHash (transactionHash : Value)
  | callbackError (error : JsError)
  | emitted (error : JsError)
  | rejected (error : JsError)
  | thrown (error : JsError)
  deriving Repr, DecidableEq

/-- The method `handleError(error, false, 0)` of
`AbstractObservedTransactionMethod`: with listeners of `error` the event is
emitted to them, else the `PromiEvent` is rejected. -/
def AbstractObservedTransactionMethod.handleError (method : MethodState) (error : JsError) :
    Delivery :=
  if method.errorListeners > 0 then .emitted error else .rejected error

/-- The `then` and `catch` handlers of `execute` of
`AbstractObservedTransactionMethod`, for the answer of the transport. -/
def AbstractObservedTransactionMethod.settle (method : MethodState)
    (reply : Except JsError Value) : Delivery :=
  match reply with
  | .ok transactionHash =>
    if method.hasCallback then .callbackHash transactionHash else .resolved transactionHash
  | .error error =>
    if method.hasCallback then .callbackError error
    else AbstractObservedTransactionMethod.handleError method error

/-- The method `execute` of `AbstractObservedTransactionMethod` (which
`super.execute()` of `CfxSendTransactionMethod` runs) for a method whose
parameter is still the transaction: `beforeExecution`, whose formatter may
throw, then the request. -/
def AbstractObservedTransactionMethod.execute (m : Module)
    (format : TxObject → Except JsError TxObject) (method : MethodState) (tx : TxObject) :
    List Event × Delivery :=
  match CfxSendTransactionMethod.beforeExecution format method.rpcMethod tx with
  | .error e => ([], .thrown e)
  | .ok tx =>
    ([.request (.sendTransaction method.rpcMethod tx)],
      AbstractObservedTransactionMethod.settle method
        (m.send (.sendTransaction method.rpcMethod tx)))

/-- The method `isDefaultSigner()`. -/
def CfxSendTransactionMethod.isDefaultSigner (m : Module) : Bool :=
  decide (m.signerType = .string "TransactionSigner")

/-- The method `hasAccounts()`; falsy for a module without accounts. -/
def CfxSendTransactionMethod.hasAccounts (m : Module) : Bool :=
  match m.accounts with
  | none => false
  | some wallet => decide (wallet.accountsIndex > 0)

/-- The method `hasCustomSigner()`. -/
def CfxSendTransactionMethod.hasCustomSigner (m : Module) : Bool :=
  decide (m.signerType ≠ .string "TransactionSigner")

/-- The first statement of `execute`: `gas` becomes `defaultGas` when it is
falsy and `defaultGas` is not. -/
def CfxSendTransactionMethod.fillGas (m : Module) (tx : TxObject) : TxObject :=
  if !(tx.field "gas").truthy ∧ m.defaultGas.truthy then tx.assign "gas" m.defaultGas else tx

/-- The statement `this.sendRawTransaction(privateKey).catch((error) =>
this.handleError(error, false, 0))` of `execute`. An error thrown on the way
to `super.execute()` goes to `handleError`; the answer of the transport goes
to the handlers of `super.execute()`. (When these reject the `PromiEvent`,
which `sendRawTransaction` returns, the `catch` above hands the same error to
`handleError` once more, which rejects the rejected `PromiEvent` again: the
outcome is the one rejection.) -/
def CfxSendTransactionMethod.signAndSend (m : Module)
    (format : TxObject → Except JsError TxObject) (method : MethodState) (tx : TxObject)
    (privateKey : Value) : List Event × Delivery :=
  match CfxSendTransactionMethod.sendRawTransaction m format method.rpcMethod tx privateKey with
  | (events, .threw e) => (events, AbstractObservedTransactionMethod.handleError method e)
  | (events, .sent reply) => (events, AbstractObservedTransactionMethod.settle method reply)

/-- The part of `execute` behind the gas price: the signing with the wallet
entry of `from`, the signing by a custom signer (`sendRawTransaction()`, whose
parameter is then `null`), or `super.execute()`. -/
def CfxSendTransactionMethod.selectSigner (m : Module)
    (format : TxObject → Except JsError TxObject) (method : MethodState) (tx : TxObject) :
    List Event × Delivery :=
  let entry :=
    if CfxSendTransactionMethod.hasAccounts m ∧ CfxSendTransactionMethod.isDefaultSigner m then
      match m.accounts with
      | some wallet => wallet.get (tx.field "from")
      | none => none
    else none
  match entry with
  | some account =>
    CfxSendTransactionMethod.signAndSend m format method tx (.string account.privateKey)
  | none =>
    if CfxSendTransactionMethod.hasCustomSigner m then
      CfxSendTransactionMethod.signAndSend m format method tx .undefined
    else
      AbstractObservedTransactionMethod.execute m format method tx

/-- The method `execute()` with the first parameter `tx`: the requests and the
call of the signer it makes, in order, and how the outcome reaches the caller.
When neither the transaction nor the module has a gas price, `cfx_gasPrice` is
asked of the node and `execute()` is run again from the `then` handler, whose
`catch` hands an error thrown there to `handleError`. `fuel` bounds the number
of runs; `none` is returned when it is used up. -/
def CfxSendTransactionMethod.execute (m : Module)
    (format : TxObject → Except JsError TxObject) (method : MethodState) :
    Nat → TxObject → Option (List Event × Delivery)
  | 0, _ => none
  | fuel + 1, tx =>
    let tx := CfxSendTransactionMethod.fillGas m tx
    if !(tx.field "gasPrice").truthy ∧ tx.field "gasPrice" ≠ .number (.int 0) then
      if !m.defaultGasPrice.truthy then
        match m.send .gasPrice with
        | .error e =>
          some ([.request .gasPrice], AbstractObservedTransactionMethod.handleError method e)
        | .ok gasPrice =>
          match CfxSendTransactionMethod.execute m format method fuel
              (tx.assign "gasPrice" gasPrice) with
          | none => none
          | some (events, .thrown e) =>
            some (.request .gasPrice :: events,
              AbstractObservedTransactionMethod.handleError method e)
          | some (events, delivery) => some (.request .gasPrice :: events, delivery)
      else
        some (CfxSendTransactionMethod.selectSigner m format method
          (tx.assign "gasPrice" m.defaultGasPrice))
    else
      some (CfxSendTransactionMethod.selectSigner m format method tx)

/-- A method `cfx_sendTransaction` without callback and without listeners. -/
def Example.method : MethodState :=
  { rpcMethod := "cfx_sendTransaction", hasCallback := false, errorListeners := 0 }

/-- The formatter that leaves the transaction as it is. -/
def Example.format (tx : TxObject) : Except JsError TxObject :=
  .ok tx

/-- The module of `Example.module` with a custom signer (an object without
`type`), the wallet as it was. -/
def Example.customModule : Module :=
  { Example.module with signerType := .undefined }

/-- The module of `Example.module` with a signer that rejects with `ERROR`. -/
def Example.rejectingModule : Module :=
  { Example.module with sign := fun _ _ => .error "ERROR" }

/-- The module of `Example.module` with a `defaultGasPrice` of 0. -/
def Example.zeroPriceModule : Module :=
  { Example.module with defaultGasPrice := .number (.int 0) }

/-- The module of `Example.module` with a `defaultGasPrice` of 5. -/
def Example.pricedModule : Module :=
  { Example.module with defaultGasPrice := .number (.int 5) }

/-- A transaction from an address that the wallet does not hold. -/
def Example.foreignTx : TxObject :=
  [("from", .string "0xb2"), ("gas", .number (.int 21000)), ("gasPrice", .number (.int 1))]

/-- A transaction in which the caller set `from` and `gas` only. -/
def Example.unpricedTx : TxObject :=
  [("from", .number (.int 0)), ("gas", .number (.int 21000))]

end Method

/-! ## Theorems -/

namespace AbiUtils

theorem substring_length (s : List Char) (a b : Nat) (h : a ≤ b) :
    (Js.substring s a b).length = min b s.length - min a s.length := by
  unfold Js.substring
  simp only [List.length_take, List.length_drop]
  omega

theorem substring_eq (s : List Char) (a b : Nat) (h : a ≤ b) (hb : b ≤ s.length) :
    Js.substring s a b = (s.drop a).take (b - a) := by
  unfold Js.substring
  have h1 : min a s.length = a := by omega
  have h2 : min b s.length = b := by omega
  have h3 : min a b = a := by omega
  have h4 : max a b = b := by omega
  simp only [h1, h2, h3, h4]

theorem skip_eq (n : Nat) : HexStream.skip n = (32 - n % 32) % 32 := by
  unfold HexStream.skip WORD_BYTES
  simp only
  split <;> omega

/-- The result of a successful read, spelled out: the cursor moves by
`length + skip`, and the string is the cut at the cursor (`alignLeft`) or
behind the pad bytes (otherwise), with all its characters present. -/
theorem read_ok_iff (s : HexStream) (n : Nat) (alignLeft : Bool)
    (out : List Char) (s' : HexStream) :
    s.read (.int n) alignLeft = .ok (out, s') ↔
      (out = if alignLeft then s.cut s.index n
             else s.cut (s.index + HexStream.skip n) n) ∧
      out.length = 2 * n ∧
      s' = { s with index := s.index + (n + HexStream.skip n) } := by
  unfold HexStream.read
  simp only [Int.natCast_nonneg, if_true, Int.toNat_ofNat, BYTE_CHARS]
  cases alignLeft <;> simp only [Bool.false_eq_true, if_false, if_true]
  all_goals
    split
    · rename_i hlen
      simp only [Except.ok.injEq, Prod.mk.injEq]
      constructor
      · rintro ⟨h1, h2⟩
        subst h1
        exact ⟨rfl, hlen, h2.symm⟩
      · rintro ⟨h1, _, h3⟩
        exact ⟨h1.symm, h3.symm⟩
    · rename_i hlen
      constructor
      · intro h
        cases h
      · rintro ⟨h1, h2, _⟩
        subst h1
        exact absurd h2 hlen

theorem cut_length (s : HexStream) (start size : Nat) :
    (s.cut start size).length
      = min (2 * (start + size)) s.string.length - min (2 * start) s.string.length := by
  unfold HexStream.cut BYTE_CHARS
  rw [substring_length _ _ _ (by omega)]

theorem substring_append (s : List Char) (a b c : Nat) (hab : a ≤ b) (hbc : b ≤ c) :
    Js.substring s a c = Js.substring s a b ++ Js.substring s b c := by
  unfold Js.substring
  have e1 : min (min a s.length) (min c s.length) = min a s.length := by omega
  have e2 : max (min a s.length) (min c s.length) = min c s.length := by omega
  have e3 : min (min a s.length) (min b s.length) = min a s.length := by omega
  have e4 : max (min a s.length) (min b s.length) = min b s.length := by omega
  have e5 : min (min b s.length) (min c s.length) = min b s.length := by omega
  have e6 : max (min b s.length) (min c s.length) = min c s.length := by omega
  simp only [e1, e2, e3, e4, e5, e6]
  have e7 : min c s.length - min a s.length
      = (min b s.length - min a s.length) + (min c s.length - min b s.length) := by omega
  rw [e7, List.take_add, List.drop_drop]
  have e8 : min a s.length + (min b s.length - min a s.length) = min b s.length := by omega
  rw [e8]

theorem cut_append (s : HexStream) (start size more : Nat) :
    s.cut start (size + more) = s.cut start size ++ s.cut (start + size) more := by
  unfold HexStream.cut BYTE_CHARS
  rw [substring_append s.string (2 * start) (2 * (start + size)) (2 * (start + (size + more)))
    (by omega) (by omega)]
  rw [Nat.add_assoc]

/-- A read that succeeds was given a non-negative integer, and moves the cursor
by that length plus its pad bytes. -/
theorem read_ok_index (s : HexStream) (v : JsValue) (alignLeft : Bool)
    (out : List Char) (s' : HexStream) (h : s.read v alignLeft = .ok (out, s')) :
    ∃ n : Nat, v = .int n ∧ s'.index = s.index + (n + HexStream.skip n) := by
  cases v with
  | nonInteger => simp [HexStream.read] at h
  | int i =>
    by_cases hi : 0 ≤ i
    · obtain ⟨n, rfl⟩ := Int.eq_ofNat_of_zero_le hi
      refine ⟨n, rfl, ?_⟩
      have := (read_ok_iff s n alignLeft out s').mp h
      rw [this.2.2]
    · simp [HexStream.read, hi] at h

theorem reads_index_mod (rs : List (JsValue × Bool)) :
    ∀ (s : HexStream) (outs : List (List Char)) (s' : HexStream),
      s.index % 32 = 0 → s.reads rs = .ok (outs, s') → s'.index % 32 = 0 := by
  induction rs with
  | nil =>
    intro s outs s' h0 h
    simp only [HexStream.reads, Except.ok.injEq, Prod.mk.injEq] at h
    rw [← h.2]
    exact h0
  | cons r rest ih =>
    intro s outs s' h0 h
    obtain ⟨v, a⟩ := r
    simp only [HexStream.reads] at h
    cases hr : s.read v a with
    | error e => simp [hr] at h
    | ok p =>
      obtain ⟨out, s1⟩ := p
      simp only [hr] at h
      cases hrest : s1.reads rest with
      | error e => simp [hrest] at h
      | ok q =>
        obtain ⟨outs1, s2⟩ := q
        simp only [hrest, Except.ok.injEq, Prod.mk.injEq] at h
        obtain ⟨n, _, hidx⟩ := read_ok_index s v a out s1 hr
        have h1 : s1.index % 32 = 0 := by
          rw [hidx, skip_eq]
          omega
        have := ih s1 outs1 s2 h1 hrest
        rw [← h.2]
        exact this

/-- C1: a successful `read(length, alignLeft)` returns exactly `length` bytes
(`2 * length` hex characters). Without `alignLeft` they are the last `length`
bytes of the consumed window, the pad bytes standing in front of them; with
`alignLeft` they are the first `length` bytes from the cursor on, and the
consumed window begins with them. -/
theorem read_returns_length_bytes (s : HexStream) (n : Nat) (alignLeft : Bool)
    (out : List Char) (s' : HexStream)
    (h : s.read (.int n) alignLeft = .ok (out, s')) :
    out.length = 2 * n ∧
    (alignLeft = false →
      ∃ pad, pad.length = 2 * (s'.index - s.index - n) ∧
        s.cut s.index (s'.index - s.index) = pad ++ out) ∧
    (alignLeft = true →
      out = (s.string.drop (2 * s.index)).take (2 * n) ∧
      ∃ rest, s.cut s.index (s'.index - s.index) = out ++ rest) := by
  obtain ⟨hout, hlen, hs'⟩ := (read_ok_iff s n alignLeft out s').mp h
  have hidx : s'.index - s.index = n + HexStream.skip n := by
    rw [hs']
    simp
  refine ⟨hlen, ?_, ?_⟩
  · intro ha
    subst ha
    simp only [Bool.false_eq_true, if_false] at hout
    refine ⟨s.cut s.index (HexStream.skip n), ?_, ?_⟩
    · have hc := cut_length s (s.index + HexStream.skip n) n
      rw [← hout, hlen] at hc
      rw [cut_length, hidx]
      by_cases hn : n = 0
      · subst hn
        have : HexStream.skip 0 = 0 := by decide
        rw [this]
        omega
      · omega
    · rw [hidx, Nat.add_comm n, cut_append, ← hout]
  · intro ha
    subst ha
    simp only [if_true] at hout
    have hc := cut_length s s.index n
    rw [← hout, hlen] at hc
    constructor
    · rw [hout]
      unfold HexStream.cut BYTE_CHARS
      by_cases hn : n = 0
      · subst hn
        simp [Js.substring]
      · rw [substring_eq _ _ _ (by omega) (by omega)]
        congr 1
        omega
    · refine ⟨s.cut (s.index + n) (HexStream.skip n), ?_⟩
      rw [hidx, cut_append, ← hout]

/-- A successful right-aligned read of one byte from a 32-byte word. -/
theorem read_returns_length_bytes_witness :
    ({ string := List.replicate 62 '0' ++ ['a', 'b'], index := 0 } : HexStream).read (.int 1) false
        = .ok (['a', 'b'], { string := List.replicate 62 '0' ++ ['a', 'b'], index := 32 }) ∧
      (['a', 'b'] : List Char).length = 2 * 1 :=
  ⟨rfl,
   (read_returns_length_bytes
      { string := List.replicate 62 '0' ++ ['a', 'b'], index := 0 } 1 false ['a', 'b']
      { string := List.replicate 62 '0' ++ ['a', 'b'], index := 32 } rfl).1⟩

/-- C2: a successful `read(length, alignLeft)` moves the cursor forward by
the least multiple of 32 that is at least `length` (0 for length 0), and a
cursor that starts at 0 is a multiple of 32 after any sequence of successful
reads. -/
theorem read_advances_to_word_boundary (s : HexStream) (n : Nat) (alignLeft : Bool)
    (out : List Char) (s' : HexStream)
    (t : HexStream) (rs : List (JsValue × Bool)) (outs : List (List Char)) (t' : HexStream)
    (h : s.read (.int n) alignLeft = .ok (out, s'))
    (ht : t.index = 0) (hrs : t.reads rs = .ok (outs, t')) :
    (∃ m, s'.index = s.index + m ∧ m % 32 = 0 ∧ n ≤ m ∧
      (∀ k, k % 32 = 0 → n ≤ k → m ≤ k) ∧ (n = 0 → m = 0)) ∧
    t'.index % 32 = 0 := by
  constructor
  · obtain ⟨_, _, hs'⟩ := (read_ok_iff s n alignLeft out s').mp h
    refine ⟨n + HexStream.skip n, ?_, ?_, ?_, ?_, ?_⟩
    · rw [hs']
    · rw [skip_eq]
      omega
    · omega
    · intro k hk hnk
      rw [skip_eq]
      omega
    · intro hn
      rw [skip_eq, hn]
  · exact reads_index_mod rs t outs t' (by rw [ht]) hrs

/-- A left-aligned read of one byte moves the cursor by 32, and two reads from
cursor 0 (of zero bytes and of one byte) leave it at 32. -/
theorem read_advances_to_word_boundary_witness :
    (∃ m, (32 : Nat) = 0 + m ∧ m % 32 = 0 ∧ 1 ≤ m ∧
      (∀ k, k % 32 = 0 → 1 ≤ k → m ≤ k) ∧ ((1 : Nat) = 0 → m = 0)) ∧
    (32 : Nat) % 32 = 0 :=
  read_advances_to_word_boundary
    { string := List.replicate 64 'f', index := 0 } 1 true
    ['f', 'f'] { string := List.replicate 64 'f', index := 32 }
    { string := List.replicate 64 'f', index := 0 }
    [(.int 0, false), (.int 1, false)]
    [[], ['f', 'f']]
    { string := List.replicate 64 'f', index := 32 }
    rfl rfl rfl

/-- C3: for a byte buffer `b`, `padBuffer(b, alignLeft)` has the least length
that is a multiple of 32 and at least the length of `b`; it is `b` itself when
that length is already a multiple of 32 (the empty buffer included), and
otherwise zero bytes followed by `b`, or `b` followed by zero bytes when
`alignLeft` is set. -/
theorem padBuffer_pads_to_word (ε : Type) (toBuffer : String → Except ε Buffer)
    (b : Buffer) (alignLeft : Bool) :
    ∃ (zeros padded : Buffer),
      padBuffer toBuffer (.buffer b) alignLeft = .ok padded ∧
      (∀ z ∈ zeros, z = 0) ∧
      padded = (if alignLeft then b ++ zeros else zeros ++ b) ∧
      padded.length % 32 = 0 ∧ b.length ≤ padded.length ∧
      (∀ k, k % 32 = 0 → b.length ≤ k → padded.length ≤ k) ∧
      (b.length % 32 = 0 → padded = b) := by
  by_cases hc : 0 < 32 - b.length % 32 ∧ 32 - b.length % 32 < 32
  · have hz : ∀ z ∈ ZERO_BUFFER.take (32 - b.length % 32), z = 0 := by
      intro z hzmem
      have := List.mem_of_mem_take hzmem
      exact (List.mem_replicate.mp this).2
    have hl : (ZERO_BUFFER.take (32 - b.length % 32)).length = 32 - b.length % 32 := by
      simp only [ZERO_BUFFER, List.length_take, List.length_replicate]
      omega
    cases alignLeft
    · refine ⟨ZERO_BUFFER.take (32 - b.length % 32), ZERO_BUFFER.take (32 - b.length % 32) ++ b,
        ?_, hz, by simp, ?_, ?_, ?_, ?_⟩
      · simp only [padBuffer, WORD_BYTES, pure, Except.pure, bind, Except.bind]
        rw [if_pos hc]
        simp
      · rw [List.length_append, hl]; omega
      · rw [List.length_append]; omega
      · intro k hk hbk; rw [List.length_append, hl]; omega
      · intro h0; omega
    · refine ⟨ZERO_BUFFER.take (32 - b.length % 32), b ++ ZERO_BUFFER.take (32 - b.length % 32),
        ?_, hz, by simp, ?_, ?_, ?_, ?_⟩
      · simp only [padBuffer, WORD_BYTES, pure, Except.pure, bind, Except.bind]
        rw [if_pos hc]
        simp
      · rw [List.length_append, hl]; omega
      · rw [List.length_append]; omega
      · intro k hk hbk; rw [List.length_append, hl]; omega
      · intro h0; omega
  · refine ⟨[], b, ?_, by simp, by cases alignLeft <;> simp, ?_, le_refl _, ?_, ?_⟩
    · simp only [padBuffer, WORD_BYTES, pure, Except.pure, bind, Except.bind]
      rw [if_neg hc]
    · omega
    · intro k _ hbk; exact hbk
    · intro _; rfl

/-- C4: when fewer than `length` bytes remain in the stream after the cursor,
`read(length, alignLeft)` throws the error `length not match`, which reports
the `2 * length` characters expected and the smaller number it got. -/
theorem read_fails_when_short (s : HexStream) (n : Nat) (alignLeft : Bool)
    (h : (s.string.length - 2 * s.index) / 2 < n) :
    ∃ got, got < 2 * n ∧
      s.read (.int n) alignLeft = .error (.lengthNotMatch (2 * n) got s) ∧
      (ReadError.lengthNotMatch (2 * n) got s).message = "length not match" := by
  have key : ∀ start, s.index ≤ start → (s.cut start n).length < 2 * n := by
    intro start hstart
    rw [cut_length]
    omega
  cases alignLeft
  · refine ⟨(s.cut (s.index + HexStream.skip n) n).length, key _ (by omega), ?_, rfl⟩
    have hne := Nat.ne_of_lt (key (s.index + HexStream.skip n) (by omega))
    simp only [HexStream.read, Int.natCast_nonneg, if_true, Int.toNat_ofNat, BYTE_CHARS,
      Bool.false_eq_true, if_false]
    rw [if_neg hne]
  · refine ⟨(s.cut s.index n).length, key _ (le_refl _), ?_, rfl⟩
    have hne := Nat.ne_of_lt (key s.index (le_refl _))
    simp only [HexStream.read, Int.natCast_nonneg, if_true, Int.toNat_ofNat, BYTE_CHARS]
    rw [if_neg hne]

/-- One byte is left after the cursor and two are asked for. -/
theorem read_fails_when_short_witness :
    ∃ got, got < 2 * 2 ∧
      ({ string := ['0', '1', '0', '2'], index := 1 } : HexStream).read (.int (2 : Nat)) true
        = .error (.lengthNotMatch (2 * 2) got { string := ['0', '1', '0', '2'], index := 1 }) ∧
      (ReadError.lengthNotMatch (2 * 2) got
        { string := ['0', '1', '0', '2'], index := 1 }).message = "length not match" :=
  read_fails_when_short { string := ['0', '1', '0', '2'], index := 1 } 2 true (by decide)

end AbiUtils

namespace ContractJs

theorem JsObject.get_set {κ ν : Type} [DecidableEq κ] (obj : JsObject κ ν) (k k' : κ) (v : ν) :
    (obj.set k v).get k' = if k = k' then some v else obj.get k' := by
  induction obj with
  | nil => simp [JsObject.set, JsObject.get]
  | cons p rest ih =>
    obtain ⟨k0, v0⟩ := p
    by_cases h0 : k0 = k
    · subst h0
      by_cases h1 : k0 = k' <;> simp [JsObject.set, JsObject.get, h1]
    · by_cases h1 : k0 = k'
      · subst h1
        have h2 : ¬ k = k0 := fun e => h0 e.symm
        simp [JsObject.set, JsObject.get, h0, h2]
      · simp [JsObject.set, JsObject.get, h0, h1, ih]

theorem JsObject.mem_set {κ ν : Type} [DecidableEq κ] (obj : JsObject κ ν) (k : κ) (v : ν)
    (p : κ × ν) (h : p ∈ obj.set k v) : p ∈ obj ∨ p = (k, v) := by
  induction obj with
  | nil =>
    simp only [JsObject.set, List.mem_singleton] at h
    exact Or.inr h
  | cons q rest ih =>
    obtain ⟨k0, v0⟩ := q
    by_cases h0 : k0 = k
    · subst h0
      simp only [JsObject.set, if_true, List.mem_cons] at h
      rcases h with h | h
      · exact Or.inr h
      · exact Or.inl (List.mem_cons_of_mem _ h)
    · simp only [JsObject.set, if_neg h0, List.mem_cons] at h
      rcases h with h | h
      · exact Or.inl (h ▸ List.mem_cons_self _ _)
      · rcases ih h with h' | h'
        · exact Or.inl (List.mem_cons_of_mem _ h')
        · exact Or.inr h'

/-- Every function member of a contract was made from a fragment of type
`function` of its interface description, without a `code` argument. -/
theorem members_function {α : Type} (newFunctionCoder : Fragment → FunctionCoder α)
    (newEventCoder : Fragment → EventCoder α) (code : Option (List Char))
    (S : Fragment → Prop) (l : List Fragment) :
    (∀ fr ∈ l, S fr) →
    ∀ props : JsObject String (Member α),
      (∀ key g, (key, Member.function g) ∈ props →
        ∃ fr, S fr ∧ fr.type = "function" ∧ g = ContractFunction.new newFunctionCoder fr none) →
      ∀ key g,
        (key, Member.function g)
          ∈ l.foldl (Contract.addFragment newFunctionCoder newEventCoder code) props →
        ∃ fr, S fr ∧ fr.type = "function" ∧ g = ContractFunction.new newFunctionCoder fr none := by
  induction l with
  | nil =>
    intro _ props hp key g hmem
    exact hp key g hmem
  | cons fr rest ih =>
    intro hS props hp key g hmem
    simp only [List.foldl_cons] at hmem
    refine ih (fun x hx => hS x (List.mem_cons_of_mem _ hx)) _ ?_ key g hmem
    intro key' g' hmem'
    unfold Contract.addFragment at hmem'
    split at hmem'
    · rcases JsObject.mem_set _ _ _ _ hmem' with h | h
      · exact hp key' g' h
      · simp at h
    · split at hmem'
      · rename_i hty
        rcases JsObject.mem_set _ _ _ _ hmem' with h | h
        · exact hp key' g' h
        · simp only [Prod.mk.injEq, Member.function.injEq] at h
          exact ⟨fr, hS fr (List.mem_cons_self _ _), hty, h.2⟩
      · split at hmem'
        · rcases JsObject.mem_set _ _ _ _ hmem' with h | h
          · exact hp key' g' h
          · simp at h
        · exact hp key' g' hmem'

/-- What the loop of the `ABI` constructor leaves in `_codeToFunction`: every
entry was there before or is a function member stored under its code, and
every function member has an entry under its code. -/
theorem addAll_codeToFunction {α : Type} (props : List (String × Member α)) :
    ∀ (abi0 abi : ABI α), ABI.addAll abi0 props = .ok abi →
      (∀ k g, abi._codeToFunction.get k = some g →
        abi0._codeToFunction.get k = some g ∨
          (g.code = k ∧ ∃ key, (key, Member.function g) ∈ props)) ∧
      (∀ k, (abi0._codeToFunction.get k).isSome → (abi._codeToFunction.get k).isSome) ∧
      (∀ key g, (key, Member.function g) ∈ props →
        (abi._codeToFunction.get g.code).isSome) := by
  induction props with
  | nil =>
    intro abi0 abi h
    simp only [ABI.addAll, Except.ok.injEq] at h
    subst h
    refine ⟨fun k g hg => Or.inl hg, fun k hk => hk, ?_⟩
    intro key g hmem
    cases hmem
  | cons p rest ih =>
    intro abi0 abi h
    obtain ⟨key0, inst⟩ := p
    simp only [ABI.addAll] at h
    cases hadd : abi0.add inst with
    | error e => simp [hadd] at h
    | ok abi1 =>
      simp only [hadd] at h
      obtain ⟨ih1, ih2, ih3⟩ := ih abi1 abi h
      have hstep : (∀ k g, abi1._codeToFunction.get k = some g →
            abi0._codeToFunction.get k = some g ∨ (g.code = k ∧ inst = Member.function g)) ∧
          (∀ k, (abi0._codeToFunction.get k).isSome → (abi1._codeToFunction.get k).isSome) ∧
          (∀ g, inst = Member.function g → (abi1._codeToFunction.get g.code).isSome) := by
        cases inst with
        | address a =>
          cases a with
          | none => simp [ABI.add] at hadd
          | some a =>
            simp only [ABI.add, Except.ok.injEq] at hadd
            subst hadd
            exact ⟨fun k g hg => Or.inl hg, fun k hk => hk, fun g hg => by cases hg⟩
        | ctor c =>
          simp only [ABI.add, Except.ok.injEq] at hadd
          subst hadd
          exact ⟨fun k g hg => Or.inl hg, fun k hk => hk, fun g hg => by cases hg⟩
        | event e =>
          simp only [ABI.add, Except.ok.injEq] at hadd
          subst hadd
          exact ⟨fun k g hg => Or.inl hg, fun k hk => hk, fun g hg => by cases hg⟩
        | abi a =>
          simp only [ABI.add, Except.ok.injEq] at hadd
          subst hadd
          exact ⟨fun k g hg => Or.inl hg, fun k hk => hk, fun g hg => by cases hg⟩
        | function f =>
          simp only [ABI.add, Except.ok.injEq] at hadd
          subst hadd
          refine ⟨?_, ?_, ?_⟩
          · intro k g hg
            simp only [JsObject.get_set] at hg
            by_cases hk : f.code = k
            · simp only [hk, if_true, Option.some.injEq] at hg
              subst hg
              exact Or.inr ⟨hk, rfl⟩
            · simp only [hk, if_false] at hg
              exact Or.inl hg
          · intro k hk
            simp only [JsObject.get_set]
            by_cases hfk : f.code = k
            · simp [hfk]
            · simpa [hfk] using hk
          · intro g hg
            simp only [Member.function.injEq] at hg
            subst hg
            simp [JsObject.get_set]
      obtain ⟨s1, s2, s3⟩ := hstep
      refine ⟨?_, ?_, ?_⟩
      · intro k g hg
        rcases ih1 k g hg with h1 | ⟨hc, key, hmem⟩
        · rcases s1 k g h1 with h0 | ⟨hc, hinst⟩
          · exact Or.inl h0
          · exact Or.inr ⟨hc, key0, by rw [hinst]; exact List.mem_cons_self _ _⟩
        · exact Or.inr ⟨hc, key, List.mem_cons_of_mem _ hmem⟩
      · intro k hk
        exact ih2 k (s2 k hk)
      · intro key g hmem
        rcases List.mem_cons.mp hmem with heq | hmem'
        · simp only [Prod.mk.injEq] at heq
          exact ih2 _ (s3 g heq.2.symm)
        · exact ih3 key g hmem'

/-- The call data made by `encode` under a lawful coder: the function code,
then the encoded arguments, which the coder decodes back. -/
theorem encode_shape {α : Type} (f : ContractFunction α) (hlaw : f.coder.Lawful)
    (hcode : f.code = f.coder.signature) (args : α) (data : List Char)
    (henc : f.encode args = .ok data) :
    ∃ body : List Char, data = f.code ++ body ∧ f.code.length = 10 ∧
      f.coder.decodeInputs body = .ok args := by
  obtain ⟨⟨sel, hsig, hsel⟩, hround⟩ := hlaw
  unfold ContractFunction.encode at henc
  cases he : f.coder.encodeInputs args with
  | error e => simp [he] at henc
  | ok hex =>
    simp only [he, Except.ok.injEq] at henc
    obtain ⟨body, hhex, hdec⟩ := hround args hex he
    refine ⟨body, ?_, ?_, hdec⟩
    · rw [← henc, hcode, hsig, hhex]
      simp [Hex.concat, Hex.strip]
    · rw [hcode, hsig]
      simp [hsel]

/-- With call data that begins with its code, `params` decodes what follows. -/
theorem params_code_append {α : Type} (f : ContractFunction α) (body : List Char) (args : α)
    (hdec : f.coder.decodeInputs body = .ok args) :
    f.params (f.code ++ body) = .ok (some args) := by
  unfold ContractFunction.params Js.startsWith Js.sliceFrom
  have h1 : f.code.isPrefixOf (f.code ++ body) = true := by
    rw [List.isPrefixOf_iff_prefix]
    exact List.prefix_append _ _
  simp [h1, hdec]

/-- C5: in a contract whose function fragments have pairwise distinct
selectors (and whose coders keep the promises of the spec), for every function
member `f` and argument list `args` that `f.encode` accepts,
`abi.decodeData(f.encode(args))` returns `{ name: f.fragment.name, params:
args }`: the call data is the code of `f` followed by the encoded arguments,
its first 10 characters find `f` again, and `f.params` decodes the rest. -/
theorem decodeData_encode {α : Type} (newFunctionCoder : Fragment → FunctionCoder α)
    (newEventCoder : Fragment → EventCoder α)
    (contractABI : List Fragment) (address code : Option (List Char))
    (contract : Contract α)
    (hnew : Contract.new newFunctionCoder newEventCoder contractABI address code = .ok contract)
    (hlaw : ∀ fr ∈ contractABI, fr.type = "function" → (newFunctionCoder fr).Lawful)
    (hdistinct : ∀ fr ∈ contractABI, ∀ fr' ∈ contractABI,
      fr.type = "function" → fr'.type = "function" →
      (newFunctionCoder fr).signature = (newFunctionCoder fr').signature → fr = fr')
    (key : String) (f : ContractFunction α)
    (hf : (key, Member.function f) ∈ contract.props)
    (args : α) (data : List Char) (henc : f.encode args = .ok data) :
    ∃ abi, contract.abi = some abi ∧
      data = f.code ++ List.drop 10 data ∧ f.code.length = 10 ∧
      abi._codeToFunction.get (Js.sliceTo data 10) = some f ∧
      f.coder.decodeInputs (List.drop 10 data) = .ok args ∧
      abi.decodeData data = .ok (some { name := f.fragment.name, params := some args }) := by
  unfold Contract.new at hnew
  simp only at hnew
  cases habi : ABI.new
      (Contract.members newFunctionCoder newEventCoder contractABI address code) with
  | error e => simp [habi] at hnew
  | ok abi =>
    simp only [habi, Except.ok.injEq] at hnew
    subst hnew
    refine ⟨abi, ?_, ?_⟩
    · simp [Contract.abi, JsObject.get_set]
    -- the function members come from the fragments
    have hmem : (key, Member.function f)
        ∈ Contract.members newFunctionCoder newEventCoder contractABI address code := by
      rcases JsObject.mem_set _ _ _ _ hf with h | h
      · exact h
      · simp at h
    have hfrom := members_function newFunctionCoder newEventCoder code (· ∈ contractABI)
      contractABI (fun _ h => h) [("address", Member.address address)]
      (by
        intro key g hg
        simp at hg)
    obtain ⟨fr, hfr, hty, hfeq⟩ := hfrom key f hmem
    have hcode : f.code = f.coder.signature := by rw [hfeq]; rfl
    have hlawf : f.coder.Lawful := by rw [hfeq]; exact hlaw fr hfr hty
    obtain ⟨body, hdata, hlen, hdec⟩ := encode_shape f hlawf hcode args data henc
    have hdrop : List.drop 10 data = body := by
      rw [hdata, ← hlen, List.drop_left]
    have htake : Js.sliceTo data 10 = f.code := by
      unfold Js.sliceTo
      rw [hdata, ← hlen, List.take_left]
    -- the lookup finds `f`
    obtain ⟨hsound, _, hcomplete⟩ := addAll_codeToFunction _ _ abi habi
    have hget : abi._codeToFunction.get f.code = some f := by
      have hsome := hcomplete key f hmem
      obtain ⟨g, hg⟩ := Option.isSome_iff_exists.mp hsome
      rcases hsound _ _ hg with h0 | ⟨hgc, key', hg'⟩
      · simp [JsObject.get] at h0
      · obtain ⟨fr', hfr', hty', hgeq⟩ := hfrom key' g hg'
        have hsig : (newFunctionCoder fr').signature = (newFunctionCoder fr).signature := by
          have h1 : g.code = (newFunctionCoder fr').signature := by rw [hgeq]; rfl
          have h2 : f.code = (newFunctionCoder fr).signature := by rw [hfeq]; rfl
          rw [← h1, ← h2, hgc]
        have : fr' = fr := hdistinct fr' hfr' fr hfr hty' hty hsig
        rw [hg, hgeq, hfeq, this]
    refine ⟨?_, hlen, ?_, ?_, ?_⟩
    · rw [hdrop]; exact hdata
    · rw [htake]; exact hget
    · rw [hdrop]; exact hdec
    · unfold ABI.decodeData
      rw [htake, hget]
      simp only
      rw [hdata, params_code_append f body args hdec]

theorem Example.functionCoder_lawful (fragment : Fragment) :
    (Example.functionCoder fragment).Lawful := by
  refine ⟨⟨_, rfl, by simp⟩, ?_⟩
  intro args hex h
  simp only [Example.functionCoder, Except.ok.injEq] at h
  exact ⟨args, h.symm, rfl⟩

/-- In a contract with the functions `inc(uint256)` and `count()`, the call
data of `inc` with the arguments `2a` is decoded to `inc` and `2a`. -/
theorem decodeData_encode_witness :
    ∃ contract : Contract (List Char),
      Contract.new Example.functionCoder Example.eventCoder [Example.inc, Example.count]
        (some "0xc3ed".toList) none = .ok contract ∧
      ∃ abi, contract.abi = some abi ∧
        abi.decodeData "0x111111112a".toList
          = .ok (some { name := some "inc", params := some ['2', 'a'] }) := by
  refine ⟨_, rfl, ?_⟩
  obtain ⟨abi, h1, _, _, _, _, h2⟩ :=
    decodeData_encode Example.functionCoder Example.eventCoder [Example.inc, Example.count]
      (some "0xc3ed".toList) none _ rfl
      (fun fr _ _ => Example.functionCoder_lawful fr)
      (by decide)
      "inc" (ContractFunction.new Example.functionCoder Example.inc none)
      (List.Mem.tail _ (List.Mem.head _))
      ['2', 'a'] "0x111111112a".toList rfl
  exact ⟨abi, h1, h2⟩

end ContractJs

namespace Accounts

open ContractJs (JsError)

theorem Example.split_append (x : List Char) (hx : '|' ∉ x) :
    ∀ (acc rest : List Char),
      Example.split acc (x ++ '|' :: rest) = (acc.reverse ++ x) :: Example.split [] rest := by
  induction x with
  | nil =>
    intro acc rest
    simp [Example.split]
  | cons c cs ih =>
    intro acc rest
    have hc : c ≠ '|' := fun e => hx (e ▸ List.mem_cons_self _ _)
    have hcs : '|' ∉ cs := fun h => hx (List.mem_cons_of_mem _ h)
    rw [List.cons_append, Example.split, if_neg hc, ih hcs]
    simp

theorem Example.split_join (xs : List (List Char)) (hxs : ∀ x ∈ xs, '|' ∉ x) :
    Example.split [] (Example.join xs) = xs := by
  induction xs with
  | nil => rfl
  | cons x rest ih =>
    simp only [Example.join]
    rw [Example.split_append x (hxs x (List.mem_cons_self _ _))]
    rw [ih (fun y hy => hxs y (List.mem_cons_of_mem _ hy))]
    simp

/-- The stand-in encoding is undone by the stand-in decoding. -/
theorem Example.lib_roundtrip (values : List (List Char)) (raw : List Char)
    (h : Example.lib.rlpEncode values = .ok raw) : Example.lib.rlpDecode raw = .ok values := by
  simp only [Example.lib] at h ⊢
  split at h
  · rename_i hall
    simp only [Except.ok.injEq] at h
    subst h
    rw [Example.split_join]
    intro x hx
    have := List.all_eq_true.mp hall x hx
    simpa using this
  · cases h

/-- The values that `recoverValues` reads of a list with twelve fields do not
include the last three. -/
theorem recoverValues_twelve (lib : CfxLib)
    (nonce gasPrice gas to_ value storageLimit epochHeight chainId data v r s : List Char) :
    recoverValues lib
        [nonce, gasPrice, gas, to_, value, storageLimit, epochHeight, chainId, data, v, r, s]
      = recoverValues lib
        [nonce, gasPrice, gas, to_, value, storageLimit, epochHeight, chainId, data] := by
  rfl

/-- C6: what `recoverTransaction` does with an envelope made by `sign`. It
does not give the address of the key back: the signature `(v, r, s)` that
`sign` appends is never read, the result is computed from the nine fields of
the transaction alone, so the same transaction signed with any two keys is
recovered to the same result. -/
theorem recoverTransaction_sign_ignores_key (lib : CfxLib) (curve : Curve)
    (hrlp : ∀ values raw, lib.rlpEncode values = .ok raw → lib.rlpDecode raw = .ok values)
    (tx : Transaction) (key key' : List Char) (signed signed' : SignedTransaction)
    (h : sign lib curve tx key = .ok signed) (h' : sign lib curve tx key' = .ok signed') :
    recoverTransaction lib signed.rawTransaction = recoverValues lib tx.fields ∧
    recoverTransaction lib signed'.rawTransaction
      = recoverTransaction lib signed.rawTransaction := by
  have key_free : ∀ (k : List Char) (sg : SignedTransaction), sign lib curve tx k = .ok sg →
      recoverTransaction lib sg.rawTransaction = recoverValues lib tx.fields := by
    intro k sg hs
    unfold sign at hs
    cases h1 : lib.rlpEncode tx.fields with
    | error e => simp [h1] at hs
    | ok unsigned =>
      simp only [h1] at hs
      cases h2 : curve.ecSign (lib.keccak256 unsigned) k with
      | error e => simp [h2] at hs
      | ok sig =>
        obtain ⟨v, r, s⟩ := sig
        simp only [h2] at hs
        cases h3 : lib.rlpEncode (tx.fields ++ [v, r, s]) with
        | error e => simp [h3] at hs
        | ok raw =>
          simp only [h3, Except.ok.injEq] at hs
          subst hs
          unfold recoverTransaction
          simp only
          rw [hrlp _ _ h3]
          exact recoverValues_twelve lib _ _ _ _ _ _ _ _ _ v r s
  constructor
  · exact key_free key signed h
  · rw [key_free key signed h, key_free key' signed' h']

/-- The same transaction signed with the keys `0xa` and `0xb` in the stand-in
library: both envelopes are recovered alike, to an error, while the address of
the first key is `0xa`. -/
theorem recoverTransaction_sign_ignores_key_witness :
    ∃ signed signed' : SignedTransaction,
      sign Example.lib Example.curve Example.tx "0xa".toList = .ok signed ∧
      sign Example.lib Example.curve Example.tx "0xb".toList = .ok signed' ∧
      (recoverTransaction Example.lib signed.rawTransaction
          = recoverValues Example.lib Example.tx.fields ∧
        recoverTransaction Example.lib signed'.rawTransaction
          = recoverTransaction Example.lib signed.rawTransaction) ∧
      recoverTransaction Example.lib signed.rawTransaction = .error "invalid signature" ∧
      Example.curve.addressOf "0xa".toList = .ok "0xa".toList :=
  ⟨_, _, rfl, rfl,
    recoverTransaction_sign_ignores_key Example.lib Example.curve Example.lib_roundtrip
      Example.tx "0xa".toList "0xb".toList _ _ rfl rfl,
    rfl, rfl⟩

/-- C7: the fields that `recoverTransaction` reads of a decoded envelope with
the twelve fields `[nonce, gasPrice, gas, to, value, storageLimit, epochHeight,
chainId, data, v, r, s]`. The signature is taken from the fields 6 to 8, which
are `epochHeight`, `chainId` and `data` (not from `v`, `r`, `s`); the recovery
value is `epochHeight`; the signing payload begins with the first six fields
only and has at most three more, so `epochHeight`, `chainId` and `data` are
not put back into it. -/
theorem recoverTransaction_fields_read (lib : CfxLib)
    (nonce gasPrice gas to_ value storageLimit epochHeight chainId data v r s : List Char) :
    signatureFields
        [nonce, gasPrice, gas, to_, value, storageLimit, epochHeight, chainId, data, v, r, s]
      = [epochHeight, chainId, data] ∧
    recoveryField
        [nonce, gasPrice, gas, to_, value, storageLimit, epochHeight, chainId, data, v, r, s]
      = some epochHeight ∧
    ∀ recovery : Js.Number,
      signingData lib
          [nonce, gasPrice, gas, to_, value, storageLimit, epochHeight, chainId, data, v, r, s]
          recovery
        = [nonce, gasPrice, gas, to_, value, storageLimit] ++ extraData lib recovery ∧
      ((extraData lib recovery).length = 0 ∨ (extraData lib recovery).length = 3) := by
  refine ⟨rfl, rfl, ?_⟩
  intro recovery
  refine ⟨rfl, ?_⟩
  unfold extraData
  split
  · exact Or.inl rfl
  · exact Or.inr rfl

/-- C8, as stated, fails: an envelope that decodes to nine fields is not
rejected, an address is computed from it. -/
theorem recoverTransaction_accepts_nine_fields :
    (Example.lib.rlpDecode
        "0x1|0x2|0x3|0x4|0x5|0x6|0x27|0xsigner|0x1,0x2,0x3,0x4,0x5,0x6,|".toList).map
          List.length = .ok 9 ∧
    recoverTransaction Example.lib
        "0x1|0x2|0x3|0x4|0x5|0x6|0x27|0xsigner|0x1,0x2,0x3,0x4,0x5,0x6,|".toList
      = .ok "0xsigner".toList :=
  ⟨rfl, rfl⟩

/-- C8, amended: `recoverTransaction` makes no check of the number of fields.
Whatever the decoded list, when the library calls it makes succeed (decoding,
encoding of the signature, reading of the recovery value, encoding of the
signing payload, recovering) it returns the recovered address; and an error it
throws is the error of one of these calls. -/
theorem recoverTransaction_no_count_check (lib : CfxLib) (rawTx : List Char)
    (values : List (List Char)) (signature : List Char) (recovery : Js.Number)
    (signingDataHex address : List Char)
    (h1 : lib.rlpDecode rawTx = .ok values)
    (h2 : lib.encodeSignature (signatureFields values) = .ok signature)
    (h3 : lib.toNumber (recoveryField values) = .ok recovery)
    (h4 : lib.rlpEncode (signingData lib values recovery) = .ok signingDataHex)
    (h5 : lib.recover (lib.keccak256 signingDataHex) signature = .ok address) :
    recoverTransaction lib rawTx = .ok address ∧
    ∀ (raw : List Char) (e : JsError), recoverTransaction lib raw = .error e →
      lib.rlpDecode raw = .error e ∨
      ∃ vs, lib.rlpDecode raw = .ok vs ∧
        (lib.encodeSignature (signatureFields vs) = .error e ∨
         lib.toNumber (recoveryField vs) = .error e ∨
         ∃ rec, lib.toNumber (recoveryField vs) = .ok rec ∧
          (lib.rlpEncode (signingData lib vs rec) = .error e ∨
           ∃ hex sig, lib.rlpEncode (signingData lib vs rec) = .ok hex ∧
            lib.encodeSignature (signatureFields vs) = .ok sig ∧
            lib.recover (lib.keccak256 hex) sig = .error e)) := by
  constructor
  · simp only [recoverTransaction, recoverValues, h1, h2, h3, h4, h5]
  · intro raw e he
    unfold recoverTransaction at he
    cases d1 : lib.rlpDecode raw with
    | error e1 =>
      simp only [d1, Except.error.injEq] at he
      exact Or.inl (by rw [he])
    | ok vs =>
      right
      refine ⟨vs, rfl, ?_⟩
      simp only [d1] at he
      unfold recoverValues at he
      cases d2 : lib.encodeSignature (signatureFields vs) with
      | error e2 =>
        simp only [d2, Except.error.injEq] at he
        exact Or.inl (by rw [he])
      | ok sig =>
        simp only [d2] at he
        cases d3 : lib.toNumber (recoveryField vs) with
        | error e3 =>
          simp only [d3, Except.error.injEq] at he
          exact Or.inr (Or.inl (by rw [he]))
        | ok rec =>
          simp only [d3] at he
          refine Or.inr (Or.inr ⟨rec, rfl, ?_⟩)
          cases d4 : lib.rlpEncode (signingData lib vs rec) with
          | error e4 =>
            simp only [d4, Except.error.injEq] at he
            exact Or.inl (by rw [he])
          | ok hex =>
            simp only [d4] at he
            exact Or.inr ⟨hex, sig, rfl, rfl, he⟩

/-- An envelope of nine fields in the stand-in library. -/
theorem recoverTransaction_no_count_check_witness :
    recoverTransaction Example.lib
        "0x1|0x2|0x3|0x4|0x5|0x6|0x27|0xsigner|0x1,0x2,0x3,0x4,0x5,0x6,|".toList
      = .ok "0xsigner".toList :=
  (recoverTransaction_no_count_check Example.lib
    "0x1|0x2|0x3|0x4|0x5|0x6|0x27|0xsigner|0x1,0x2,0x3,0x4,0x5,0x6,|".toList
    ["0x1".toList, "0x2".toList, "0x3".toList, "0x4".toList, "0x5".toList, "0x6".toList,
      "0x27".toList, "0xsigner".toList, "0x1,0x2,0x3,0x4,0x5,0x6,".toList]
    "0x27|0xsigner|0x1,0x2,0x3,0x4,0x5,0x6,|".toList (.int 27)
    "0x1|0x2|0x3|0x4|0x5|0x6|".toList "0xsigner".toList rfl rfl rfl rfl rfl).1

/-- C9, as stated, fails for the chain id `2^30`: with `v = 35 + 2 * 2^30` the
chain id computed is `-2^30`, and the field appended is made from it. -/
theorem replayChainId_overflow :
    replayChainId (.int (35 + 2 * 1073741824 + 0)) = -1073741824 ∧
    replayChainId (.int (35 + 2 * 1073741824 + 0)) ≠ 1073741824 ∧
    extraData Example.lib (.int (35 + 2 * 1073741824 + 0))
      = [Example.lib.fromNumber (-1073741824), ['0', 'x'], ['0', 'x']] := by
  refine ⟨by decide, by decide, ?_⟩
  rfl

/-- C9, amended: for a chain id `c` below `2^30` and a parity bit `p`, when the
recovery value is `35 + 2 * c + p` the chain id computed, `(v - 35) >> 1`, is
`c`, and exactly the three fields `[c, 0x, 0x]` are appended to the leading
fields; when the recovery value is below 35 nothing is appended. -/
theorem signingData_replay_fields (lib : CfxLib) (values : List (List Char))
    (c p : Nat) (v : Int) (hc : c < 2 ^ 30) (hp : p ≤ 1) (hv : v < 35) :
    replayChainId (.int (35 + 2 * (c : Int) + p)) = c ∧
    signingData lib values (.int (35 + 2 * (c : Int) + p))
      = leadingFields values ++ [lib.fromNumber c, ['0', 'x'], ['0', 'x']] ∧
    signingData lib values (.int v) = leadingFields values := by
  have hid : replayChainId (.int (35 + 2 * (c : Int) + p)) = c := by
    unfold replayChainId Js.subShiftRight Js.toInt32
    norm_num
    omega
  refine ⟨hid, ?_, ?_⟩
  · unfold signingData extraData
    have hlt : (Js.Number.int (35 + 2 * (c : Int) + p)).lt 35 = false := by
      simp only [Js.Number.lt, decide_eq_false_iff_not]
      omega
    rw [hlt, hid]
    simp
  · unfold signingData extraData
    have hlt : (Js.Number.int v).lt 35 = true := by
      simp only [Js.Number.lt, decide_eq_true_eq]
      exact hv
    rw [hlt]
    simp

/-- Chain id 1 with parity 0 (`v = 37`), and the recovery value 27. -/
theorem signingData_replay_fields_witness :
    replayChainId (.int (35 + 2 * ((1 : Nat) : Int) + (0 : Nat))) = (1 : Nat) ∧
    signingData Example.lib Example.tx.fields (.int (35 + 2 * ((1 : Nat) : Int) + (0 : Nat)))
      = leadingFields Example.tx.fields
        ++ [Example.lib.fromNumber (1 : Nat), ['0', 'x'], ['0', 'x']] ∧
    signingData Example.lib Example.tx.fields (.int 27) = leadingFields Example.tx.fields :=
  signingData_replay_fields Example.lib Example.tx.fields 1 0 27 (by decide) (by decide)
    (by decide)

end Accounts

namespace Poll

theorem truthy_eq_true_iff (value : Option Hash) : truthy value = true ↔ value ≠ none := by
  cases value with
  | none => simp [truthy]
  | some hash =>
    obtain ⟨hex, hne⟩ := hash
    cases hex with
    | nil => exact absurd rfl hne
    | cons c cs => simp [truthy]

/-- One run of the callback of `mined` when the node answers with a record. -/
theorem minedStep_record (pt : PendingTransaction) (txHash : List Char) (w : World)
    (tx : TxRecord) (hhash : pt.txHash = .ok txHash)
    (hreply : (pt.cfx.getTransactionByHash w.txRequests txHash).result = .ok (some tx)) :
    pt.minedStep w =
      (if tx.blockHash ≠ none then .ok (some tx) else .ok none,
        { w with now := w.now + (pt.cfx.getTransactionByHash w.txRequests txHash).took,
                 txRequests := w.txRequests + 1 }) := by
  unfold PendingTransaction.minedStep PendingTransaction.get sleep
  simp only [hhash, Option.getD_none, Nat.add_zero, hreply]
  by_cases hb : tx.blockHash = none
  · simp [hb, truthy]
  · have : truthy tx.blockHash = true := (truthy_eq_true_iff _).mpr hb
    simp [this, hb]

/-- The polling loop of `mined` over `k` records that are not mined followed
by one that is. -/
theorem loopFrom_mined (pt : PendingTransaction) (txHash : List Char)
    (hhash : pt.txHash = .ok txHash) (start delta timeout : Nat) (tx : TxRecord)
    (hb : tx.blockHash ≠ none) (k : Nat) :
    ∀ (w : World),
      (∀ i, i < k → ∃ r, (pt.cfx.getTransactionByHash (w.txRequests + i) txHash).result
          = .ok (some r) ∧ r.blockHash = none) →
      (pt.cfx.getTransactionByHash (w.txRequests + k) txHash).result = .ok (some tx) →
      (w.now + Finset.sum (Finset.range k)
          (fun i => (pt.cfx.getTransactionByHash (w.txRequests + i) txHash).took + delta))
        - start < timeout →
      (∀ fuel, k < fuel →
        ∃ w', loopFrom start delta timeout (fun w => some (pt.minedStep w)) fuel w
            = some (.ok tx, w') ∧
          w'.txRequests = w.txRequests + (k + 1)) ∧
      (∀ fuel, fuel ≤ k →
        loopFrom start delta timeout (fun w => some (pt.minedStep w)) fuel w = none) := by
  induction k with
  | zero =>
    intro w _ hmined htime
    simp only [Finset.range_zero, Finset.sum_empty, Nat.add_zero] at htime hmined
    constructor
    · intro fuel hfuel
      obtain ⟨f, rfl⟩ : ∃ f, fuel = f + 1 := ⟨fuel - 1, by omega⟩
      refine ⟨{ w with
          now := w.now + (pt.cfx.getTransactionByHash w.txRequests txHash).took,
          txRequests := w.txRequests + 1 }, ?_, rfl⟩
      rw [loopFrom, if_pos htime]
      simp only [minedStep_record pt txHash w tx hhash hmined, hb, ne_eq, not_false_eq_true,
        if_true]
    · intro fuel hfuel
      have : fuel = 0 := by omega
      subst this
      rfl
  | succ k ih =>
    intro w hnull hmined htime
    obtain ⟨r, hr, hrb⟩ := hnull 0 (by omega)
    simp only [Nat.add_zero] at hr
    rw [Finset.sum_range_succ'] at htime
    simp only [Nat.add_zero] at htime
    have hnow : w.now - start < timeout := by omega
    have hstep := minedStep_record pt txHash w r hhash hr
    simp only [hrb, ne_eq, not_true_eq_false, if_false] at hstep
    have hih := ih
      (sleep delta { w with
        now := w.now + (pt.cfx.getTransactionByHash w.txRequests txHash).took,
        txRequests := w.txRequests + 1 })
      (by
        intro i hi
        obtain ⟨r', hr', hrb'⟩ := hnull (i + 1) (by omega)
        refine ⟨r', ?_, hrb'⟩
        simp only [sleep]
        rw [← hr']
        congr 2
        omega)
      (by
        simp only [sleep]
        rw [← hmined]
        congr 2
        omega)
      (by
        simp only [sleep]
        have hsum : Finset.sum (Finset.range k) (fun i =>
              (pt.cfx.getTransactionByHash (w.txRequests + 1 + i) txHash).took + delta)
            = Finset.sum (Finset.range k) (fun i =>
              (pt.cfx.getTransactionByHash (w.txRequests + (i + 1)) txHash).took + delta) := by
          apply Finset.sum_congr rfl
          intro i _
          congr 3
          omega
        rw [hsum]
        omega)
    obtain ⟨ih1, ih2⟩ := hih
    constructor
    · intro fuel hfuel
      obtain ⟨f, rfl⟩ : ∃ f, fuel = f + 1 := ⟨fuel - 1, by omega⟩
      obtain ⟨w', hw', hreq⟩ := ih1 f (by omega)
      refine ⟨w', ?_, ?_⟩
      · rw [loopFrom, if_pos hnow]
        simp only [hstep]
        exact hw'
      · rw [hreq]
        simp only [sleep]
        omega
    · intro fuel hfuel
      cases fuel with
      | zero => rfl
      | succ f =>
        rw [loopFrom, if_pos hnow]
        simp only [hstep]
        exact ih2 f (by omega)

/-- C10: when the first `k` polls of "get transaction by hash" return records
whose `blockHash` is `null` and the next one a record whose `blockHash` is not
`null`, and that poll still begins within the timeout, `mined` resolves with
that record, the first one with a `blockHash`, after exactly `k + 1` polls: it
has not resolved after `k` or fewer iterations. -/
theorem mined_resolves_with_first_mined_record (pt : PendingTransaction)
    (txHash : List Char) (options : Options) (w : World) (tx : TxRecord) (k fuel : Nat)
    (hhash : pt.txHash = .ok txHash)
    (hnull : ∀ i, i < k →
      ∃ r, (pt.cfx.getTransactionByHash (w.txRequests + i) txHash).result = .ok (some r) ∧
        r.blockHash = none)
    (hmined : (pt.cfx.getTransactionByHash (w.txRequests + k) txHash).result = .ok (some tx))
    (hb : tx.blockHash ≠ none)
    (htime : Finset.sum (Finset.range k)
        (fun i => (pt.cfx.getTransactionByHash (w.txRequests + i) txHash).took
          + options.delta.getD 1000)
      < options.timeout.getD (60 * 1000))
    (hfuel : k < fuel) :
    (∃ w', pt.mined fuel options w = some (.ok tx, w') ∧
      w'.txRequests = w.txRequests + (k + 1)) ∧
    (∀ n, n ≤ k → pt.mined n options w = none) := by
  obtain ⟨h1, h2⟩ := loopFrom_mined pt txHash hhash w.now (options.delta.getD 1000)
    (options.timeout.getD (60 * 1000)) tx hb k w hnull hmined (by omega)
  exact ⟨h1 fuel hfuel, h2⟩

/-- The node returns `blockHash = null` twice and then a block hash: `mined`
resolves with the third record, after the third poll and not earlier. -/
theorem mined_resolves_with_first_mined_record_witness :
    (∃ w', Example.handle.mined 5 Options.none Example.world
        = some (.ok Example.minedRecord, w') ∧
      w'.txRequests = Example.world.txRequests + (2 + 1)) ∧
    (∀ n, n ≤ 2 → Example.handle.mined n Options.none Example.world = none) :=
  mined_resolves_with_first_mined_record Example.handle "0xabc".toList Options.none
    Example.world Example.minedRecord 2 5 rfl
    (by
      intro i hi
      refine ⟨Example.pending, ?_, rfl⟩
      have : i < 2 := hi
      simp [Example.handle, Example.node, Example.world, this])
    rfl (by decide) (by decide) (by decide)

/-! ### The polling loop in general -/

/-- The polling loop over `k` iterations in which the callback returns
`undefined`, within the timeout: it has not ended with `k` or fewer iterations
of fuel, and with more it goes on from the world reached after them. -/
theorem loopFrom_after {ρ : Type} (start delta timeout : Nat)
    (func : World → Option (Except PollError (Option ρ) × World)) (ws : Nat → World) (k : Nat)
    (hpend : ∀ i, i < k → ∃ w', func (ws i) = some (.ok none, w') ∧ ws (i + 1) = sleep delta w')
    (htime : ∀ i, i < k → (ws i).now - start < timeout) :
    (∀ fuel, fuel ≤ k → loopFrom start delta timeout func fuel (ws 0) = none) ∧
    (∀ fuel, k < fuel →
      loopFrom start delta timeout func fuel (ws 0)
        = loopFrom start delta timeout func (fuel - k) (ws k)) := by
  induction k with
  | zero =>
    constructor
    · intro fuel hfuel
      have : fuel = 0 := by omega
      subst this
      rfl
    · intro fuel _
      rfl
  | succ k ih =>
    obtain ⟨ih1, ih2⟩ := ih (fun i hi => hpend i (by omega)) (fun i hi => htime i (by omega))
    obtain ⟨w', hw', hnext⟩ := hpend k (by omega)
    have hnow := htime k (by omega)
    have hone : ∀ f, loopFrom start delta timeout func (f + 1) (ws k)
        = loopFrom start delta timeout func f (ws (k + 1)) := by
      intro f
      rw [loopFrom, if_pos hnow, hw', hnext]
    constructor
    · intro fuel hfuel
      by_cases hk : fuel ≤ k
      · exact ih1 fuel hk
      · have hf : fuel = k + 1 := by omega
        rw [ih2 fuel (by omega), hf]
        have : k + 1 - k = 0 + 1 := by omega
        rw [this, hone]
        rfl
    · intro fuel hfuel
      rw [ih2 fuel (by omega)]
      have : fuel - k = (fuel - (k + 1)) + 1 := by omega
      rw [this, hone]

/-- A value with which the polling loop resolves was returned by the callback,
in the world the loop ends in. -/
theorem loopFrom_ok_inv {ρ : Type} (start delta timeout : Nat)
    (func : World → Option (Except PollError (Option ρ) × World)) (fuel : Nat) :
    ∀ (w : World) (ret : ρ) (w' : World),
      loopFrom start delta timeout func fuel w = some (.ok ret, w') →
      ∃ w0, func w0 = some (.ok (some ret), w') := by
  induction fuel with
  | zero =>
    intro w ret w' h
    simp [loopFrom] at h
  | succ fuel ih =>
    intro w ret w' h
    rw [loopFrom] at h
    split at h
    · split at h
      · cases h
      · cases h
      · rename_i r w1 hfunc
        simp only [Option.some.injEq, Prod.mk.injEq, Except.ok.injEq] at h
        obtain ⟨h1, h2⟩ := h
        subst h1 h2
        exact ⟨w, hfunc⟩
      · exact ih _ ret w' h
    · cases h

/-- An error with which the polling loop rejects is the time-out, raised when
the budget is used up, or was thrown by the callback. -/
theorem loopFrom_error_inv {ρ : Type} (start delta timeout : Nat)
    (func : World → Option (Except PollError (Option ρ) × World)) (fuel : Nat) :
    ∀ (w : World) (e : PollError) (w' : World),
      loopFrom start delta timeout func fuel w = some (.error e, w') →
      (e = .timeout (w'.now - start) ∧ timeout ≤ w'.now - start) ∨
      ∃ w0, func w0 = some (.error e, w') := by
  induction fuel with
  | zero =>
    intro w e w' h
    simp [loopFrom] at h
  | succ fuel ih =>
    intro w e w' h
    rw [loopFrom] at h
    split at h
    · split at h
      · cases h
      · rename_i e1 w1 hfunc
        simp only [Option.some.injEq, Prod.mk.injEq, Except.error.injEq] at h
        obtain ⟨h1, h2⟩ := h
        subst h1 h2
        exact Or.inr ⟨w, hfunc⟩
      · cases h
      · exact ih _ e w' h
    · rename_i hnow
      simp only [Option.some.injEq, Prod.mk.injEq, Except.error.injEq] at h
      obtain ⟨h1, h2⟩ := h
      subst h1 h2
      exact Or.inl ⟨rfl, by omega⟩

/-- The polling loop ends in the time-out when the callback returns `undefined`
for as long as it is run and every iteration moves the clock on: `P` is what
stays true of the world from one iteration to the next. -/
theorem loopFrom_times_out {ρ : Type} (start delta timeout : Nat)
    (func : World → Option (Except PollError (Option ρ) × World)) (P : World → Prop)
    (hstep : ∀ w, P w → w.now - start < timeout →
      ∃ w', func w = some (.ok none, w') ∧ w.now < w'.now + delta ∧ P (sleep delta w')) :
    ∀ (fuel : Nat) (w : World), P w → start ≤ w.now → timeout - (w.now - start) < fuel →
      ∃ w', loopFrom start delta timeout func fuel w
          = some (.error (.timeout (w'.now - start)), w') ∧
        timeout ≤ w'.now - start := by
  intro fuel
  induction fuel with
  | zero =>
    intro w _ _ h
    omega
  | succ fuel ih =>
    intro w hP hstart hfuel
    by_cases hnow : w.now - start < timeout
    · obtain ⟨w1, hfunc, hprog, hP1⟩ := hstep w hP hnow
      have hnow1 : (sleep delta w1).now = w1.now + delta := rfl
      obtain ⟨w', hw', hle⟩ := ih (sleep delta w1) hP1 (by omega) (by omega)
      refine ⟨w', ?_, hle⟩
      rw [loopFrom, if_pos hnow, hfunc]
      exact hw'
    · refine ⟨w, ?_, by omega⟩
      rw [loopFrom, if_neg hnow]

/-! ### `executed` -/

/-- One run of the callback of `executed` when the node has no receipt. -/
theorem executedStep_none (pt : PendingTransaction) (txHash : List Char) (w : World)
    (hreply : (pt.cfx.getTransactionReceipt w.receiptRequests txHash).result = .ok none) :
    pt.executedStep txHash w =
      (.ok none,
        { w with now := w.now + (pt.cfx.getTransactionReceipt w.receiptRequests txHash).took,
                 receiptRequests := w.receiptRequests + 1 }) := by
  simp only [PendingTransaction.executedStep, hreply]

/-- One run of the callback of `executed` when the node has a receipt. -/
theorem executedStep_receipt (pt : PendingTransaction) (txHash : List Char) (w : World)
    (receipt : Receipt)
    (hreply : (pt.cfx.getTransactionReceipt w.receiptRequests txHash).result
      = .ok (some receipt)) :
    pt.executedStep txHash w =
      (if receipt.outcomeStatus = 0 then .ok (some receipt)
        else .error (.executedFailed txHash receipt.outcomeStatus),
        { w with now := w.now + (pt.cfx.getTransactionReceipt w.receiptRequests txHash).took,
                 receiptRequests := w.receiptRequests + 1 }) := by
  simp only [PendingTransaction.executedStep, hreply]
  split <;> rfl

/-- The polling loop of `executed` over `k` polls without a receipt followed by
one with a receipt: the loop ends at that poll, resolving with the receipt when
its `outcomeStatus` is 0 and rejecting otherwise. -/
theorem loopFrom_executed (pt : PendingTransaction) (txHash : List Char)
    (start delta timeout : Nat) (w : World) (receipt : Receipt) (k : Nat)
    (hnone : ∀ i, i < k →
      (pt.cfx.getTransactionReceipt (w.receiptRequests + i) txHash).result = .ok none)
    (hreceipt : (pt.cfx.getTransactionReceipt (w.receiptRequests + k) txHash).result
      = .ok (some receipt))
    (htime : (w.now + Finset.sum (Finset.range k)
        (fun i => (pt.cfx.getTransactionReceipt (w.receiptRequests + i) txHash).took + delta))
      - start < timeout) :
    (∀ fuel, fuel ≤ k →
      loopFrom start delta timeout (fun w => some (pt.executedStep txHash w)) fuel w = none) ∧
    (∀ fuel, k < fuel →
      loopFrom start delta timeout (fun w => some (pt.executedStep txHash w)) fuel w
        = some (if receipt.outcomeStatus = 0 then .ok receipt
                else .error (.executedFailed txHash receipt.outcomeStatus),
            { w with
              now := w.now + Finset.sum (Finset.range k)
                  (fun i => (pt.cfx.getTransactionReceipt (w.receiptRequests + i) txHash).took
                    + delta)
                + (pt.cfx.getTransactionReceipt (w.receiptRequests + k) txHash).took,
              receiptRequests := w.receiptRequests + (k + 1) })) := by
  have hws0 : ({ w with
      now := w.now + (Finset.sum (Finset.range 0)
        (fun i => (pt.cfx.getTransactionReceipt (w.receiptRequests + i) txHash).took + delta)),
      receiptRequests := w.receiptRequests + 0 } : World) = w := by
    cases w
    simp
  obtain ⟨h1, h2⟩ := loopFrom_after start delta timeout
    (fun w => some (pt.executedStep txHash w))
    (fun i => { w with
      now := w.now + Finset.sum (Finset.range i)
        (fun j => (pt.cfx.getTransactionReceipt (w.receiptRequests + j) txHash).took + delta),
      receiptRequests := w.receiptRequests + i }) k
    (by
      intro i hi
      refine ⟨_, congrArg some (executedStep_none pt txHash _ (hnone i hi)), ?_⟩
      simp only [sleep, Finset.sum_range_succ, World.mk.injEq]
      refine ⟨by omega, trivial, by omega, trivial⟩)
    (by
      intro i hi
      have hmono : Finset.sum (Finset.range i)
            (fun j => (pt.cfx.getTransactionReceipt (w.receiptRequests + j) txHash).took + delta)
          ≤ Finset.sum (Finset.range k)
            (fun j => (pt.cfx.getTransactionReceipt (w.receiptRequests + j) txHash).took
              + delta) :=
        Finset.sum_le_sum_of_subset (Finset.range_mono (Nat.le_of_lt hi))
      simp only
      omega)
  simp only [hws0] at h1 h2
  refine ⟨h1, ?_⟩
  intro fuel hfuel
  rw [h2 fuel hfuel]
  obtain ⟨f, hf⟩ : ∃ f, fuel - k = f + 1 := ⟨fuel - k - 1, by omega⟩
  have hstep := executedStep_receipt pt txHash
    { w with
      now := w.now + Finset.sum (Finset.range k)
        (fun j => (pt.cfx.getTransactionReceipt (w.receiptRequests + j) txHash).took + delta),
      receiptRequests := w.receiptRequests + k } receipt hreceipt
  rw [hf, loopFrom, if_pos htime]
  by_cases h0 : receipt.outcomeStatus = 0
  · simp only [h0, if_true] at hstep ⊢
    simp only [hstep, Nat.add_assoc]
  · simp only [h0, if_false] at hstep ⊢
    simp only [hstep, Nat.add_assoc]

/-- C11: `executed` keeps polling while "get transaction receipt" returns no
receipt (after `k` such polls it has not ended), and at the first poll that
returns a receipt, made within the timeout, it ends without polling again: it
resolves with that receipt if and only if its `outcomeStatus` is 0, and
rejects with the execution error when the `outcomeStatus` is not 0. -/
theorem executed_ends_at_first_receipt (pt : PendingTransaction) (txHash : List Char)
    (options : Options) (w : World) (receipt : Receipt) (k fuel : Nat)
    (hhash : pt.txHash = .ok txHash)
    (hnone : ∀ i, i < k →
      (pt.cfx.getTransactionReceipt (w.receiptRequests + i) txHash).result = .ok none)
    (hreceipt : (pt.cfx.getTransactionReceipt (w.receiptRequests + k) txHash).result
      = .ok (some receipt))
    (htime : Finset.sum (Finset.range k)
        (fun i => (pt.cfx.getTransactionReceipt (w.receiptRequests + i) txHash).took
          + options.delta.getD 1000)
      < options.timeout.getD (5 * 60 * 1000))
    (hfuel : k < fuel) :
    (∀ n, n ≤ k → pt.executed n options w = none) ∧
    ∃ w', w'.receiptRequests = w.receiptRequests + (k + 1) ∧
      (pt.executed fuel options w = some (.ok receipt, w') ↔ receipt.outcomeStatus = 0) ∧
      (receipt.outcomeStatus ≠ 0 →
        pt.executed fuel options w
          = some (.error (.executedFailed txHash receipt.outcomeStatus), w')) := by
  obtain ⟨h1, h2⟩ := loopFrom_executed pt txHash w.now (options.delta.getD 1000)
    (options.timeout.getD (5 * 60 * 1000)) w receipt k hnone hreceipt (by omega)
  constructor
  · intro n hn
    simp only [PendingTransaction.executed, hhash, loop]
    exact h1 n hn
  · have h2' := h2 fuel hfuel
    refine ⟨{ w with
        now := w.now + Finset.sum (Finset.range k)
            (fun i => (pt.cfx.getTransactionReceipt (w.receiptRequests + i) txHash).took
              + options.delta.getD 1000)
          + (pt.cfx.getTransactionReceipt (w.receiptRequests + k) txHash).took,
        receiptRequests := w.receiptRequests + (k + 1) }, rfl, ?_, ?_⟩
    · simp only [PendingTransaction.executed, hhash, loop]
      rw [h2']
      constructor
      · intro h
        by_contra hne
        simp [hne] at h
      · intro h0
        simp [h0]
    · intro hne
      simp only [PendingTransaction.executed, hhash, loop]
      rw [h2']
      simp [hne]

/-- The node has no receipt at the first poll and a receipt with the outcome
status 0 at the second: `executed` resolves with it after the second poll. -/
theorem executed_ends_at_first_receipt_witness :
    (∀ n, n ≤ 1 → Example.receiptHandle.executed n Options.none Example.world = none) ∧
    ∃ w', w'.receiptRequests = Example.world.receiptRequests + (1 + 1) ∧
      (Example.receiptHandle.executed 3 Options.none Example.world
          = some (.ok Example.receipt, w') ↔ Example.receipt.outcomeStatus = 0) ∧
      (Example.receipt.outcomeStatus ≠ 0 →
        Example.receiptHandle.executed 3 Options.none Example.world
          = some (.error (.executedFailed "0xabc".toList Example.receipt.outcomeStatus), w')) :=
  executed_ends_at_first_receipt Example.receiptHandle "0xabc".toList Options.none
    Example.world Example.receipt 1 3 rfl
    (by
      intro i hi
      have : i = 0 := by omega
      subst this
      rfl)
    rfl (by decide) (by decide)

/-- C12, as stated, fails: two receipts that differ (in the gas used) and have
the same nonzero outcome status make `executed` reject with the same error,
which holds the hash and the status only. -/
theorem executed_error_without_receipt :
    (Example.failedHandle 21000).executed 1 Options.none Example.world
      = some (.error (.executedFailed "0xabc".toList 1),
          { now := 10, txRequests := 0, receiptRequests := 1, riskRequests := 0 }) ∧
    (Example.failedHandle 50000).executed 1 Options.none Example.world
      = some (.error (.executedFailed "0xabc".toList 1),
          { now := 10, txRequests := 0, receiptRequests := 1, riskRequests := 0 }) ∧
    Example.failedReceipt 21000 ≠ Example.failedReceipt 50000 :=
  ⟨rfl, rfl, by decide⟩

/-- C12, amended: when the first receipt that "get transaction receipt" returns
has a nonzero `outcomeStatus`, the error with which `executed` rejects holds
the hash of the transaction and that `outcomeStatus`, and nothing else of the
receipt. -/
theorem executed_failure_holds_hash_and_status (pt : PendingTransaction)
    (txHash : List Char) (options : Options) (w : World) (receipt : Receipt) (k fuel : Nat)
    (hhash : pt.txHash = .ok txHash)
    (hnone : ∀ i, i < k →
      (pt.cfx.getTransactionReceipt (w.receiptRequests + i) txHash).result = .ok none)
    (hreceipt : (pt.cfx.getTransactionReceipt (w.receiptRequests + k) txHash).result
      = .ok (some receipt))
    (hfailed : receipt.outcomeStatus ≠ 0)
    (htime : Finset.sum (Finset.range k)
        (fun i => (pt.cfx.getTransactionReceipt (w.receiptRequests + i) txHash).took
          + options.delta.getD 1000)
      < options.timeout.getD (5 * 60 * 1000))
    (hfuel : k < fuel) :
    ∃ w', pt.executed fuel options w
      = some (.error (.executedFailed txHash receipt.outcomeStatus), w') := by
  obtain ⟨_, h2⟩ := loopFrom_executed pt txHash w.now (options.delta.getD 1000)
    (options.timeout.getD (5 * 60 * 1000)) w receipt k hnone hreceipt (by omega)
  have h := h2 fuel hfuel
  rw [if_neg hfailed] at h
  exact ⟨_, by simp only [PendingTransaction.executed, hhash, loop]; exact h⟩

/-- A receipt with the outcome status 1 at the first poll. -/
theorem executed_failure_holds_hash_and_status_witness :
    ∃ w', (Example.failedHandle 21000).executed 1 Options.none Example.world
      = some (.error (.executedFailed "0xabc".toList (Example.failedReceipt 21000).outcomeStatus),
          w') :=
  executed_failure_holds_hash_and_status (Example.failedHandle 21000) "0xabc".toList
    Options.none Example.world (Example.failedReceipt 21000) 0 1 rfl
    (by intro i hi; omega) rfl (by decide) (by decide) (by decide)

/-! ### `confirmed` and `deployed` -/

/-- One run of the callback of `confirmed` when the node has a receipt with the
outcome status 0 and answers the request for the risk: `executed` resolves at
its first poll, and the risk decides. -/
theorem confirmedStep_poll (pt : PendingTransaction) (txHash : List Char)
    (hhash : pt.txHash = .ok txHash) (fuel : Nat) (hfuel : 0 < fuel)
    (threshold : ℚ) (delta timeout : Nat) (htimeout : 0 < timeout)
    (w : World) (receipt : Receipt) (risk : ℚ)
    (hreceipt : (pt.cfx.getTransactionReceipt w.receiptRequests txHash).result
      = .ok (some receipt))
    (hstatus : receipt.outcomeStatus = 0)
    (hrisk : (pt.cfx.getRiskCoefficient w.riskRequests receipt.epochNumber).result = .ok risk) :
    pt.confirmedStep fuel threshold delta timeout w
      = some (if risk < threshold then .ok (some receipt) else .ok none,
          { w with
            now := w.now + (pt.cfx.getTransactionReceipt w.receiptRequests txHash).took
              + (pt.cfx.getRiskCoefficient w.riskRequests receipt.epochNumber).took,
            receiptRequests := w.receiptRequests + 1,
            riskRequests := w.riskRequests + 1 }) := by
  obtain ⟨_, h2⟩ := loopFrom_executed pt txHash w.now delta timeout w receipt 0
    (by intro i hi; omega) hreceipt (by simpa using htimeout)
  have hexec := h2 fuel hfuel
  simp only [hstatus, if_true, Finset.range_zero, Finset.sum_empty, Nat.add_zero] at hexec
  simp only [PendingTransaction.confirmedStep, PendingTransaction.executed, hhash, loop,
    Option.getD_some, hexec, hrisk]
  split <;> rfl

/-- The polling loop of `confirmed` over `k` polls in which the receipt is
there and the risk is not below the threshold, followed by one in which the
risk is below it. -/
theorem loopFrom_confirmed (pt : PendingTransaction) (txHash : List Char)
    (hhash : pt.txHash = .ok txHash) (inner : Nat) (hinner : 0 < inner)
    (threshold : ℚ) (start delta timeout : Nat) (w : World)
    (receipts : Nat → Receipt) (risks : Nat → ℚ) (k : Nat)
    (hreceipt : ∀ i, i ≤ k →
      (pt.cfx.getTransactionReceipt (w.receiptRequests + i) txHash).result
        = .ok (some (receipts i)) ∧ (receipts i).outcomeStatus = 0)
    (hrisk : ∀ i, i ≤ k →
      (pt.cfx.getRiskCoefficient (w.riskRequests + i) (receipts i).epochNumber).result
        = .ok (risks i))
    (hhigh : ∀ i, i < k → threshold ≤ risks i)
    (hlow : risks k < threshold)
    (htime : (w.now + Finset.sum (Finset.range k)
        (fun i => (pt.cfx.getTransactionReceipt (w.receiptRequests + i) txHash).took
          + (pt.cfx.getRiskCoefficient (w.riskRequests + i) (receipts i).epochNumber).took
          + delta))
      - start < timeout) :
    (∀ fuel, fuel ≤ k →
      loopFrom start delta timeout (pt.confirmedStep inner threshold delta timeout) fuel w
        = none) ∧
    (∀ fuel, k < fuel →
      ∃ w', loopFrom start delta timeout (pt.confirmedStep inner threshold delta timeout) fuel w
          = some (.ok (receipts k), w') ∧
        w'.riskRequests = w.riskRequests + (k + 1)) := by
  have htimeout : 0 < timeout := by omega
  have hws0 : ({ w with
      now := w.now + (Finset.sum (Finset.range 0)
        (fun i => (pt.cfx.getTransactionReceipt (w.receiptRequests + i) txHash).took
          + (pt.cfx.getRiskCoefficient (w.riskRequests + i) (receipts i).epochNumber).took
          + delta)),
      receiptRequests := w.receiptRequests + 0,
      riskRequests := w.riskRequests + 0 } : World) = w := by
    cases w
    simp
  obtain ⟨h1, h2⟩ := loopFrom_after start delta timeout
    (pt.confirmedStep inner threshold delta timeout)
    (fun i => { w with
      now := w.now + Finset.sum (Finset.range i)
        (fun j => (pt.cfx.getTransactionReceipt (w.receiptRequests + j) txHash).took
          + (pt.cfx.getRiskCoefficient (w.riskRequests + j) (receipts j).epochNumber).took
          + delta),
      receiptRequests := w.receiptRequests + i,
      riskRequests := w.riskRequests + i }) k
    (by
      intro i hi
      have hstep := confirmedStep_poll pt txHash hhash inner hinner threshold delta timeout
        htimeout
        { w with
          now := w.now + Finset.sum (Finset.range i)
            (fun j => (pt.cfx.getTransactionReceipt (w.receiptRequests + j) txHash).took
              + (pt.cfx.getRiskCoefficient (w.riskRequests + j) (receipts j).epochNumber).took
              + delta),
          receiptRequests := w.receiptRequests + i,
          riskRequests := w.riskRequests + i }
        (receipts i) (risks i) (hreceipt i (by omega)).1 (hreceipt i (by omega)).2
        (hrisk i (by omega))
      rw [if_neg (not_lt.mpr (hhigh i hi))] at hstep
      refine ⟨_, hstep, ?_⟩
      simp only [sleep, Finset.sum_range_succ, World.mk.injEq]
      refine ⟨by omega, trivial, by omega, by omega⟩)
    (by
      intro i hi
      have hmono : Finset.sum (Finset.range i)
            (fun j => (pt.cfx.getTransactionReceipt (w.receiptRequests + j) txHash).took
              + (pt.cfx.getRiskCoefficient (w.riskRequests + j) (receipts j).epochNumber).took
              + delta)
          ≤ Finset.sum (Finset.range k)
            (fun j => (pt.cfx.getTransactionReceipt (w.receiptRequests + j) txHash).took
              + (pt.cfx.getRiskCoefficient (w.riskRequests + j) (receipts j).epochNumber).took
              + delta) :=
        Finset.sum_le_sum_of_subset (Finset.range_mono (Nat.le_of_lt hi))
      simp only
      omega)
  simp only [hws0] at h1 h2
  refine ⟨h1, ?_⟩
  intro fuel hfuel
  have hstep := confirmedStep_poll pt txHash hhash inner hinner threshold delta timeout
    htimeout
    { w with
      now := w.now + Finset.sum (Finset.range k)
        (fun j => (pt.cfx.getTransactionReceipt (w.receiptRequests + j) txHash).took
          + (pt.cfx.getRiskCoefficient (w.riskRequests + j) (receipts j).epochNumber).took
          + delta),
      receiptRequests := w.receiptRequests + k,
      riskRequests := w.riskRequests + k }
    (receipts k) (risks k) (hreceipt k (le_refl k)).1 (hreceipt k (le_refl k)).2
    (hrisk k (le_refl k))
  rw [if_pos hlow] at hstep
  obtain ⟨f, hf⟩ : ∃ f, fuel - k = f + 1 := ⟨fuel - k - 1, by omega⟩
  have hloop := h2 fuel hfuel
  rw [hf, loopFrom, if_pos htime, hstep] at hloop
  exact ⟨_, hloop, by simp only; omega⟩

/-- C13: `confirmed` keeps polling while the risk returned for the epoch of
the receipt is not below the threshold (a risk equal to the threshold does not
confirm: after `k` such polls it has not ended), and resolves with the receipt
at the first poll, made within the timeout, whose risk is strictly below the
threshold, after exactly `k + 1` requests for the risk. -/
theorem confirmed_resolves_at_first_low_risk (pt : PendingTransaction) (txHash : List Char)
    (options : Options) (w : World) (receipts : Nat → Receipt) (risks : Nat → ℚ)
    (k fuel : Nat)
    (hhash : pt.txHash = .ok txHash)
    (hreceipt : ∀ i, i ≤ k →
      (pt.cfx.getTransactionReceipt (w.receiptRequests + i) txHash).result
        = .ok (some (receipts i)) ∧ (receipts i).outcomeStatus = 0)
    (hrisk : ∀ i, i ≤ k →
      (pt.cfx.getRiskCoefficient (w.riskRequests + i) (receipts i).epochNumber).result
        = .ok (risks i))
    (hhigh : ∀ i, i < k → options.threshold.getD (1 / 100) ≤ risks i)
    (hlow : risks k < options.threshold.getD (1 / 100))
    (htime : Finset.sum (Finset.range k)
        (fun i => (pt.cfx.getTransactionReceipt (w.receiptRequests + i) txHash).took
          + (pt.cfx.getRiskCoefficient (w.riskRequests + i) (receipts i).epochNumber).took
          + options.delta.getD 1000)
      < options.timeout.getD (30 * 60 * 1000))
    (hfuel : k < fuel) :
    (∃ w', pt.confirmed fuel options w = some (.ok (receipts k), w') ∧
      w'.riskRequests = w.riskRequests + (k + 1)) ∧
    (∀ n, n ≤ k → pt.confirmed n options w = none) := by
  constructor
  · obtain ⟨_, h2⟩ := loopFrom_confirmed pt txHash hhash fuel (by omega)
      (options.threshold.getD (1 / 100)) w.now (options.delta.getD 1000)
      (options.timeout.getD (30 * 60 * 1000)) w receipts risks k hreceipt hrisk hhigh hlow
      (by omega)
    exact h2 fuel hfuel
  · intro n hn
    cases n with
    | zero => rfl
    | succ m =>
      obtain ⟨h1, _⟩ := loopFrom_confirmed pt txHash hhash (m + 1) (by omega)
        (options.threshold.getD (1 / 100)) w.now (options.delta.getD 1000)
        (options.timeout.getD (30 * 60 * 1000)) w receipts risks k hreceipt hrisk hhigh hlow
        (by omega)
      exact h1 (m + 1) hn

/-- The risks 0.05 and then 0.005 with the threshold 0.01: `confirmed` resolves
only after the second request for the risk. -/
theorem confirmed_resolves_at_first_low_risk_witness :
    (∃ w', Example.receiptHandle.confirmed 5 Options.none Example.laterWorld
        = some (.ok Example.receipt, w') ∧
      w'.riskRequests = Example.laterWorld.riskRequests + (1 + 1)) ∧
    (∀ n, n ≤ 1 → Example.receiptHandle.confirmed n Options.none Example.laterWorld = none) :=
  confirmed_resolves_at_first_low_risk Example.receiptHandle "0xabc".toList Options.none
    Example.laterWorld (fun _ => Example.receipt) (fun i => if i < 1 then 1 / 20 else 1 / 200)
    1 5 rfl
    (by
      intro i hi
      interval_cases i <;> exact ⟨rfl, rfl⟩)
    (by
      intro i hi
      interval_cases i <;> rfl)
    (by
      intro i hi
      have : i = 0 := by omega
      subst this
      norm_num [Options.none])
    (by norm_num [Options.none])
    (by decide) (by decide)

/-- A receipt with which `executed` resolves was returned by "get transaction
receipt" and has the outcome status 0. -/
theorem executed_ok_inv (pt : PendingTransaction) (fuel : Nat) (options : Options)
    (w : World) (receipt : Receipt) (w' : World)
    (h : pt.executed fuel options w = some (.ok receipt, w')) :
    receipt.outcomeStatus = 0 ∧
    ∃ txHash i, pt.txHash = .ok txHash ∧
      (pt.cfx.getTransactionReceipt i txHash).result = .ok (some receipt) := by
  unfold PendingTransaction.executed at h
  cases hhash : pt.txHash with
  | error e => simp [hhash] at h
  | ok txHash =>
    simp only [hhash, loop] at h
    obtain ⟨w0, hw0⟩ := loopFrom_ok_inv _ _ _ _ _ _ _ _ h
    simp only [Option.some.injEq] at hw0
    unfold PendingTransaction.executedStep at hw0
    cases hres : (pt.cfx.getTransactionReceipt w0.receiptRequests txHash).result with
    | error e => simp [hres] at hw0
    | ok found =>
      cases found with
      | none => simp [hres] at hw0
      | some r =>
        simp only [hres] at hw0
        by_cases h0 : r.outcomeStatus = 0
        · simp only [h0, if_true, Prod.mk.injEq, Except.ok.injEq, Option.some.injEq] at hw0
          obtain ⟨hr, _⟩ := hw0
          subst hr
          exact ⟨h0, txHash, w0.receiptRequests, rfl, hres⟩
        · simp [h0] at hw0

/-- A receipt with which `confirmed` resolves is one with which `executed`
resolved, and the risk returned for its epoch was below the threshold. -/
theorem confirmed_ok_inv (pt : PendingTransaction) (fuel : Nat) (options : Options)
    (w : World) (receipt : Receipt) (w' : World)
    (h : pt.confirmed fuel options w = some (.ok receipt, w')) :
    (∃ opts w0 w1, pt.executed fuel opts w0 = some (.ok receipt, w1)) ∧
    ∃ j risk, (pt.cfx.getRiskCoefficient j receipt.epochNumber).result = .ok risk ∧
      risk < options.threshold.getD (1 / 100) := by
  unfold PendingTransaction.confirmed loop at h
  obtain ⟨w0, hw0⟩ := loopFrom_ok_inv _ _ _ _ _ _ _ _ h
  unfold PendingTransaction.confirmedStep at hw0
  dsimp only at hw0
  split at hw0
  · cases hw0
  · cases hw0
  · rename_i r w1 hexec
    split at hw0
    · cases hw0
    · rename_i risk hrisk
      by_cases hlt : risk < options.threshold.getD (1 / 100)
      · rw [if_pos hlt] at hw0
        simp only [Option.some.injEq, Prod.mk.injEq, Except.ok.injEq] at hw0
        obtain ⟨hr, _⟩ := hw0
        subst hr
        exact ⟨⟨_, _, _, hexec⟩, _, risk, hrisk, hlt⟩
      · rw [if_neg hlt] at hw0
        simp at hw0

/-- C14: stages are not skipped. A value with which `confirmed` resolves is a
receipt that "get transaction receipt" returned, whose `outcomeStatus` is 0
(the condition of `executed`), and for whose epoch a risk strictly below the
threshold was returned; and when `deployed` resolves, `confirmed` has resolved
with a receipt, of which `deployed` returns the `contractCreated`. -/
theorem stages_not_skipped (pt : PendingTransaction) (fuel : Nat) (options : Options)
    (w : World) :
    (∀ receipt w', pt.confirmed fuel options w = some (.ok receipt, w') →
      receipt.outcomeStatus = 0 ∧
      (∃ txHash i, pt.txHash = .ok txHash ∧
        (pt.cfx.getTransactionReceipt i txHash).result = .ok (some receipt)) ∧
      ∃ j risk, (pt.cfx.getRiskCoefficient j receipt.epochNumber).result = .ok risk ∧
        risk < options.threshold.getD (1 / 100)) ∧
    (∀ address w', pt.deployed fuel options w = some (.ok address, w') →
      ∃ receipt, pt.confirmed fuel options w = some (.ok receipt, w') ∧
        address = receipt.contractCreated) := by
  constructor
  · intro receipt w' h
    obtain ⟨⟨opts, w0, w1, hexec⟩, hrisk⟩ := confirmed_ok_inv pt fuel options w receipt w' h
    obtain ⟨h0, hfound⟩ := executed_ok_inv pt fuel opts w0 receipt w1 hexec
    exact ⟨h0, hfound, hrisk⟩
  · intro address w' h
    unfold PendingTransaction.deployed at h
    split at h
    · cases h
    · cases h
    · rename_i receipt w1 hconf
      split at h
      · simp only [Option.some.injEq, Prod.mk.injEq, Except.ok.injEq] at h
        obtain ⟨ha, hw⟩ := h
        subst ha hw
        exact ⟨receipt, hconf, rfl⟩
      · cases h

/-- On the example node `confirmed` resolves with the example receipt. -/
theorem Example.confirmed_resolves :
    ∃ w', Example.receiptHandle.confirmed 5 Options.none Example.laterWorld
      = some (.ok Example.receipt, w') := by
  obtain ⟨_, h2⟩ := loopFrom_confirmed Example.receiptHandle "0xabc".toList rfl 5 (by decide)
    (1 / 100) Example.laterWorld.now 1000 (30 * 60 * 1000) Example.laterWorld
    (fun _ => Example.receipt) (fun i => if i < 1 then 1 / 20 else 1 / 200) 1
    (by
      intro i hi
      interval_cases i <;> exact ⟨rfl, rfl⟩)
    (by
      intro i hi
      interval_cases i <;> rfl)
    (by
      intro i hi
      have : i = 0 := by omega
      subst this
      norm_num)
    (by norm_num)
    (by decide)
  obtain ⟨w', hw', _⟩ := h2 5 (by decide)
  exact ⟨w', hw'⟩

/-- On the example node `deployed` resolves with `null`, the `contractCreated`
of the example receipt. -/
theorem Example.deployed_resolves :
    ∃ w', Example.receiptHandle.deployed 5 Options.none Example.laterWorld
      = some (.ok Option.none, w') := by
  obtain ⟨w', hw'⟩ := Example.confirmed_resolves
  refine ⟨w', ?_⟩
  unfold PendingTransaction.deployed
  rw [hw']
  rfl

/-- The receipt with which `confirmed` and `deployed` resolve on the example
node. -/
theorem stages_not_skipped_witness :
    (∃ w', Example.receiptHandle.confirmed 5 Options.none Example.laterWorld
        = some (.ok Example.receipt, w')) ∧
    Example.receipt.outcomeStatus = 0 ∧
    ∃ w' receipt, Example.receiptHandle.confirmed 5 Options.none Example.laterWorld
        = some (.ok receipt, w') ∧
      (Option.none : Option (List Char)) = receipt.contractCreated :=
  ⟨Example.confirmed_resolves,
    Exists.elim Example.confirmed_resolves (fun w' hconf =>
      ((stages_not_skipped Example.receiptHandle 5 Options.none Example.laterWorld).1
        Example.receipt w' hconf).1),
    Exists.elim Example.deployed_resolves (fun w' hdep =>
      ⟨w', (stages_not_skipped Example.receiptHandle 5 Options.none Example.laterWorld).2
        Option.none w' hdep⟩)⟩

/-- C15, as stated, fails: the receipt with which `confirmed` resolves has no
`contractCreated`, and `deployed` resolves, with `null`, instead of failing. -/
theorem deployed_resolves_without_contract :
    Example.receipt.contractCreated = Option.none ∧
    ∃ w', Example.receiptHandle.deployed 5 Options.none Example.laterWorld
      = some (.ok Option.none, w') :=
  ⟨rfl, Example.deployed_resolves⟩

/-- C15, amended: for every receipt with which `confirmed` resolves (its
`outcomeStatus` is then 0), `deployed` resolves with the `contractCreated` of
that receipt, be it an address or `null`; and `deployed` rejects only when
`confirmed` rejects, with the same error. -/
theorem deployed_returns_contractCreated (pt : PendingTransaction) (fuel : Nat)
    (options : Options) (w : World) :
    (∀ receipt w', pt.confirmed fuel options w = some (.ok receipt, w') →
      pt.deployed fuel options w = some (.ok receipt.contractCreated, w')) ∧
    (∀ e w', pt.deployed fuel options w = some (.error e, w') →
      pt.confirmed fuel options w = some (.error e, w')) := by
  constructor
  · intro receipt w' h
    obtain ⟨⟨opts, w0, w1, hexec⟩, _⟩ := confirmed_ok_inv pt fuel options w receipt w' h
    obtain ⟨h0, _⟩ := executed_ok_inv pt fuel opts w0 receipt w1 hexec
    unfold PendingTransaction.deployed
    rw [h]
    simp only [h0, if_true]
  · intro e w' h
    unfold PendingTransaction.deployed at h
    split at h
    · cases h
    · rename_i e1 w1 hconf
      simp only [Option.some.injEq, Prod.mk.injEq, Except.error.injEq] at h
      obtain ⟨he, hw⟩ := h
      subst he hw
      exact hconf
    · rename_i receipt w1 hconf
      obtain ⟨⟨opts, w0, w2, hexec⟩, _⟩ := confirmed_ok_inv pt fuel options w receipt w1 hconf
      obtain ⟨h0, _⟩ := executed_ok_inv pt fuel opts w0 receipt w2 hexec
      simp [h0] at h

/-- On the example node `deployed` resolves with the `contractCreated` of the
confirmed receipt. -/
theorem deployed_returns_contractCreated_witness :
    ∃ w', Example.receiptHandle.deployed 5 Options.none Example.laterWorld
      = some (.ok Example.receipt.contractCreated, w') :=
  Exists.elim Example.confirmed_resolves (fun w' hconf =>
    ⟨w', (deployed_returns_contractCreated Example.receiptHandle 5 Options.none
      Example.laterWorld).1 Example.receipt w' hconf⟩)

/-! ### Timeouts and defaults -/

/-- The loop of `mined` ends in the time-out when no record has a block hash. -/
theorem mined_times_out (pt : PendingTransaction) (txHash : List Char) (options : Options)
    (w : World) (fuel : Nat) (hhash : pt.txHash = .ok txHash)
    (hnever : ∀ i, ∃ r, (pt.cfx.getTransactionByHash i txHash).result = .ok (some r) ∧
      r.blockHash = none)
    (hdelta : 0 < options.delta.getD 1000)
    (hfuel : options.timeout.getD (60 * 1000) < fuel) :
    ∃ w', pt.mined fuel options w = some (.error (.timeout (w'.now - w.now)), w') ∧
      options.timeout.getD (60 * 1000) ≤ w'.now - w.now := by
  unfold PendingTransaction.mined loop
  refine loopFrom_times_out w.now _ _ _ (fun _ => True) ?_ fuel w trivial (le_refl _) (by omega)
  intro w1 _ _
  obtain ⟨r, hr, hrb⟩ := hnever w1.txRequests
  have hstep := minedStep_record pt txHash w1 r hhash hr
  simp only [hrb, ne_eq, not_true_eq_false, if_false] at hstep
  refine ⟨_, congrArg some hstep, ?_, trivial⟩
  simp only
  omega

/-- The loop of `executed` ends in the time-out when there is never a receipt. -/
theorem executed_times_out (pt : PendingTransaction) (txHash : List Char) (options : Options)
    (w : World) (fuel : Nat) (hhash : pt.txHash = .ok txHash)
    (hnever : ∀ i, (pt.cfx.getTransactionReceipt i txHash).result = .ok none)
    (hdelta : 0 < options.delta.getD 1000)
    (hfuel : options.timeout.getD (5 * 60 * 1000) < fuel) :
    ∃ w', pt.executed fuel options w = some (.error (.timeout (w'.now - w.now)), w') ∧
      options.timeout.getD (5 * 60 * 1000) ≤ w'.now - w.now := by
  simp only [PendingTransaction.executed, hhash, loop]
  refine loopFrom_times_out w.now _ _ _ (fun _ => True) ?_ fuel w trivial (le_refl _) (by omega)
  intro w1 _ _
  refine ⟨_, congrArg some (executedStep_none pt txHash w1 (hnever _)), ?_, trivial⟩
  simp only
  omega

/-- The loop of `confirmed` ends in the time-out when the receipt is there and
the risk is never below the threshold. -/
theorem confirmed_times_out (pt : PendingTransaction) (txHash : List Char)
    (options : Options) (w : World) (fuel : Nat) (hhash : pt.txHash = .ok txHash)
    (hreceipt : ∀ i, ∃ r, (pt.cfx.getTransactionReceipt i txHash).result = .ok (some r) ∧
      r.outcomeStatus = 0)
    (hnever : ∀ j epoch, ∃ risk, (pt.cfx.getRiskCoefficient j epoch).result = .ok risk ∧
      options.threshold.getD (1 / 100) ≤ risk)
    (hdelta : 0 < options.delta.getD 1000)
    (hfuel : options.timeout.getD (30 * 60 * 1000) < fuel) :
    ∃ w', pt.confirmed fuel options w = some (.error (.timeout (w'.now - w.now)), w') ∧
      options.timeout.getD (30 * 60 * 1000) ≤ w'.now - w.now := by
  unfold PendingTransaction.confirmed loop
  refine loopFrom_times_out w.now _ _ _ (fun _ => True) ?_ fuel w trivial (le_refl _) (by omega)
  intro w1 _ hnow
  obtain ⟨r, hr, hr0⟩ := hreceipt w1.receiptRequests
  obtain ⟨risk, hrisk, hhigh⟩ := hnever w1.riskRequests r.epochNumber
  have hstep := confirmedStep_poll pt txHash hhash fuel (by omega)
    (options.threshold.getD (1 / 100)) (options.delta.getD 1000)
    (options.timeout.getD (30 * 60 * 1000)) (by omega) w1 r risk hr hr0 hrisk
  rw [if_neg (not_lt.mpr hhigh)] at hstep
  refine ⟨_, hstep, ?_, trivial⟩
  simp only
  omega

/-- C16: with a positive poll interval and whatever the timeout budget, a stage
whose condition no poll response meets ends by failing with the time-out, once
the budget is used up: `mined` when no record has a block hash, `executed`
when there is never a receipt, `confirmed` when the risk is never below the
threshold. The fuel that suffices is the budget in ms plus one. -/
theorem stages_time_out (ptMined ptExecuted ptConfirmed : PendingTransaction)
    (txHash : List Char) (options : Options) (w : World) (fuel : Nat)
    (hhashMined : ptMined.txHash = .ok txHash)
    (hhashExecuted : ptExecuted.txHash = .ok txHash)
    (hhashConfirmed : ptConfirmed.txHash = .ok txHash)
    (hneverMined : ∀ i, ∃ r, (ptMined.cfx.getTransactionByHash i txHash).result
      = .ok (some r) ∧ r.blockHash = none)
    (hneverExecuted : ∀ i, (ptExecuted.cfx.getTransactionReceipt i txHash).result = .ok none)
    (hreceipt : ∀ i, ∃ r, (ptConfirmed.cfx.getTransactionReceipt i txHash).result
      = .ok (some r) ∧ r.outcomeStatus = 0)
    (hneverConfirmed : ∀ j epoch, ∃ risk,
      (ptConfirmed.cfx.getRiskCoefficient j epoch).result = .ok risk ∧
        options.threshold.getD (1 / 100) ≤ risk)
    (hdelta : 0 < options.delta.getD 1000)
    (hfuel : options.timeout.getD (30 * 60 * 1000) < fuel) :
    (∃ w', ptMined.mined fuel options w = some (.error (.timeout (w'.now - w.now)), w') ∧
      options.timeout.getD (60 * 1000) ≤ w'.now - w.now) ∧
    (∃ w', ptExecuted.executed fuel options w
        = some (.error (.timeout (w'.now - w.now)), w') ∧
      options.timeout.getD (5 * 60 * 1000) ≤ w'.now - w.now) ∧
    (∃ w', ptConfirmed.confirmed fuel options w
        = some (.error (.timeout (w'.now - w.now)), w') ∧
      options.timeout.getD (30 * 60 * 1000) ≤ w'.now - w.now) := by
  have hm : options.timeout.getD (60 * 1000) < fuel := by
    cases ht : options.timeout with
    | none => simp only [ht, Option.getD_none] at hfuel ⊢; omega
    | some t => simp only [ht, Option.getD_some] at hfuel ⊢; exact hfuel
  have he : options.timeout.getD (5 * 60 * 1000) < fuel := by
    cases ht : options.timeout with
    | none => simp only [ht, Option.getD_none] at hfuel ⊢; omega
    | some t => simp only [ht, Option.getD_some] at hfuel ⊢; exact hfuel
  exact ⟨mined_times_out ptMined txHash options w fuel hhashMined hneverMined hdelta hm,
    executed_times_out ptExecuted txHash options w fuel hhashExecuted hneverExecuted hdelta he,
    confirmed_times_out ptConfirmed txHash options w fuel hhashConfirmed hreceipt
      hneverConfirmed hdelta hfuel⟩

/-- With a budget of 3 poll intervals of 1000 ms, on nodes on which the
transaction is never mined, never has a receipt, or never has a risk below 1:
each stage ends in the time-out. -/
theorem stages_time_out_witness :
    (∃ w', Example.stuckHandle.mined 3001
          { delta := some 1000, timeout := some 3000, threshold := Option.none } Example.world
        = some (.error (.timeout (w'.now - Example.world.now)), w') ∧
      3000 ≤ w'.now - Example.world.now) ∧
    (∃ w', Example.handle.executed 3001
          { delta := some 1000, timeout := some 3000, threshold := Option.none } Example.world
        = some (.error (.timeout (w'.now - Example.world.now)), w') ∧
      3000 ≤ w'.now - Example.world.now) ∧
    (∃ w', Example.stuckHandle.confirmed 3001
          { delta := some 1000, timeout := some 3000, threshold := Option.none } Example.world
        = some (.error (.timeout (w'.now - Example.world.now)), w') ∧
      3000 ≤ w'.now - Example.world.now) :=
  stages_time_out Example.stuckHandle Example.handle Example.stuckHandle "0xabc".toList
    { delta := some 1000, timeout := some 3000, threshold := Option.none } Example.world 3001
    rfl rfl rfl
    (fun _ => ⟨Example.pending, rfl, rfl⟩)
    (fun _ => rfl)
    (fun _ => ⟨Example.receipt, rfl, rfl⟩)
    (fun _ _ => ⟨1, rfl, by norm_num⟩)
    (by decide) (by decide)

/-- C17: called without options, `mined` polls every 1000 ms for at most 60 s,
`executed` every 1000 ms for at most 300 s, and `confirmed` every 1000 ms for at
most 1800 s with the risk threshold 0.01: each behaves as with these options
given. -/
theorem default_options (pt : PendingTransaction) (fuel : Nat) (w : World) :
    pt.mined fuel Options.none w
      = pt.mined fuel { delta := some 1000, timeout := some 60000, threshold := Option.none } w ∧
    pt.mined fuel Options.none w
      = loop fuel 1000 60000 (fun w => some (pt.minedStep w)) w ∧
    pt.executed fuel Options.none w
      = pt.executed fuel
          { delta := some 1000, timeout := some 300000, threshold := Option.none } w ∧
    pt.confirmed fuel Options.none w
      = pt.confirmed fuel
          { delta := some 1000, timeout := some 1800000, threshold := some (1 / 100) } w ∧
    pt.confirmed fuel Options.none w
      = loop fuel 1000 1800000 (pt.confirmedStep fuel (1 / 100) 1000 1800000) w :=
  ⟨rfl, rfl, rfl, rfl, rfl⟩

end Poll

namespace Method

open ContractJs (JsError)

theorem TxObject.field_assign (tx : TxObject) (key key' : String) (value : Value) :
    (tx.assign key value).field key' = if key = key' then value else tx.field key' := by
  unfold TxObject.field TxObject.assign
  rw [ContractJs.JsObject.get_set]
  split <;> rfl

theorem TxObject.get_delete (tx : TxObject) (key key' : String) :
    ContractJs.JsObject.get (tx.delete key) key'
      = if key' = key then none else ContractJs.JsObject.get tx key' := by
  induction tx with
  | nil =>
    simp [TxObject.delete, ContractJs.JsObject.get]
  | cons p rest ih =>
    obtain ⟨k, v⟩ := p
    unfold TxObject.delete at ih ⊢
    by_cases hk : k = key
    · subst hk
      simp only [List.filter, ne_eq, not_true_eq_false, decide_False]
      rw [ih]
      by_cases hk' : key' = k
      · simp [hk']
      · have : ¬ k = key' := fun e => hk' e.symm
        simp [hk', ContractJs.JsObject.get, this]
    · simp only [List.filter, ne_eq, hk, not_false_eq_true, decide_True]
      by_cases hk' : k = key'
      · subst hk'
        simp [ContractJs.JsObject.get, hk]
      · simp only [ContractJs.JsObject.get, hk', if_false]
        exact ih

theorem TxObject.field_delete (tx : TxObject) (key key' : String) (h : key' ≠ key) :
    (tx.delete key).field key' = tx.field key' := by
  unfold TxObject.field
  rw [TxObject.get_delete, if_neg h]

/-- The nonce step of `sendRawTransaction` makes requests only. -/
theorem fillNonce_requests (m : Module) (tx : TxObject) (events : List Event)
    (r : Except JsError TxObject)
    (h : CfxSendTransactionMethod.fillNonce m tx = (events, r)) :
    ∀ t key, Event.sign t key ∉ events := by
  unfold CfxSendTransactionMethod.fillNonce at h
  split at h
  · split at h <;>
    · simp only [Prod.mk.injEq] at h
      obtain ⟨h1, _⟩ := h
      subst h1
      simp
  · simp only [Prod.mk.injEq] at h
    obtain ⟨h1, _⟩ := h
    subst h1
    simp

/-- The epoch height step of `sendRawTransaction` makes requests only. -/
theorem fillEpochHeight_requests (m : Module) (tx : TxObject) (events : List Event)
    (r : Except JsError TxObject)
    (h : CfxSendTransactionMethod.fillEpochHeight m tx = (events, r)) :
    ∀ t key, Event.sign t key ∉ events := by
  unfold CfxSendTransactionMethod.fillEpochHeight at h
  split at h
  · split at h <;>
    · simp only [Prod.mk.injEq] at h
      obtain ⟨h1, _⟩ := h
      subst h1
      simp
  · simp only [Prod.mk.injEq] at h
    obtain ⟨h1, _⟩ := h
    subst h1
    simp

/-- The nonce step of `sendRawTransaction` makes requests only, and changes no
field but `nonce`. -/
theorem fillNonce_ok (m : Module) (tx tx' : TxObject) (events : List Event)
    (h : CfxSendTransactionMethod.fillNonce m tx = (events, .ok tx')) :
    (∀ t key, Event.sign t key ∉ events) ∧
    (∀ key, key ≠ "nonce" → tx'.field key = tx.field key) := by
  unfold CfxSendTransactionMethod.fillNonce at h
  split at h
  · split at h
    · simp at h
    · simp only [Prod.mk.injEq, Except.ok.injEq] at h
      obtain ⟨h1, h2⟩ := h
      subst h1 h2
      refine ⟨by simp, ?_⟩
      intro key hkey
      rw [TxObject.field_assign, if_neg (fun e => hkey e.symm)]
  · simp only [Prod.mk.injEq, Except.ok.injEq] at h
    obtain ⟨h1, h2⟩ := h
    subst h1 h2
    exact ⟨by simp, fun _ _ => rfl⟩

/-- The epoch height step of `sendRawTransaction` makes requests only, and
changes no field but `epochHeight`. -/
theorem fillEpochHeight_ok (m : Module) (tx tx' : TxObject) (events : List Event)
    (h : CfxSendTransactionMethod.fillEpochHeight m tx = (events, .ok tx')) :
    (∀ t key, Event.sign t key ∉ events) ∧
    (∀ key, key ≠ "epochHeight" → tx'.field key = tx.field key) := by
  unfold CfxSendTransactionMethod.fillEpochHeight at h
  split at h
  · split at h
    · simp at h
    · simp only [Prod.mk.injEq, Except.ok.injEq] at h
      obtain ⟨h1, h2⟩ := h
      subst h1 h2
      refine ⟨by simp, ?_⟩
      intro key hkey
      rw [TxObject.field_assign, if_neg (fun e => hkey e.symm)]
  · simp only [Prod.mk.injEq, Except.ok.injEq] at h
    obtain ⟨h1, h2⟩ := h
    subst h1 h2
    exact ⟨by simp, fun _ _ => rfl⟩

/-- The fields after the defaults of `sendRawTransaction`: a falsy
`storageLimit` becomes 100000000, a falsy `chainId` becomes 0, and no other
field is changed. -/
theorem fillDefaults_field (tx : TxObject) :
    (CfxSendTransactionMethod.fillDefaults tx).field "storageLimit"
      = (if (tx.field "storageLimit").truthy then tx.field "storageLimit"
         else .number (.int 100000000)) ∧
    (CfxSendTransactionMethod.fillDefaults tx).field "chainId"
      = (if (tx.field "chainId").truthy then tx.field "chainId" else .number (.int 0)) ∧
    (∀ key, key ≠ "storageLimit" → key ≠ "chainId" →
      (CfxSendTransactionMethod.fillDefaults tx).field key = tx.field key) := by
  unfold CfxSendTransactionMethod.fillDefaults
  by_cases hs : (tx.field "storageLimit").truthy = true
  · by_cases hc : (tx.field "chainId").truthy = true
    · simp [hs, hc]
    · simp only [hs, hc, Bool.not_true, Bool.false_eq_true, if_false, Bool.not_false, if_true]
      refine ⟨?_, ?_, ?_⟩
      · rw [TxObject.field_assign, if_neg (by decide)]
      · rw [TxObject.field_assign, if_pos rfl]
      · intro key _ hk
        rw [TxObject.field_assign, if_neg (fun e => hk e.symm)]
  · have hc' : (tx.assign "storageLimit" (.number (.int 100000000))).field "chainId"
        = tx.field "chainId" := by
      rw [TxObject.field_assign, if_neg (by decide)]
    by_cases hc : (tx.field "chainId").truthy = true
    · simp only [hs, Bool.not_false, if_true, hc', hc, Bool.not_true, Bool.false_eq_true,
        if_false]
      refine ⟨?_, trivial, ?_⟩
      · rw [TxObject.field_assign, if_pos rfl]
      · intro key hk _
        rw [TxObject.field_assign, if_neg (fun e => hk e.symm)]
    · simp only [hs, Bool.not_false, if_true, hc', hc, Bool.false_eq_true, if_false]
      refine ⟨?_, ?_, ?_⟩
      · rw [TxObject.field_assign, if_neg (by decide), TxObject.field_assign, if_pos rfl]
      · rw [TxObject.field_assign, if_pos rfl]
      · intro key hk hk'
        rw [TxObject.field_assign, if_neg (fun e => hk' e.symm), TxObject.field_assign,
          if_neg (fun e => hk e.symm)]

/-- The fields after the last statements of `sendRawTransaction`. -/
theorem finish_field (tx : TxObject) :
    (CfxSendTransactionMethod.finish tx).field "to" = (tx.field "to").or (.string "0x") ∧
    (CfxSendTransactionMethod.finish tx).field "data" = (tx.field "data").or (.string "0x") ∧
    (CfxSendTransactionMethod.finish tx).field "value" = (tx.field "value").or (.string "0x") ∧
    ContractJs.JsObject.get (CfxSendTransactionMethod.finish tx) "from" = none ∧
    (∀ key, key ≠ "to" → key ≠ "data" → key ≠ "value" → key ≠ "from" →
      (CfxSendTransactionMethod.finish tx).field key = tx.field key) := by
  unfold CfxSendTransactionMethod.finish
  refine ⟨?_, ?_, ?_, ?_, ?_⟩
  · rw [TxObject.field_delete _ _ _ (by decide), TxObject.field_assign, if_neg (by decide),
      TxObject.field_assign, if_neg (by decide), TxObject.field_assign, if_pos rfl]
  · rw [TxObject.field_delete _ _ _ (by decide), TxObject.field_assign, if_neg (by decide),
      TxObject.field_assign, if_pos rfl, TxObject.field_assign, if_neg (by decide)]
  · rw [TxObject.field_delete _ _ _ (by decide), TxObject.field_assign, if_pos rfl,
      TxObject.field_assign, if_neg (by decide), TxObject.field_assign, if_neg (by decide)]
  · rw [TxObject.get_delete, if_pos rfl]
  · intro key h1 h2 h3 h4
    rw [TxObject.field_delete _ _ _ h4, TxObject.field_assign, if_neg (fun e => h3 e.symm),
      TxObject.field_assign, if_neg (fun e => h2 e.symm), TxObject.field_assign,
      if_neg (fun e => h1 e.symm)]

/-- The transaction that `sendRawTransaction` hands to the signer is the
formatted one after the four steps. -/
theorem sendRawTransaction_sign_inv (m : Module) (format : TxObject → Except JsError TxObject)
    (rpcMethod : String) (tx : TxObject) (privateKey : Value) (t : TxObject) (key : Value)
    (h : Event.sign t key
      ∈ (CfxSendTransactionMethod.sendRawTransaction m format rpcMethod tx privateKey).1) :
    ∃ tx0 tx1 tx2 events events',
      CfxSendTransactionMethod.beforeExecution format rpcMethod tx = .ok tx0 ∧
      CfxSendTransactionMethod.fillNonce m tx0 = (events, .ok tx1) ∧
      CfxSendTransactionMethod.fillEpochHeight m (CfxSendTransactionMethod.fillDefaults tx1)
        = (events', .ok tx2) ∧
      t = CfxSendTransactionMethod.finish tx2 := by
  unfold CfxSendTransactionMethod.sendRawTransaction at h
  simp only at h
  cases h0 : CfxSendTransactionMethod.beforeExecution format rpcMethod tx with
  | error e => simp [h0] at h
  | ok tx0 =>
    simp only [h0] at h
    cases h1 : CfxSendTransactionMethod.fillNonce m tx0 with
    | mk events r1 =>
      cases r1 with
      | error e =>
        simp only [h1] at h
        have := (fillNonce_requests m tx0 events _ h1) t key
        exact absurd h this
      | ok tx1 =>
        simp only [h1] at h
        have hn := (fillNonce_requests m tx0 events _ h1) t key
        cases h2 : CfxSendTransactionMethod.fillEpochHeight m
            (CfxSendTransactionMethod.fillDefaults tx1) with
        | mk events' r2 =>
          have he := (fillEpochHeight_requests m _ events' _ h2) t key
          cases r2 with
          | error e =>
            simp only [h2, List.mem_append] at h
            rcases h with h | h
            · exact absurd h hn
            · exact absurd h he
          | ok tx2 =>
            simp only [h2] at h
            refine ⟨tx0, tx1, tx2, events, events', rfl, h1, h2, ?_⟩
            split at h
            · simp only [List.mem_append, List.mem_singleton, Event.sign.injEq] at h
              rcases h with (h | h) | h
              · exact absurd h hn
              · exact absurd h he
              · exact h.1
            · simp only [List.mem_append, List.mem_cons, Event.sign.injEq, reduceCtorEq,
                List.not_mem_nil, or_false] at h
              rcases h with (h | h) | h
              · exact absurd h hn
              · exact absurd h he
              · exact h.1

/-- A call of the signer made by the signing with a wallet entry is for the
transaction given. -/
theorem signWith_inv (m : Module) (tx : TxObject) (key : Value) (events : List Event)
    (outcome : SignOutcome)
    (h : CfxSignTransactionMethod.signWith m tx key = some (events, outcome))
    (t : TxObject) (privateKey : Value) (hmem : Event.sign t privateKey ∈ events) : t = tx := by
  unfold CfxSignTransactionMethod.signWith at h
  split at h
  · simp only [Option.some.injEq, Prod.mk.injEq] at h
    obtain ⟨h1, _⟩ := h
    subst h1
    simp at hmem
  · split at h
    · cases h
    · simp only [Option.some.injEq, Prod.mk.injEq] at h
      obtain ⟨h1, _⟩ := h
      subst h1
      simp only [List.mem_singleton, Event.sign.injEq] at hmem
      exact hmem.1

/-- A call of the signer made at the end of `execute` of
`CfxSignTransactionMethod` is for the transaction given. -/
theorem signLocally_inv (m : Module) (tx : TxObject) (address : Value)
    (t : TxObject) (privateKey : Value)
    (hmem : Event.sign t privateKey ∈ (CfxSignTransactionMethod.signLocally m tx address).1) :
    t = tx := by
  unfold CfxSignTransactionMethod.signLocally at hmem
  simp only at hmem
  split at hmem
  · rename_i result hby
    obtain ⟨events, outcome⟩ := result
    split at hby
    · exact signWith_inv m tx _ events outcome hby t privateKey hmem
    · cases hby
  · split at hmem
    · rename_i result hby
      obtain ⟨events, outcome⟩ := result
      split at hby
      · exact signWith_inv m tx _ events outcome hby t privateKey hmem
      · cases hby
    · simp at hmem

/-- The epoch height step of `execute` of `CfxSignTransactionMethod` makes
requests only, and changes no field but `epochHeight`. -/
theorem CfxSignTransactionMethod.fillEpochHeight_inv (m : Module) (tx : TxObject)
    (events : List Event) (r : Option TxObject)
    (h : CfxSignTransactionMethod.fillEpochHeight m tx = (events, r)) :
    (∀ t key, Event.sign t key ∉ events) ∧
    (∀ tx', r = some tx' → ∀ key, key ≠ "epochHeight" → tx'.field key = tx.field key) := by
  unfold CfxSignTransactionMethod.fillEpochHeight at h
  split at h
  · split at h
    · simp only [Prod.mk.injEq] at h
      obtain ⟨h1, h2⟩ := h
      subst h1 h2
      exact ⟨by simp, by intro tx' h'; cases h'⟩
    · simp only [Prod.mk.injEq] at h
      obtain ⟨h1, h2⟩ := h
      subst h1 h2
      refine ⟨by simp, ?_⟩
      intro tx' h' key hkey
      simp only [Option.some.injEq] at h'
      subst h'
      rw [TxObject.field_assign, if_neg (fun e => hkey e.symm)]
  · simp only [Prod.mk.injEq] at h
    obtain ⟨h1, h2⟩ := h
    subst h1 h2
    refine ⟨by simp, ?_⟩
    intro tx' h' key _
    simp only [Option.some.injEq] at h'
    subst h'
    rfl

/-- C18: when the caller left `storageLimit` and `chainId` unset, the
transaction handed to the signer has `storageLimit = 100000000` and `chainId =
0`, in `execute` of `CfxSignTransactionMethod` (for the transaction it is
given) and in `sendRawTransaction` of `CfxSendTransactionMethod` (for the
transaction as `beforeExecution` leaves it). -/
theorem defaults_handed_to_signer (m : Module) (format : TxObject → Except JsError TxObject)
    (rpcMethod : String) (tx : TxObject) (address privateKey : Value)
    (formatted t : TxObject) (key : Value)
    (hstorage : tx.field "storageLimit" = .undefined)
    (hchain : tx.field "chainId" = .undefined)
    (hformat : CfxSendTransactionMethod.beforeExecution format rpcMethod tx = .ok formatted)
    (hstorage' : formatted.field "storageLimit" = .undefined)
    (hchain' : formatted.field "chainId" = .undefined) :
    (Event.sign t key ∈ (CfxSignTransactionMethod.execute m tx address).1 →
      t.field "storageLimit" = .number (.int 100000000) ∧
      t.field "chainId" = .number (.int 0)) ∧
    (Event.sign t key
        ∈ (CfxSendTransactionMethod.sendRawTransaction m format rpcMethod tx privateKey).1 →
      t.field "storageLimit" = .number (.int 100000000) ∧
      t.field "chainId" = .number (.int 0)) := by
  constructor
  · intro h
    have hdef : (CfxSignTransactionMethod.fillDefaults tx).field "storageLimit"
          = .number (.int 100000000) ∧
        (CfxSignTransactionMethod.fillDefaults tx).field "chainId" = .number (.int 0) := by
      unfold CfxSignTransactionMethod.fillDefaults
      have hc : (tx.assign "storageLimit" (.number (.int 100000000))).field "chainId"
          = .undefined := by
        rw [TxObject.field_assign, if_neg (by decide), hchain]
      simp only [hstorage, if_true, hc]
      constructor
      · rw [TxObject.field_assign, if_neg (by decide), TxObject.field_assign, if_pos rfl]
      · rw [TxObject.field_assign, if_pos rfl]
    unfold CfxSignTransactionMethod.execute at h
    cases hfill : CfxSignTransactionMethod.fillEpochHeight m
        (CfxSignTransactionMethod.fillDefaults tx) with
    | mk requests r =>
      obtain ⟨hreq, hfields⟩ := CfxSignTransactionMethod.fillEpochHeight_inv m _ requests r hfill
      cases r with
      | none =>
        simp only [hfill] at h
        exact absurd h (hreq t key)
      | some tx' =>
        simp only [hfill, List.mem_append] at h
        rcases h with h | h
        · exact absurd h (hreq t key)
        · have ht := signLocally_inv m tx' address t key h
          subst ht
          rw [hfields t rfl "storageLimit" (by decide), hfields t rfl "chainId" (by decide)]
          exact hdef
  · intro h
    obtain ⟨tx0, tx1, tx2, events, events', h0, h1, h2, ht⟩ :=
      sendRawTransaction_sign_inv m format rpcMethod tx privateKey t key h
    rw [hformat] at h0
    simp only [Except.ok.injEq] at h0
    subst h0
    obtain ⟨_, hn⟩ := fillNonce_ok m formatted tx1 events h1
    obtain ⟨_, he⟩ := fillEpochHeight_ok m _ tx2 events' h2
    obtain ⟨hs, hc, _⟩ := fillDefaults_field tx1
    obtain ⟨_, _, _, _, hf⟩ := finish_field tx2
    rw [ht, hf "storageLimit" (by decide) (by decide) (by decide) (by decide),
      hf "chainId" (by decide) (by decide) (by decide) (by decide),
      he "storageLimit" (by decide), he "chainId" (by decide), hs, hc,
      hn "storageLimit" (by decide), hn "chainId" (by decide), hstorage', hchain']
    exact ⟨rfl, rfl⟩

/-- A transaction with `from`, `gas` and `gasPrice` only: both methods hand it
to the signer with the two defaults. -/
theorem defaults_handed_to_signer_witness :
    (∃ t key, Event.sign t key
        ∈ (CfxSignTransactionMethod.execute Example.module Example.bareTx (.string "0xa1")).1 ∧
      t.field "storageLimit" = .number (.int 100000000) ∧
      t.field "chainId" = .number (.int 0)) ∧
    (∃ t key, Event.sign t key
        ∈ (CfxSendTransactionMethod.sendRawTransaction Example.module (fun tx => .ok tx)
            "cfx_sendTransaction" Example.bareTx (.string "0xkey")).1 ∧
      t.field "storageLimit" = .number (.int 100000000) ∧
      t.field "chainId" = .number (.int 0)) :=
  ⟨⟨_, _, List.Mem.tail _ (List.Mem.head _),
      (defaults_handed_to_signer Example.module (fun tx => .ok tx) "cfx_sendTransaction"
        Example.bareTx (.string "0xa1") (.string "0xkey") Example.bareTx _ _ rfl rfl rfl rfl
        rfl).1 (List.Mem.tail _ (List.Mem.head _))⟩,
    ⟨_, _, List.Mem.tail _ (List.Mem.tail _ (List.Mem.head _)),
      (defaults_handed_to_signer Example.module (fun tx => .ok tx) "cfx_sendTransaction"
        Example.bareTx (.string "0xa1") (.string "0xkey") Example.bareTx _ _ rfl rfl rfl rfl
        rfl).2 (List.Mem.tail _ (List.Mem.tail _ (List.Mem.head _)))⟩⟩

/-- C19: what `sendRawTransaction` does with a transaction in which the caller
set `nonce`, `storageLimit`, `chainId` and `epochHeight` to 0. The nonce is
kept and not asked for, but the node is asked for the epoch number, and the
transaction handed to the signer has `storageLimit = 100000000` and the
answer of the node as `epochHeight`; `execute` of `CfxSignTransactionMethod`
hands the same transaction to the signer as the caller gave it. -/
theorem sendRawTransaction_replaces_zero :
    (CfxSendTransactionMethod.sendRawTransaction Example.module (fun tx => .ok tx)
        "cfx_sendTransaction" Example.zeroTx (.string "0xkey")).1
      = [.request .epochNumber,
          .sign
            [("to", .string "0xb2"), ("gas", .number (.int 21000)),
              ("gasPrice", .number (.int 1)), ("value", .string "0x"),
              ("nonce", .number (.int 0)), ("storageLimit", .number (.int 100000000)),
              ("chainId", .number (.int 0)), ("epochHeight", .string "0x7b"),
              ("data", .string "0x")]
            (.string "0xkey"),
          .request (.sendRawTransaction (.string "0xf86b"))] ∧
    Example.zeroTx.field "storageLimit" = .number (.int 0) ∧
    Example.zeroTx.field "epochHeight" = .number (.int 0) ∧
    (CfxSignTransactionMethod.execute Example.module Example.zeroTx .undefined).1
      = [.sign Example.zeroTx (.string "0xkey")] := by
  refine ⟨by decide, by decide, by decide, by decide⟩

/-- C20, as stated, fails: the caller gave the value 0, and the transaction
handed to the signer has the value `'0x'`. -/
theorem sendRawTransaction_zero_value :
    ∃ t key, Event.sign t key
        ∈ (CfxSendTransactionMethod.sendRawTransaction Example.module (fun tx => .ok tx)
            "cfx_sendTransaction" Example.zeroTx (.string "0xkey")).1 ∧
      Example.zeroTx.field "value" = .number (.int 0) ∧
      t.field "value" = .string "0x" :=
  ⟨_, _, List.Mem.tail _ (List.Mem.head _), by decide, by decide⟩

/-- C20, amended: the transaction that `sendRawTransaction` hands to the signer
has `to`, `data` and `value` each equal to that of the transaction (as
`beforeExecution` leaves it) when it is truthy, and to `'0x'` when it is
absent or falsy; it has no `from` field, and its `gas` and `gasPrice` are
unchanged. -/
theorem signed_transaction_fields (m : Module) (format : TxObject → Except JsError TxObject)
    (rpcMethod : String) (tx : TxObject) (privateKey : Value) (formatted t : TxObject)
    (key : Value)
    (hformat : CfxSendTransactionMethod.beforeExecution format rpcMethod tx = .ok formatted)
    (hsign : Event.sign t key
      ∈ (CfxSendTransactionMethod.sendRawTransaction m format rpcMethod tx privateKey).1) :
    t.field "to"
      = (if (formatted.field "to").truthy then formatted.field "to" else .string "0x") ∧
    t.field "data"
      = (if (formatted.field "data").truthy then formatted.field "data" else .string "0x") ∧
    t.field "value"
      = (if (formatted.field "value").truthy then formatted.field "value" else .string "0x") ∧
    ContractJs.JsObject.get t "from" = none ∧
    t.field "gas" = formatted.field "gas" ∧
    t.field "gasPrice" = formatted.field "gasPrice" := by
  obtain ⟨tx0, tx1, tx2, events, events', h0, h1, h2, ht⟩ :=
    sendRawTransaction_sign_inv m format rpcMethod tx privateKey t key hsign
  rw [hformat] at h0
  simp only [Except.ok.injEq] at h0
  subst h0
  obtain ⟨_, hn⟩ := fillNonce_ok m formatted tx1 events h1
  obtain ⟨_, he⟩ := fillEpochHeight_ok m _ tx2 events' h2
  obtain ⟨_, _, hd⟩ := fillDefaults_field tx1
  obtain ⟨hto, hdata, hvalue, hfrom, hf⟩ := finish_field tx2
  have hkeep : ∀ k, k ≠ "nonce" → k ≠ "storageLimit" → k ≠ "chainId" → k ≠ "epochHeight" →
      tx2.field k = formatted.field k := by
    intro k k1 k2 k3 k4
    rw [he k k4, hd k k2 k3, hn k k1]
  subst ht
  refine ⟨?_, ?_, ?_, hfrom, ?_, ?_⟩
  · rw [hto, hkeep "to" (by decide) (by decide) (by decide) (by decide)]
    rfl
  · rw [hdata, hkeep "data" (by decide) (by decide) (by decide) (by decide)]
    rfl
  · rw [hvalue, hkeep "value" (by decide) (by decide) (by decide) (by decide)]
    rfl
  · rw [hf "gas" (by decide) (by decide) (by decide) (by decide),
      hkeep "gas" (by decide) (by decide) (by decide) (by decide)]
  · rw [hf "gasPrice" (by decide) (by decide) (by decide) (by decide),
      hkeep "gasPrice" (by decide) (by decide) (by decide) (by decide)]

/-- A transaction with `from`, `gas` and `gasPrice` only: `to`, `data` and
`value` are `'0x'` in what the signer gets, `from` is gone, `gas` and
`gasPrice` are those of the caller. -/
theorem signed_transaction_fields_witness :
    ∃ t key, Event.sign t key
        ∈ (CfxSendTransactionMethod.sendRawTransaction Example.module (fun tx => .ok tx)
            "cfx_sendTransaction" Example.bareTx (.string "0xkey")).1 ∧
      t.field "to"
        = (if (Example.bareTx.field "to").truthy then Example.bareTx.field "to"
           else .string "0x") ∧
      t.field "data"
        = (if (Example.bareTx.field "data").truthy then Example.bareTx.field "data"
           else .string "0x") ∧
      t.field "value"
        = (if (Example.bareTx.field "value").truthy then Example.bareTx.field "value"
           else .string "0x") ∧
      ContractJs.JsObject.get t "from" = none ∧
      t.field "gas" = Example.bareTx.field "gas" ∧
      t.field "gasPrice" = Example.bareTx.field "gasPrice" :=
  ⟨_, _, List.Mem.tail _ (List.Mem.tail _ (List.Mem.head _)),
    signed_transaction_fields Example.module (fun tx => .ok tx) "cfx_sendTransaction"
      Example.bareTx (.string "0xkey") Example.bareTx _ _ rfl
      (List.Mem.tail _ (List.Mem.tail _ (List.Mem.head _)))⟩

end Method

namespace AbiUtils

theorem bufferToHex_append (a b : Buffer) :
    bufferToHex (a ++ b) = bufferToHex a ++ bufferToHex b := by
  induction a with
  | nil => rfl
  | cons x xs ih =>
    rw [List.cons_append, bufferToHex, ih]
    rfl

theorem bufferToHex_length (a : Buffer) : (bufferToHex a).length = 2 * a.length := by
  induction a with
  | nil => rfl
  | cons x xs ih =>
    simp only [bufferToHex, List.length_cons, ih]
    omega

/-- What `padBuffer` returns for a `Buffer`: the buffer with `skip` zero bytes
behind it (`alignLeft`) or in front of it. -/
theorem padBuffer_buffer {ε : Type} (toBuffer : String → Except ε Buffer)
    (b : Buffer) (alignLeft : Bool) :
    padBuffer toBuffer (.buffer b) alignLeft
      = .ok (if alignLeft then b ++ List.replicate (HexStream.skip b.length) 0
             else List.replicate (HexStream.skip b.length) 0 ++ b) := by
  have htake : ∀ c : Nat, c < 32 →
      List.take c (List.replicate 32 (0 : Fin 256)) = List.replicate c 0 := by
    intro c hc
    rw [List.take_replicate, Nat.min_eq_left (by omega)]
  unfold padBuffer HexStream.skip ZERO_BUFFER WORD_BYTES
  simp only [pure, Except.pure, bind, Except.bind]
  by_cases hc : 0 < 32 - b.length % 32 ∧ 32 - b.length % 32 < 32
  · rw [if_pos hc, if_pos hc, htake _ hc.2]
    cases alignLeft <;> rfl
  · rw [if_neg hc, if_neg hc]
    cases alignLeft <;> simp

/-- A read of `b.length` bytes at the place where the padded buffer of `b`
stands in the stream returns the hex digits of `b` and moves the cursor behind
the padded buffer. -/
theorem read_padded (pre post : List Char) (b p : Buffer) (alignLeft : Bool) (i : Nat)
    (hpre : pre.length = 2 * i)
    (hp : p = if alignLeft then b ++ List.replicate (HexStream.skip b.length) 0
              else List.replicate (HexStream.skip b.length) 0 ++ b) :
    HexStream.read { string := pre ++ (bufferToHex p ++ post), index := i }
        (.int b.length) alignLeft
      = .ok (bufferToHex b,
          { string := pre ++ (bufferToHex p ++ post), index := i + p.length }) := by
  have hb := bufferToHex_length b
  have hz := bufferToHex_length
    (List.replicate (HexStream.skip b.length) (0 : Fin 256))
  rw [List.length_replicate] at hz
  rw [read_ok_iff]
  refine ⟨?_, hb, ?_⟩
  · cases alignLeft
    · simp only [Bool.false_eq_true, if_false] at hp ⊢
      subst hp
      unfold HexStream.cut BYTE_CHARS
      simp only
      rw [bufferToHex_append, substring_eq _ _ _ (by omega)
        (by simp only [List.length_append, hb, hz, hpre]; omega)]
      have e : pre ++ (bufferToHex (List.replicate (HexStream.skip b.length) 0)
            ++ bufferToHex b ++ post)
          = (pre ++ bufferToHex (List.replicate (HexStream.skip b.length) 0))
            ++ (bufferToHex b ++ post) := by
        simp only [List.append_assoc]
      rw [e, List.drop_left' (by simp only [List.length_append, hz, hpre]; omega),
        List.take_left' (by rw [hb]; omega)]
    · simp only [if_true] at hp ⊢
      subst hp
      unfold HexStream.cut BYTE_CHARS
      simp only
      rw [bufferToHex_append, substring_eq _ _ _ (by omega)
        (by simp only [List.length_append, hb, hz, hpre]; omega)]
      rw [List.drop_left' (by omega), List.append_assoc,
        List.take_left' (by rw [hb]; omega)]
  · subst hp
    cases alignLeft
    · simp only [Bool.false_eq_true, if_false, List.length_append,
        List.length_replicate, HexStream.mk.injEq, true_and]
      omega
    · simp only [if_true, List.length_append, List.length_replicate]

theorem reads_padded (toBuffer : String → Except ε Buffer)
    (items : List (Buffer × Bool)) (pads : List Buffer)
    (hpads : List.Forall₂
      (fun item p => padBuffer toBuffer (.buffer item.1) item.2 = .ok p) items pads) :
    ∀ (pre : List Char) (i : Nat), pre.length = 2 * i →
      HexStream.reads { string := pre ++ bufferToHex pads.flatten, index := i }
          (items.map (fun item => (.int item.1.length, item.2)))
        = .ok (items.map (fun item => bufferToHex item.1),
            { string := pre ++ bufferToHex pads.flatten,
              index := i + pads.flatten.length }) := by
  induction hpads with
  | nil =>
    intro pre i _
    rfl
  | @cons item p items pads hp _ ih =>
    intro pre i hpre
    rw [padBuffer_buffer] at hp
    have hp' := (Except.ok.inj hp).symm
    simp only [List.map_cons, List.flatten_cons, bufferToHex_append, HexStream.reads]
    rw [read_padded pre (bufferToHex pads.flatten) item.1 p item.2 i hpre hp']
    simp only
    have e : pre ++ (bufferToHex p ++ bufferToHex pads.flatten)
        = (pre ++ bufferToHex p) ++ bufferToHex pads.flatten := by
      rw [List.append_assoc]
    rw [e, ih (pre ++ bufferToHex p) (i + p.length)
      (by rw [List.length_append, bufferToHex_length, hpre]; omega)]
    simp only [List.length_append, Nat.add_assoc]

/-- C26: `padBuffer` and `HexStream.read` are inverse. For every list of byte
buffers with their alignment flags, the stream built from the concatenation of
their padded buffers answers the reads `read(len(b), a)`, made in order, with
the hex digits of the buffers: every read succeeds, the content of the stream
stays as it was, and the cursor ends exactly at the end of the stream. -/
theorem padBuffer_read_inverse {ε : Type} (toBuffer : String → Except ε Buffer)
    (items : List (Buffer × Bool)) (pads : List Buffer)
    (hpads : List.Forall₂
      (fun item p => padBuffer toBuffer (.buffer item.1) item.2 = .ok p) items pads) :
    ∃ s' : HexStream,
      (HexStream.ofBuffers pads).reads
          (items.map (fun item => (.int item.1.length, item.2)))
        = .ok (items.map (fun item => bufferToHex item.1), s') ∧
      s'.string = (HexStream.ofBuffers pads).string ∧
      BYTE_CHARS * s'.index = s'.string.length := by
  have h := reads_padded toBuffer items pads hpads [] 0 rfl
  rw [List.nil_append] at h
  refine ⟨_, h, rfl, ?_⟩
  simp only [BYTE_CHARS, bufferToHex_length, Nat.zero_add]

theorem padBuffer_read_inverse_witness :
    ∃ s' : HexStream,
      (HexStream.ofBuffers [List.replicate 30 0 ++ [1, 2], [171] ++ List.replicate 31 0]).reads
          ([(([1, 2] : Buffer), false), ([171], true)].map
            (fun item => (.int item.1.length, item.2)))
        = .ok ([(([1, 2] : Buffer), false), ([171], true)].map
            (fun item => bufferToHex item.1), s') ∧
      s'.string
        = (HexStream.ofBuffers
            [List.replicate 30 0 ++ [1, 2], [171] ++ List.replicate 31 0]).string ∧
      BYTE_CHARS * s'.index = s'.string.length :=
  padBuffer_read_inverse (fun _ => Except.error ()) [([1, 2], false), ([171], true)]
    [List.replicate 30 0 ++ [1, 2], [171] ++ List.replicate 31 0]
    (List.Forall₂.cons rfl (List.Forall₂.cons rfl List.Forall₂.nil))

/-- C27, counterexample: on the two-byte stream `abcd`, whose cursor 0 lies
inside it, the left-aligned read of 2 bytes succeeds although none of its 30
pad bytes is present, and leaves the cursor at 32, behind the end. -/
theorem read_left_aligned_passes_end :
    BYTE_CHARS * (HexStream.from "abcd".toList).index
        ≤ (HexStream.from "abcd".toList).string.length ∧
      (HexStream.from "abcd".toList).read (.int 2) true
        = .ok ("abcd".toList, { string := "abcd".toList, index := 32 }) ∧
      ¬ BYTE_CHARS * 32 ≤ (HexStream.from "abcd".toList).string.length := by
  refine ⟨by decide, rfl, by decide⟩

/-- C27, amended: for every stream whose cursor is at most its byte length, a
successful right-aligned read (`alignLeft = false`) leaves the cursor at most
at the byte length; a successful left-aligned read has found its content
inside the stream, but its pad bytes are not looked at, so the cursor may pass
the end by the pad bytes, at most 31. -/
theorem read_cursor_bound (s : HexStream) (v : JsValue) (alignLeft : Bool)
    (out : List Char) (s' : HexStream)
    (hin : BYTE_CHARS * s.index ≤ s.string.length)
    (h : s.read v alignLeft = .ok (out, s')) :
    s'.string = s.string ∧
    (alignLeft = false → BYTE_CHARS * s'.index ≤ s.string.length) ∧
    (alignLeft = true → ∃ n : Nat, v = .int n ∧
      BYTE_CHARS * (s.index + n) ≤ s.string.length ∧
      s'.index = s.index + n + HexStream.skip n ∧ HexStream.skip n ≤ 31) := by
  obtain ⟨n, rfl, _⟩ := read_ok_index s v alignLeft out s' h
  obtain ⟨hout, hlen, hs'⟩ := (read_ok_iff s n alignLeft out s').mp h
  have hskip := skip_eq n
  unfold BYTE_CHARS at hin ⊢
  subst hs'
  refine ⟨rfl, ?_, ?_⟩
  · intro ha
    subst ha
    simp only [Bool.false_eq_true, if_false] at hout
    rw [hout, cut_length] at hlen
    simp only
    omega
  · intro ha
    subst ha
    simp only [if_true] at hout
    rw [hout, cut_length] at hlen
    refine ⟨n, rfl, ?_, ?_, ?_⟩
    · omega
    · simp only
      omega
    · omega

theorem read_cursor_bound_witness :
    BYTE_CHARS * (HexStream.from "abcd".toList).index
        ≤ (HexStream.from "abcd".toList).string.length ∧
      ({ string := "abcd".toList, index := 32 } : HexStream).string
        = (HexStream.from "abcd".toList).string ∧
      (true = false →
        BYTE_CHARS * ({ string := "abcd".toList, index := 32 } : HexStream).index
          ≤ (HexStream.from "abcd".toList).string.length) ∧
      (true = true → ∃ n : Nat, JsValue.int 2 = .int n ∧
        BYTE_CHARS * ((HexStream.from "abcd".toList).index + n)
          ≤ (HexStream.from "abcd".toList).string.length ∧
        ({ string := "abcd".toList, index := 32 } : HexStream).index
          = (HexStream.from "abcd".toList).index + n + HexStream.skip n ∧
        HexStream.skip n ≤ 31) :=
  ⟨by decide,
    read_cursor_bound (HexStream.from "abcd".toList) (.int 2) true "abcd".toList
      { string := "abcd".toList, index := 32 } (by decide) rfl⟩

/-- C28: `HexStream.read` is atomic on failure. It fails with "invalid length"
exactly when the length is not an integer that is at least 0; and whenever it
fails, with either message, the stream the caller is left with is the stream
as it was before the call (the one the error reports), so that every read made
afterwards gives what it would have given had the failed read not been made. -/
theorem read_atomic_on_failure (s : HexStream) (v : JsValue) (alignLeft : Bool) :
    ((∃ e, s.read v alignLeft = .error e ∧ e.message = "invalid length") ↔
      (v = .nonInteger ∨ ∃ i : Int, i < 0 ∧ v = .int i)) ∧
    (∀ e, s.read v alignLeft = .error e →
      (s.tryRead v alignLeft).1 = .error e ∧
      (s.tryRead v alignLeft).2 = s ∧
      (e = .invalidLength v s ∨ ∃ expect got, e = .lengthNotMatch expect got s) ∧
      ∀ (v' : JsValue) (a' : Bool),
        (s.tryRead v alignLeft).2.tryRead v' a' = s.tryRead v' a') := by
  have htry : ∀ e, s.read v alignLeft = .error e → s.tryRead v alignLeft = (.error e, s) := by
    intro e he
    unfold HexStream.tryRead
    rw [he]
  have hkind : ∀ e, s.read v alignLeft = .error e →
      (e = .invalidLength v s ∧ (v = .nonInteger ∨ ∃ i : Int, i < 0 ∧ v = .int i)) ∨
      (∃ expect got, e = .lengthNotMatch expect got s) := by
    intro e he
    unfold HexStream.read at he
    cases v with
    | nonInteger =>
      simp only [Except.error.injEq] at he
      exact Or.inl ⟨he.symm, Or.inl rfl⟩
    | int i =>
      simp only at he
      by_cases hi : 0 ≤ i
      · rw [if_pos hi] at he
        split at he <;> split at he
        all_goals
          first
          | exact Or.inr ⟨_, _, (Except.error.inj he).symm⟩
          | cases he
      · rw [if_neg hi] at he
        simp only [Except.error.injEq] at he
        exact Or.inl ⟨he.symm, Or.inr ⟨i, by omega, rfl⟩⟩
  refine ⟨⟨?_, ?_⟩, ?_⟩
  · rintro ⟨e, he, hmsg⟩
    rcases hkind e he with ⟨_, hv⟩ | ⟨expect, got, rfl⟩
    · exact hv
    · simp [ReadError.message] at hmsg
  · rintro (rfl | ⟨i, hi, rfl⟩)
    · exact ⟨_, rfl, rfl⟩
    · refine ⟨.invalidLength (.int i) s, ?_, rfl⟩
      unfold HexStream.read
      simp only
      rw [if_neg (by omega)]
  · intro e he
    rw [htry e he]
    refine ⟨rfl, rfl, ?_, fun _ _ => rfl⟩
    rcases hkind e he with ⟨h1, _⟩ | h2
    · exact Or.inl h1
    · exact Or.inr h2

theorem read_atomic_on_failure_witness :
    (HexStream.tryRead { string := "abcd".toList, index := 0 } (.int 3) false).2
        = { string := "abcd".toList, index := 0 } ∧
      (HexStream.tryRead { string := "abcd".toList, index := 0 } (.int (-1)) true).2
        = { string := "abcd".toList, index := 0 } :=
  ⟨((read_atomic_on_failure { string := "abcd".toList, index := 0 } (.int 3) false).2
      (.lengthNotMatch 6 0 { string := "abcd".toList, index := 0 }) rfl).2.1,
    ((read_atomic_on_failure { string := "abcd".toList, index := 0 } (.int (-1)) true).2
      (.invalidLength (.int (-1)) { string := "abcd".toList, index := 0 }) rfl).2.1⟩

end AbiUtils

namespace ContractJs

/-- What one step of the loop of the `ABI` constructor leaves in
`_codeToEvent` and in `_constructorFunction`. -/
theorem add_event_ctor {α : Type} (abi0 abi1 : ABI α) (inst : Member α)
    (hadd : abi0.add inst = .ok abi1) :
    (∀ k g, abi1._codeToFunction.get k = some g →
      abi0._codeToFunction.get k = some g ∨ (g.code = k ∧ inst = Member.function g)) ∧
    (∀ k e, abi1._codeToEvent.get k = some e →
      abi0._codeToEvent.get k = some e ∨ (e.code = k ∧ inst = Member.event e)) ∧
    (∀ c, abi1._constructorFunction = some c →
      abi0._constructorFunction = some c ∨ inst = Member.ctor c) := by
  cases inst with
  | address a =>
    cases a with
    | none => simp [ABI.add] at hadd
    | some a =>
      simp only [ABI.add, Except.ok.injEq] at hadd
      subst hadd
      exact ⟨fun _ _ h => Or.inl h, fun _ _ h => Or.inl h, fun _ h => Or.inl h⟩
  | ctor c0 =>
    simp only [ABI.add, Except.ok.injEq] at hadd
    subst hadd
    refine ⟨fun _ _ h => Or.inl h, fun _ _ h => Or.inl h, fun c h => Or.inr ?_⟩
    simp only [Option.some.injEq] at h
    rw [h]
  | function f =>
    simp only [ABI.add, Except.ok.injEq] at hadd
    subst hadd
    refine ⟨fun k g h => ?_, fun _ _ h => Or.inl h, fun _ h => Or.inl h⟩
    simp only [JsObject.get_set] at h
    by_cases hk : f.code = k
    · rw [if_pos hk, Option.some.injEq] at h
      subst h
      exact Or.inr ⟨hk, rfl⟩
    · rw [if_neg hk] at h
      exact Or.inl h
  | event e0 =>
    simp only [ABI.add, Except.ok.injEq] at hadd
    subst hadd
    refine ⟨fun _ _ h => Or.inl h, fun k e h => ?_, fun _ h => Or.inl h⟩
    simp only [JsObject.get_set] at h
    by_cases hk : e0.code = k
    · rw [if_pos hk, Option.some.injEq] at h
      subst h
      exact Or.inr ⟨hk, rfl⟩
    · rw [if_neg hk] at h
      exact Or.inl h
  | abi a =>
    simp only [ABI.add, Except.ok.injEq] at hadd
    subst hadd
    exact ⟨fun _ _ h => Or.inl h, fun _ _ h => Or.inl h, fun _ h => Or.inl h⟩

/-- Every entry that the loop of the `ABI` constructor leaves was there before
or is a member of the contract, stored under its code. -/
theorem addAll_sound {α : Type} (props : List (String × Member α)) :
    ∀ (abi0 abi : ABI α), ABI.addAll abi0 props = .ok abi →
      (∀ k g, abi._codeToFunction.get k = some g →
        abi0._codeToFunction.get k = some g ∨
          (g.code = k ∧ ∃ key, (key, Member.function g) ∈ props)) ∧
      (∀ k e, abi._codeToEvent.get k = some e →
        abi0._codeToEvent.get k = some e ∨
          (e.code = k ∧ ∃ key, (key, Member.event e) ∈ props)) ∧
      (∀ c, abi._constructorFunction = some c →
        abi0._constructorFunction = some c ∨ ∃ key, (key, Member.ctor c) ∈ props) := by
  induction props with
  | nil =>
    intro abi0 abi h
    simp only [ABI.addAll, Except.ok.injEq] at h
    subst h
    exact ⟨fun _ _ h => Or.inl h, fun _ _ h => Or.inl h, fun _ h => Or.inl h⟩
  | cons p rest ih =>
    intro abi0 abi h
    obtain ⟨key0, inst⟩ := p
    simp only [ABI.addAll] at h
    cases hadd : abi0.add inst with
    | error e => simp [hadd] at h
    | ok abi1 =>
      simp only [hadd] at h
      obtain ⟨ih1, ih2, ih3⟩ := ih abi1 abi h
      obtain ⟨st1, st2, st3⟩ := add_event_ctor abi0 abi1 inst hadd
      refine ⟨fun k g hg => ?_, fun k e he => ?_, fun c hc => ?_⟩
      · rcases ih1 k g hg with h1 | ⟨h1, key, hmem⟩
        · rcases st1 k g h1 with h2 | ⟨h2, h3⟩
          · exact Or.inl h2
          · exact Or.inr ⟨h2, key0, h3 ▸ List.mem_cons_self _ _⟩
        · exact Or.inr ⟨h1, key, List.mem_cons_of_mem _ hmem⟩
      · rcases ih2 k e he with h1 | ⟨h1, key, hmem⟩
        · rcases st2 k e h1 with h2 | ⟨h2, h3⟩
          · exact Or.inl h2
          · exact Or.inr ⟨h2, key0, h3 ▸ List.mem_cons_self _ _⟩
        · exact Or.inr ⟨h1, key, List.mem_cons_of_mem _ hmem⟩
      · rcases ih3 c hc with h1 | ⟨key, hmem⟩
        · rcases st3 c h1 with h2 | h3
          · exact Or.inl h2
          · exact Or.inr ⟨key0, h3 ▸ List.mem_cons_self _ _⟩
        · exact Or.inr ⟨key, List.mem_cons_of_mem _ hmem⟩

/-- A property that the address has and that every member made from a
fragment of the interface description has, holds of all the properties of the
contract. -/
theorem members_inv {α : Type} (newFunctionCoder : Fragment → FunctionCoder α)
    (newEventCoder : Fragment → EventCoder α) (code : Option (List Char))
    (Q : Member α → Prop) (l : List Fragment)
    (hstep : ∀ fr ∈ l,
      (fr.type = "constructor" → Q (.ctor (ContractFunction.new newFunctionCoder fr code))) ∧
      (fr.type = "function" → Q (.function (ContractFunction.new newFunctionCoder fr none))) ∧
      (fr.type = "event" → Q (.event (ContractEvent.new newEventCoder fr)))) :
    ∀ props : JsObject String (Member α),
      (∀ key inst, (key, inst) ∈ props → Q inst) →
      ∀ key inst,
        (key, inst) ∈ l.foldl (Contract.addFragment newFunctionCoder newEventCoder code) props →
        Q inst := by
  induction l with
  | nil =>
    intro props hp key inst hmem
    exact hp key inst hmem
  | cons fr rest ih =>
    intro props hp key inst hmem
    simp only [List.foldl_cons] at hmem
    refine ih (fun x hx => hstep x (List.mem_cons_of_mem _ hx)) _ ?_ key inst hmem
    obtain ⟨hc, hf, he⟩ := hstep fr (List.mem_cons_self _ _)
    intro key' inst' hmem'
    unfold Contract.addFragment at hmem'
    split at hmem'
    · rename_i hty
      rcases JsObject.mem_set _ _ _ _ hmem' with h | h
      · exact hp key' inst' h
      · rw [(Prod.mk.inj h).2]
        exact hc hty
    · split at hmem'
      · rename_i hty
        rcases JsObject.mem_set _ _ _ _ hmem' with h | h
        · exact hp key' inst' h
        · rw [(Prod.mk.inj h).2]
          exact hf hty
      · split at hmem'
        · rename_i hty
          rcases JsObject.mem_set _ _ _ _ hmem' with h | h
          · exact hp key' inst' h
          · rw [(Prod.mk.inj h).2]
            exact he hty
        · exact hp key' inst' hmem'

/-- C23: for every contract, every call-data hex string whose first 4 bytes
(the characters before index 10) are the selector of no function of the
contract and that does not start with the code of its constructor, is decoded
by `abi.decodeData` to `undefined`, without an error; and every log whose
topic 0 is the signature of no event of the contract is decoded by
`abi.decodeLog` to `undefined`. Hex strings are the keys for which the lookup
in the two tables of the `ABI` is modelled. -/
theorem decode_unknown {α : Type} (newFunctionCoder : Fragment → FunctionCoder α)
    (newEventCoder : Fragment → EventCoder α)
    (contractABI : List Fragment) (address code : Option (List Char))
    (contract : Contract α)
    (hnew : Contract.new newFunctionCoder newEventCoder contractABI address code = .ok contract)
    (data : List Char) (_hdata : Hex.isHex data = true)
    (hfunction : ∀ fr ∈ contractABI, fr.type = "function" →
      (ContractFunction.new newFunctionCoder fr none).code ≠ Js.sliceTo data 10)
    (hctor : ∀ fr ∈ contractABI, fr.type = "constructor" →
      Js.startsWith data (ContractFunction.new newFunctionCoder fr code).code = false)
    (log : Log) (_htopics : ∀ topic ∈ log.topics, Hex.isHex topic = true)
    (hevent : ∀ fr ∈ contractABI, fr.type = "event" →
      (ContractEvent.new newEventCoder fr).code ≠ log.topics.head?.getD "undefined".toList) :
    ∃ abi, contract.abi = some abi ∧
      abi.decodeData data = .ok none ∧ abi.decodeLog log = .ok none := by
  unfold Contract.new at hnew
  simp only at hnew
  cases habi : ABI.new
      (Contract.members newFunctionCoder newEventCoder contractABI address code) with
  | error e => simp [habi] at hnew
  | ok abi =>
    simp only [habi, Except.ok.injEq] at hnew
    subst hnew
    refine ⟨abi, ?_, ?_⟩
    · simp [Contract.abi, JsObject.get_set]
    have hQ := members_inv newFunctionCoder newEventCoder code
      (fun inst => match inst with
        | .function f => f.code ≠ Js.sliceTo data 10
        | .ctor c => Js.startsWith data c.code = false
        | .event e => e.code ≠ log.topics.head?.getD "undefined".toList
        | _ => True)
      contractABI
      (fun fr hfr => ⟨hctor fr hfr, hfunction fr hfr, hevent fr hfr⟩)
      [("address", .address address)]
      (by
        intro key inst hmem
        simp only [List.mem_singleton, Prod.mk.injEq] at hmem
        rw [hmem.2]
        trivial)
    obtain ⟨s1, s2, s3⟩ := addAll_sound _ _ _ habi
    have hnofun : abi._codeToFunction.get (Js.sliceTo data 10) = none := by
      cases hget : abi._codeToFunction.get (Js.sliceTo data 10) with
      | none => rfl
      | some g =>
        rcases s1 _ g hget with h | ⟨hcode, key, hmem⟩
        · simp [JsObject.get] at h
        · exact absurd hcode (hQ key _ hmem)
    have hnoevent : abi._codeToEvent.get (log.topics.head?.getD "undefined".toList) = none := by
      cases hget : abi._codeToEvent.get (log.topics.head?.getD "undefined".toList) with
      | none => rfl
      | some e =>
        rcases s2 _ e hget with h | ⟨hcode, key, hmem⟩
        · simp [JsObject.get] at h
        · exact absurd hcode (hQ key _ hmem)
    constructor
    · unfold ABI.decodeData
      rw [hnofun]
      cases hc : abi._constructorFunction with
      | none => rfl
      | some c =>
        rcases s3 c hc with h | ⟨key, hmem⟩
        · simp at h
        · have hstart : Js.startsWith data c.code = false := hQ key _ hmem
          simp only [hstart, Bool.false_eq_true, if_false]
    · unfold ABI.decodeLog
      rw [hnoevent]

/-- In a contract with the functions `inc(uint256)` and `count()` and the event
`Changed(uint256)`, call data with the selector `0x22222222` and a log with the
topic `0x22` are decoded to `undefined`. -/
theorem decode_unknown_witness :
    ∃ abi : ABI (List Char),
      abi.decodeData "0x222222222a".toList = .ok none ∧
      abi.decodeLog { topics := ["0x22".toList], data := "0x2a".toList } = .ok none := by
  obtain ⟨abi, _, h1, h2⟩ :=
    decode_unknown Example.functionCoder Example.eventCoder
      [Example.inc, Example.count, Example.changed] (some "0xc3ed".toList) none _ rfl
      "0x222222222a".toList (by decide) (by decide) (by decide)
      { topics := ["0x22".toList], data := "0x2a".toList } (by decide) (by decide)
  exact ⟨abi, h1, h2⟩

/-- C24, counterexample: a payload that does not begin with the selector
`0x11111111` of `inc(uint256)`, and a log whose topic 0 is not the signature
of `Changed(uint256)`: both `params` return `undefined`, neither fails. -/
theorem params_mismatch_returns_undefined :
    Js.startsWith "0x222222222a".toList
        (ContractFunction.new Example.functionCoder Example.inc none).code = false ∧
      (ContractFunction.new Example.functionCoder Example.inc none).params "0x222222222a".toList
        = .ok none ∧
      some (ContractEvent.new Example.eventCoder Example.changed).code
        ≠ (Log.mk ["0x22".toList] "0x2a".toList).topics.head? ∧
      (ContractEvent.new Example.eventCoder Example.changed).params
          { topics := ["0x22".toList], data := "0x2a".toList }
        = .ok none := by
  refine ⟨by decide, rfl, by decide, rfl⟩

/-- C24, amended: decoding a payload against a fragment whose selector it does
not carry gives `undefined`, not an error. For every function `f` and payload
that does not begin with the code of `f`, `f.params(payload)` returns
`undefined`; for every event `e` and log whose topic 0 is not the code of `e`,
`e.params(log)` returns `undefined`; in both cases the coder is not asked. -/
theorem params_mismatch_undefined {α : Type} (f : ContractFunction α) (hex : List Char)
    (hf : Js.startsWith hex f.code = false)
    (e : ContractEvent α) (log : Log) (he : some e.code ≠ log.topics.head?) :
    f.params hex = .ok none ∧ e.params log = .ok none := by
  constructor
  · unfold ContractFunction.params
    simp only [hf, Bool.not_false, if_true]
  · unfold ContractEvent.params
    rw [if_pos he]

theorem params_mismatch_undefined_witness :
    (ContractFunction.new Example.functionCoder Example.inc none).params "0x222222222a".toList
        = .ok none ∧
      (ContractEvent.new Example.eventCoder Example.changed).params
          { topics := ["0x22".toList], data := "0x2a".toList }
        = .ok none :=
  params_mismatch_undefined (ContractFunction.new Example.functionCoder Example.inc none)
    "0x222222222a".toList (by decide)
    (ContractEvent.new Example.eventCoder Example.changed)
    { topics := ["0x22".toList], data := "0x2a".toList } (by decide)

theorem JsObject.get_eq_none {κ ν : Type} [DecidableEq κ] (obj : JsObject κ ν) (k : κ)
    (h : k ∉ obj.map Prod.fst) : obj.get k = none := by
  induction obj with
  | nil => rfl
  | cons p rest ih =>
    obtain ⟨k0, v0⟩ := p
    simp only [List.map_cons, List.mem_cons, not_or] at h
    simp only [JsObject.get]
    rw [if_neg (fun e => h.1 e.symm)]
    exact ih h.2

/-- A property that the spread object does not have is left as it was. -/
theorem JsObject.get_spread_of_none {κ ν : Type} [DecidableEq κ] (source : JsObject κ ν) :
    ∀ (target : JsObject κ ν) (k : κ), source.get k = none →
      (JsObject.spread target source).get k = target.get k := by
  induction source with
  | nil =>
    intro target k _
    rfl
  | cons p rest ih =>
    intro target k h
    obtain ⟨k0, v0⟩ := p
    simp only [JsObject.get] at h
    by_cases hk : k0 = k
    · rw [if_pos hk] at h
      cases h
    · rw [if_neg hk] at h
      unfold JsObject.spread
      simp only [List.foldl_cons]
      have := ih (JsObject.set target k0 v0) k h
      unfold JsObject.spread at this
      rw [this, JsObject.get_set, if_neg hk]

/-- A property that the spread object has takes its value. -/
theorem JsObject.get_spread_of_some {κ ν : Type} [DecidableEq κ] (source : JsObject κ ν) :
    ∀ (target : JsObject κ ν) (k : κ) (v : ν), (source.map Prod.fst).Nodup →
      source.get k = some v → (JsObject.spread target source).get k = some v := by
  induction source with
  | nil =>
    intro target k v _ h
    cases h
  | cons p rest ih =>
    intro target k v hnodup h
    obtain ⟨k0, v0⟩ := p
    simp only [List.map_cons, List.nodup_cons] at hnodup
    simp only [JsObject.get] at h
    unfold JsObject.spread
    simp only [List.foldl_cons]
    by_cases hk : k0 = k
    · rw [if_pos hk, Option.some.injEq] at h
      subst h
      subst hk
      have := JsObject.get_spread_of_none rest (JsObject.set target k0 v0) k0
        (JsObject.get_eq_none rest k0 hnodup.1)
      unfold JsObject.spread at this
      rw [this, JsObject.get_set, if_pos rfl]
    · rw [if_neg hk] at h
      have := ih (JsObject.set target k0 v0) k v hnodup.2 h
      unfold JsObject.spread at this
      exact this

/-- C25: the request that `sendTransaction`, `estimateGas` and `call` of a
method call object hand to the client is `{ to, data, ...options }` for each
of them. The option fields other than `to` and `data` are passed through
unchanged and nothing else is added. But `to` and `data` are the address of
the contract and the encoded method call only when the options have no field
of that name: a field `to` or `data` of the options overwrites the value of
the contract, whereas the docstrings of the three methods say that
`contract.address` is set as `to` and the encoded call as `data`. -/
theorem called_request_fields {ν : Type} (c : Called ν) (options : Option (JsObject String ν))
    (epochNumber : Option ν)
    (hkeys : ((options.getD []).map Prod.fst).Nodup) :
    c.sendTransaction options = .sendTransaction (c.request options) ∧
    c.estimateGas options = .estimateGas (c.request options) ∧
    c.call options epochNumber = .call (c.request options) epochNumber ∧
    (c.request options).get "to" = some (((options.getD []).get "to").getD c.to_) ∧
    (c.request options).get "data" = some (((options.getD []).get "data").getD c.data) ∧
    ∀ key, key ≠ "to" → key ≠ "data" →
      (c.request options).get key = (options.getD []).get key := by
  have hsome := JsObject.get_spread_of_some (options.getD [])
    [("to", c.to_), ("data", c.data)]
  have hnone := JsObject.get_spread_of_none (options.getD [])
    [("to", c.to_), ("data", c.data)]
  refine ⟨rfl, rfl, rfl, ?_, ?_, ?_⟩
  · unfold Called.request
    cases h : (options.getD []).get "to" with
    | none =>
      rw [hnone "to" h]
      rfl
    | some v => rw [hsome "to" v hkeys h, Option.getD_some]
  · unfold Called.request
    cases h : (options.getD []).get "data" with
    | none =>
      rw [hnone "data" h]
      rfl
    | some v => rw [hsome "data" v hkeys h, Option.getD_some]
  · intro key h1 h2
    unfold Called.request
    cases h : (options.getD []).get key with
    | none =>
      rw [hnone key h]
      simp only [JsObject.get]
      rw [if_neg (fun e => h1 e.symm), if_neg (fun e => h2 e.symm)]
    | some v => rw [hsome key v hkeys h]

/-- The caller passes the options `{ to: '0xee', gas: '0x5208' }` to a method
call of the contract at `0xc0`: each of the three requests has the `to` of the
options, not the address of the contract; `data` is the encoded call and `gas`
is passed through. -/
theorem called_request_fields_witness :
    (Example.called.sendTransaction (some [("to", "0xee"), ("gas", "0x5208")])).options.get "to"
        = some "0xee" ∧
      (Example.called.estimateGas (some [("to", "0xee"), ("gas", "0x5208")])).options.get "to"
        = some "0xee" ∧
      (Example.called.call (some [("to", "0xee"), ("gas", "0x5208")]) none).options.get "to"
        = some "0xee" ∧
      Example.called.to_ ≠ "0xee" ∧
      (Example.called.request (some [("to", "0xee"), ("gas", "0x5208")])).get "data"
        = some "0xd0" ∧
      (Example.called.request (some [("to", "0xee"), ("gas", "0x5208")])).get "gas"
        = some "0x5208" := by
  obtain ⟨h1, h2, h3, hto, hdata, hrest⟩ :=
    called_request_fields Example.called (some [("to", "0xee"), ("gas", "0x5208")])
      none (by decide)
  refine ⟨?_, ?_, ?_, by decide, hdata, hrest "gas" (by decide) (by decide)⟩
  · rw [h1]
    exact hto
  · rw [h2]
    exact hto
  · rw [h3]
    exact hto

end ContractJs

namespace Poll

/-- C29: what a poll step of `mined` does with each value that "get
transaction by hash" can return. A record yields itself when its `blockHash`
is set and "keep polling" when it is not; but on `null` (the node does not
know the transaction yet) the step throws the `TypeError` of reading
`blockHash` of `null`, and `mined`, called with a positive time-out, rejects
with it after this one request instead of polling again. -/
theorem minedStep_null_throws (pt : PendingTransaction) (txHash : List Char) (w : World)
    (hhash : pt.txHash = .ok txHash) :
    (∀ tx, (pt.cfx.getTransactionByHash w.txRequests txHash).result = .ok (some tx) →
      (pt.minedStep w).1 = .ok (if truthy tx.blockHash then some tx else Option.none)) ∧
    ((pt.cfx.getTransactionByHash w.txRequests txHash).result = .ok Option.none →
      (pt.minedStep w).1 = .error (.typeError "Cannot read property 'blockHash' of null") ∧
      ∀ (fuel : Nat) (options : Options), 0 < options.timeout.getD (60 * 1000) →
        ∃ w', pt.mined (fuel + 1) options w
          = some (.error (.typeError "Cannot read property 'blockHash' of null"), w') ∧
          w'.txRequests = w.txRequests + 1) := by
  have hget : pt.get Option.none w
      = ((pt.cfx.getTransactionByHash w.txRequests txHash).result,
          { w with
            now := w.now + (pt.cfx.getTransactionByHash w.txRequests txHash).took,
            txRequests := w.txRequests + 1 }) := by
    unfold PendingTransaction.get sleep
    simp only [hhash, Option.getD_none, Nat.add_zero]
  constructor
  · intro tx htx
    unfold PendingTransaction.minedStep
    rw [hget, htx]
    simp only
    split <;> rfl
  · intro hnull
    have hstep : pt.minedStep w
        = (.error (.typeError "Cannot read property 'blockHash' of null"),
            { w with
              now := w.now + (pt.cfx.getTransactionByHash w.txRequests txHash).took,
              txRequests := w.txRequests + 1 }) := by
      unfold PendingTransaction.minedStep
      rw [hget, hnull]
    refine ⟨by rw [hstep], ?_⟩
    intro fuel options htimeout
    refine ⟨{ w with
        now := w.now + (pt.cfx.getTransactionByHash w.txRequests txHash).took,
        txRequests := w.txRequests + 1 }, ?_, rfl⟩
    unfold PendingTransaction.mined loop loopFrom
    rw [if_pos (by omega)]
    simp only [hstep]

/-- The node answers the first request with `null`: `mined` rejects with the
`TypeError`, although the transaction is mined at the next request. -/
theorem minedStep_null_throws_witness :
    (Example.unknownHandle.minedStep Example.world).1
        = .error (.typeError "Cannot read property 'blockHash' of null") ∧
      ∃ w', Example.unknownHandle.mined 5 Options.none Example.world
        = some (.error (.typeError "Cannot read property 'blockHash' of null"), w') ∧
        w'.txRequests = Example.world.txRequests + 1 :=
  ⟨((minedStep_null_throws Example.unknownHandle "0xabc".toList Example.world rfl).2 rfl).1,
    ((minedStep_null_throws Example.unknownHandle "0xabc".toList Example.world rfl).2 rfl).2
      4 Options.none (by decide)⟩

end Poll

namespace Method

open ContractJs (JsError)

/-- Every event of the nonce step is a request for the transaction count, and
a failure of that request is the result of the step. -/
theorem fillNonce_trace (m : Module) (tx : TxObject) (events : List Event)
    (r : Except JsError TxObject)
    (h : CfxSendTransactionMethod.fillNonce m tx = (events, r)) :
    ∀ ev ∈ events, ∃ address epoch, ev = .request (.getTransactionCount address epoch) ∧
      ∀ e, m.send (.getTransactionCount address epoch) = .error e → r = .error e := by
  unfold CfxSendTransactionMethod.fillNonce at h
  split at h
  · cases hs : m.send (.getTransactionCount (tx.field "from") "latest_state") with
    | error e0 =>
      simp only [hs, Prod.mk.injEq] at h
      obtain ⟨h1, h2⟩ := h
      subst h1 h2
      intro ev hev
      simp only [List.mem_singleton] at hev
      subst hev
      exact ⟨_, _, rfl, fun e he => by rw [hs] at he; cases he; rfl⟩
    | ok nonce =>
      simp only [hs, Prod.mk.injEq] at h
      obtain ⟨h1, h2⟩ := h
      subst h1 h2
      intro ev hev
      simp only [List.mem_singleton] at hev
      subst hev
      exact ⟨_, _, rfl, fun e he => by rw [hs] at he; cases he⟩
  · simp only [Prod.mk.injEq] at h
    obtain ⟨h1, _⟩ := h
    subst h1
    intro ev hev
    cases hev

/-- Every event of the epoch height step is the request `cfx_epochNumber`, and
a failure of that request is the result of the step. -/
theorem fillEpochHeight_trace (m : Module) (tx : TxObject) (events : List Event)
    (r : Except JsError TxObject)
    (h : CfxSendTransactionMethod.fillEpochHeight m tx = (events, r)) :
    ∀ ev ∈ events, ev = .request .epochNumber ∧
      ∀ e, m.send .epochNumber = .error e → r = .error e := by
  unfold CfxSendTransactionMethod.fillEpochHeight at h
  split at h
  · cases hs : m.send .epochNumber with
    | error e0 =>
      simp only [hs, Prod.mk.injEq] at h
      obtain ⟨h1, h2⟩ := h
      subst h1 h2
      intro ev hev
      simp only [List.mem_singleton] at hev
      subst hev
      exact ⟨rfl, fun e he => by cases he; rfl⟩
    | ok epochNumber =>
      simp only [hs, Prod.mk.injEq] at h
      obtain ⟨h1, h2⟩ := h
      subst h1 h2
      intro ev hev
      simp only [List.mem_singleton] at hev
      subst hev
      exact ⟨rfl, fun e he => by cases he⟩
  · simp only [Prod.mk.injEq] at h
    obtain ⟨h1, _⟩ := h
    subst h1
    intro ev hev
    cases hev

/-- The trace of `sendRawTransaction`: the signer is called with the key given
(`null` when none was), the requests are neither `cfx_gasPrice` nor the
sending of an unsigned transaction, and a request or a signing that fails is
how the method ends. -/
theorem sendRawTransaction_trace (m : Module) (format : TxObject → Except JsError TxObject)
    (rpcMethod : String) (tx : TxObject) (privateKey : Value) :
    (∀ t key,
      Event.sign t key
          ∈ (CfxSendTransactionMethod.sendRawTransaction m format rpcMethod tx privateKey).1 →
        key = (if privateKey = .undefined then Value.null else privateKey) ∧
        ∀ e, m.sign t key = .error e →
          (CfxSendTransactionMethod.sendRawTransaction m format rpcMethod tx privateKey).2
            = .threw e) ∧
    (∀ rpc,
      Event.request rpc
          ∈ (CfxSendTransactionMethod.sendRawTransaction m format rpcMethod tx privateKey).1 →
        rpc ≠ .gasPrice ∧ (∀ r t, rpc ≠ .sendTransaction r t) ∧
        ∀ e, m.send rpc = .error e →
          (CfxSendTransactionMethod.sendRawTransaction m format rpcMethod tx privateKey).2
              = .threw e ∨
            (CfxSendTransactionMethod.sendRawTransaction m format rpcMethod tx privateKey).2
              = .sent (.error e)) := by
  unfold CfxSendTransactionMethod.sendRawTransaction
  simp only
  cases h0 : CfxSendTransactionMethod.beforeExecution format rpcMethod tx with
  | error e0 => simp
  | ok tx0 =>
    simp only
    cases h1 : CfxSendTransactionMethod.fillNonce m tx0 with
    | mk events r1 =>
      have hn := fillNonce_trace m tx0 events r1 h1
      cases r1 with
      | error e1 =>
        simp only
        constructor
        · intro t key hmem
          obtain ⟨_, _, hev, _⟩ := hn _ hmem
          cases hev
        · intro rpc hmem
          obtain ⟨a, ep, hev, hfail⟩ := hn _ hmem
          simp only [Event.request.injEq] at hev
          subst hev
          refine ⟨by simp, by simp, fun e he => Or.inl ?_⟩
          have := hfail e he
          simp only [Except.error.injEq] at this
          rw [this]
      | ok tx1 =>
        simp only
        cases h2 : CfxSendTransactionMethod.fillEpochHeight m
            (CfxSendTransactionMethod.fillDefaults tx1) with
        | mk events' r2 =>
          have hh := fillEpochHeight_trace m _ events' r2 h2
          cases r2 with
          | error e2 =>
            simp only
            constructor
            · intro t key hmem
              rcases List.mem_append.mp hmem with hmem | hmem
              · obtain ⟨_, _, hev, _⟩ := hn _ hmem
                cases hev
              · cases (hh _ hmem).1
            · intro rpc hmem
              rcases List.mem_append.mp hmem with hmem | hmem
              · obtain ⟨a, ep, hev, hfail⟩ := hn _ hmem
                simp only [Event.request.injEq] at hev
                subst hev
                refine ⟨by simp, by simp, fun e he => ?_⟩
                cases hfail e he
              · obtain ⟨hev, hfail⟩ := hh _ hmem
                simp only [Event.request.injEq] at hev
                subst hev
                refine ⟨by simp, by simp, fun e he => Or.inl ?_⟩
                have := hfail e he
                simp only [Except.error.injEq] at this
                rw [this]
          | ok tx2 =>
            simp only
            cases h3 : m.sign (CfxSendTransactionMethod.finish tx2)
                (if privateKey = .undefined then Value.null else privateKey) with
            | error e3 =>
              simp only
              constructor
              · intro t key hmem
                rcases List.mem_append.mp hmem with hmem | hmem
                · rcases List.mem_append.mp hmem with hmem | hmem
                  · obtain ⟨_, _, hev, _⟩ := hn _ hmem
                    cases hev
                  · cases (hh _ hmem).1
                · simp only [List.mem_singleton, Event.sign.injEq] at hmem
                  obtain ⟨ht, hk⟩ := hmem
                  subst ht hk
                  refine ⟨rfl, fun e he => ?_⟩
                  rw [h3] at he
                  simp only [Except.error.injEq] at he
                  rw [he]
              · intro rpc hmem
                rcases List.mem_append.mp hmem with hmem | hmem
                · rcases List.mem_append.mp hmem with hmem | hmem
                  · obtain ⟨a, ep, hev, hfail⟩ := hn _ hmem
                    simp only [Event.request.injEq] at hev
                    subst hev
                    refine ⟨by simp, by simp, fun e he => ?_⟩
                    cases hfail e he
                  · obtain ⟨hev, hfail⟩ := hh _ hmem
                    simp only [Event.request.injEq] at hev
                    subst hev
                    refine ⟨by simp, by simp, fun e he => ?_⟩
                    cases hfail e he
                · simp only [List.mem_singleton, reduceCtorEq] at hmem
            | ok response =>
              simp only
              constructor
              · intro t key hmem
                rcases List.mem_append.mp hmem with hmem | hmem
                · rcases List.mem_append.mp hmem with hmem | hmem
                  · obtain ⟨_, _, hev, _⟩ := hn _ hmem
                    cases hev
                  · cases (hh _ hmem).1
                · simp only [List.mem_cons, Event.sign.injEq, reduceCtorEq,
                    List.not_mem_nil, or_false] at hmem
                  obtain ⟨ht, hk⟩ := hmem
                  subst ht hk
                  refine ⟨rfl, fun e he => ?_⟩
                  rw [h3] at he
                  cases he
              · intro rpc hmem
                rcases List.mem_append.mp hmem with hmem | hmem
                · rcases List.mem_append.mp hmem with hmem | hmem
                  · obtain ⟨a, ep, hev, hfail⟩ := hn _ hmem
                    simp only [Event.request.injEq] at hev
                    subst hev
                    refine ⟨by simp, by simp, fun e he => ?_⟩
                    cases hfail e he
                  · obtain ⟨hev, hfail⟩ := hh _ hmem
                    simp only [Event.request.injEq] at hev
                    subst hev
                    refine ⟨by simp, by simp, fun e he => ?_⟩
                    cases hfail e he
                · simp only [List.mem_cons, reduceCtorEq, Event.request.injEq,
                    List.not_mem_nil, or_false, false_or] at hmem
                  subst hmem
                  refine ⟨by simp, by simp, fun e he => Or.inr ?_⟩
                  rw [he]

theorem handleError_cases (method : MethodState) (e : JsError) :
    (AbstractObservedTransactionMethod.handleError method e = .emitted e ∧
        0 < method.errorListeners) ∨
      (AbstractObservedTransactionMethod.handleError method e = .rejected e ∧
        method.errorListeners = 0) := by
  unfold AbstractObservedTransactionMethod.handleError
  by_cases h : method.errorListeners > 0
  · rw [if_pos h]
    exact Or.inl ⟨rfl, h⟩
  · rw [if_neg h]
    exact Or.inr ⟨rfl, by omega⟩

theorem settle_error_cases (method : MethodState) (e : JsError) :
    (AbstractObservedTransactionMethod.settle method (.error e) = .callbackError e ∧
        method.hasCallback = true) ∨
      (AbstractObservedTransactionMethod.settle method (.error e) = .emitted e ∧
        0 < method.errorListeners) ∨
      (AbstractObservedTransactionMethod.settle method (.error e) = .rejected e ∧
        method.errorListeners = 0) := by
  unfold AbstractObservedTransactionMethod.settle
  cases hc : method.hasCallback with
  | true => exact Or.inl ⟨by simp, rfl⟩
  | false =>
    simp only [Bool.false_eq_true, if_false]
    exact Or.inr (handleError_cases method e)

theorem handleError_ne_thrown (method : MethodState) (e e' : JsError) :
    AbstractObservedTransactionMethod.handleError method e ≠ .thrown e' := by
  unfold AbstractObservedTransactionMethod.handleError
  split <;> simp

theorem settle_ne_thrown (method : MethodState) (reply : Except JsError Value) (e' : JsError) :
    AbstractObservedTransactionMethod.settle method reply ≠ .thrown e' := by
  unfold AbstractObservedTransactionMethod.settle
  cases reply with
  | error e =>
    simp only
    split
    · simp
    · exact handleError_ne_thrown method e e'
  | ok transactionHash =>
    simp only
    split <;> simp

/-- The requests and the call of the signer of `signAndSend` are those of
`sendRawTransaction`. -/
theorem signAndSend_fst (m : Module) (format : TxObject → Except JsError TxObject)
    (method : MethodState) (tx : TxObject) (privateKey : Value) :
    (CfxSendTransactionMethod.signAndSend m format method tx privateKey).1
      = (CfxSendTransactionMethod.sendRawTransaction m format method.rpcMethod tx
          privateKey).1 := by
  unfold CfxSendTransactionMethod.signAndSend
  cases hr : CfxSendTransactionMethod.sendRawTransaction m format method.rpcMethod tx
      privateKey with
  | mk events o =>
    cases o <;> rfl

/-- How `signAndSend` ends, by how `sendRawTransaction` ends. -/
theorem signAndSend_snd (m : Module) (format : TxObject → Except JsError TxObject)
    (method : MethodState) (tx : TxObject) (privateKey : Value) :
    (∀ e, (CfxSendTransactionMethod.sendRawTransaction m format method.rpcMethod tx
          privateKey).2 = .threw e →
      (CfxSendTransactionMethod.signAndSend m format method tx privateKey).2
        = AbstractObservedTransactionMethod.handleError method e) ∧
    (∀ reply, (CfxSendTransactionMethod.sendRawTransaction m format method.rpcMethod tx
          privateKey).2 = .sent reply →
      (CfxSendTransactionMethod.signAndSend m format method tx privateKey).2
        = AbstractObservedTransactionMethod.settle method reply) ∧
    (∀ e, (CfxSendTransactionMethod.signAndSend m format method tx privateKey).2
      ≠ .thrown e) := by
  unfold CfxSendTransactionMethod.signAndSend
  cases hr : CfxSendTransactionMethod.sendRawTransaction m format method.rpcMethod tx
      privateKey with
  | mk events o =>
    cases o with
    | threw e0 =>
      refine ⟨fun e he => ?_, fun reply he => ?_, fun e => handleError_ne_thrown method e0 e⟩
      · simp only [SendOutcome.threw.injEq] at he
        rw [he]
      · cases he
    | sent reply0 =>
      refine ⟨fun e he => ?_, fun reply he => ?_, fun e => settle_ne_thrown method reply0 e⟩
      · cases he
      · simp only [SendOutcome.sent.injEq] at he
        rw [he]

/-- An error of a request or of the signer in `signAndSend` reaches the caller
by the callback, by the event `error` or by the rejection of the `PromiEvent`. -/
theorem signAndSend_errors (m : Module) (format : TxObject → Except JsError TxObject)
    (method : MethodState) (tx : TxObject) (privateKey : Value) (e : JsError)
    (hraised :
      (∃ rpc, Event.request rpc
          ∈ (CfxSendTransactionMethod.signAndSend m format method tx privateKey).1 ∧
        m.send rpc = .error e) ∨
      (∃ t key, Event.sign t key
          ∈ (CfxSendTransactionMethod.signAndSend m format method tx privateKey).1 ∧
        m.sign t key = .error e)) :
    ((CfxSendTransactionMethod.signAndSend m format method tx privateKey).2 = .callbackError e ∧
        method.hasCallback = true) ∨
      ((CfxSendTransactionMethod.signAndSend m format method tx privateKey).2 = .emitted e ∧
        0 < method.errorListeners) ∨
      ((CfxSendTransactionMethod.signAndSend m format method tx privateKey).2 = .rejected e ∧
        method.errorListeners = 0) := by
  obtain ⟨hsign, hreq⟩ := sendRawTransaction_trace m format method.rpcMethod tx privateKey
  obtain ⟨hthrew, hsent, _⟩ := signAndSend_snd m format method tx privateKey
  rw [signAndSend_fst] at hraised
  have hthrown : ∀ e,
      (CfxSendTransactionMethod.sendRawTransaction m format method.rpcMethod tx
        privateKey).2 = .threw e →
      ((CfxSendTransactionMethod.signAndSend m format method tx privateKey).2
          = .callbackError e ∧ method.hasCallback = true) ∨
        ((CfxSendTransactionMethod.signAndSend m format method tx privateKey).2
          = .emitted e ∧ 0 < method.errorListeners) ∨
        ((CfxSendTransactionMethod.signAndSend m format method tx privateKey).2
          = .rejected e ∧ method.errorListeners = 0) := by
    intro e he
    rw [hthrew e he]
    exact Or.inr (handleError_cases method e)
  rcases hraised with ⟨rpc, hmem, hfail⟩ | ⟨t, key, hmem, hfail⟩
  · rcases (hreq rpc hmem).2.2 e hfail with h | h
    · exact hthrown e h
    · rw [hsent _ h]
      exact settle_error_cases method e
  · exact hthrown e ((hsign t key hmem).2 e hfail)

theorem fillGas_field (m : Module) (tx : TxObject) (key : String) (h : key ≠ "gas") :
    (CfxSendTransactionMethod.fillGas m tx).field key = tx.field key := by
  unfold CfxSendTransactionMethod.fillGas
  split
  · rw [TxObject.field_assign, if_neg (fun e => h e.symm)]
  · rfl

theorem fillGas_of_filled (m : Module) (t : TxObject)
    (h : m.defaultGas.truthy = true → (t.field "gas").truthy = true) :
    CfxSendTransactionMethod.fillGas m t = t := by
  unfold CfxSendTransactionMethod.fillGas
  split
  · rename_i hc
    rw [h hc.2] at hc
    exact absurd hc.1 (by decide)
  · rfl

/-- The first statement of `execute` changes nothing when it is run again
after the gas price was set. -/
theorem fillGas_assign_gasPrice (m : Module) (tx : TxObject) (gasPrice : Value) :
    CfxSendTransactionMethod.fillGas m
        ((CfxSendTransactionMethod.fillGas m tx).assign "gasPrice" gasPrice)
      = (CfxSendTransactionMethod.fillGas m tx).assign "gasPrice" gasPrice := by
  apply fillGas_of_filled
  intro hd
  rw [TxObject.field_assign, if_neg (by decide)]
  unfold CfxSendTransactionMethod.fillGas
  by_cases hc : (!(tx.field "gas").truthy) = true ∧ m.defaultGas.truthy = true
  · rw [if_pos hc, TxObject.field_assign, if_pos rfl]
    exact hd
  · rw [if_neg hc]
    cases hg : (tx.field "gas").truthy with
    | true => rfl
    | false => exact absurd ⟨by rw [hg]; rfl, hd⟩ hc

/-- With the default signer, accounts in the wallet and an entry for `from`,
`execute` signs with the private key of that entry. -/
theorem selectSigner_wallet (m : Module) (format : TxObject → Except JsError TxObject)
    (method : MethodState) (tx : TxObject) (wallet : Wallet) (account : Account)
    (hs : m.signerType = .string "TransactionSigner") (hw : m.accounts = some wallet)
    (hi : 0 < wallet.accountsIndex) (hget : wallet.get (tx.field "from") = some account) :
    CfxSendTransactionMethod.selectSigner m format method tx
      = CfxSendTransactionMethod.signAndSend m format method tx (.string account.privateKey) := by
  unfold CfxSendTransactionMethod.selectSigner CfxSendTransactionMethod.hasAccounts
    CfxSendTransactionMethod.isDefaultSigner
  simp only [hw, hs, hget, decide_True, and_self, if_true, gt_iff_lt, hi]

/-- With a custom signer, `execute` signs with the key `undefined`, which
`sendRawTransaction` takes as `null`. -/
theorem selectSigner_custom (m : Module) (format : TxObject → Except JsError TxObject)
    (method : MethodState) (tx : TxObject)
    (hs : m.signerType ≠ .string "TransactionSigner") :
    CfxSendTransactionMethod.selectSigner m format method tx
      = CfxSendTransactionMethod.signAndSend m format method tx .undefined := by
  unfold CfxSendTransactionMethod.selectSigner CfxSendTransactionMethod.isDefaultSigner
    CfxSendTransactionMethod.hasCustomSigner
  simp only [hs, decide_False, Bool.false_eq_true, and_false, if_false, ne_eq,
    not_false_eq_true, decide_True, if_true]

/-- With the default signer and no wallet entry to sign with, `execute` runs
`super.execute()`. -/
theorem selectSigner_remote (m : Module) (format : TxObject → Except JsError TxObject)
    (method : MethodState) (tx : TxObject)
    (hs : m.signerType = .string "TransactionSigner")
    (hno : ∀ wallet, m.accounts = some wallet →
      wallet.accountsIndex = 0 ∨ wallet.get (tx.field "from") = none) :
    CfxSendTransactionMethod.selectSigner m format method tx
      = AbstractObservedTransactionMethod.execute m format method tx := by
  unfold CfxSendTransactionMethod.selectSigner CfxSendTransactionMethod.hasAccounts
    CfxSendTransactionMethod.isDefaultSigner CfxSendTransactionMethod.hasCustomSigner
  cases hw : m.accounts with
  | none => simp [hs]
  | some wallet =>
    rcases hno wallet hw with h0 | hnone
    · simp [hs, h0]
    · simp [hs, hnone]

theorem selectSigner_cases (m : Module) (format : TxObject → Except JsError TxObject)
    (method : MethodState) (tx : TxObject) :
    (∃ key, CfxSendTransactionMethod.selectSigner m format method tx
        = CfxSendTransactionMethod.signAndSend m format method tx key) ∨
      CfxSendTransactionMethod.selectSigner m format method tx
        = AbstractObservedTransactionMethod.execute m format method tx := by
  unfold CfxSendTransactionMethod.selectSigner
  simp only
  split
  · exact Or.inl ⟨_, rfl⟩
  · split
    · exact Or.inl ⟨_, rfl⟩
    · exact Or.inr rfl

/-- The trace of `super.execute()` for a method whose parameter is still the
transaction: at most the one request, which sends the formatted transaction. -/
theorem observed_execute_trace (m : Module) (format : TxObject → Except JsError TxObject)
    (method : MethodState) (tx : TxObject) :
    (∀ e, CfxSendTransactionMethod.beforeExecution format method.rpcMethod tx = .error e →
      AbstractObservedTransactionMethod.execute m format method tx = ([], .thrown e)) ∧
    (∀ ftx, CfxSendTransactionMethod.beforeExecution format method.rpcMethod tx = .ok ftx →
      AbstractObservedTransactionMethod.execute m format method tx
        = ([.request (.sendTransaction method.rpcMethod ftx)],
            AbstractObservedTransactionMethod.settle method
              (m.send (.sendTransaction method.rpcMethod ftx)))) := by
  unfold AbstractObservedTransactionMethod.execute
  constructor
  · intro e he
    rw [he]
  · intro ftx he
    rw [he]

/-- What holds of every run of the part of `execute` behind the gas price: an
error of a request or of the signer reaches the caller in one of the three
ways, `cfx_gasPrice` is not asked, and an error thrown by `execute` itself
comes before any request. -/
theorem selectSigner_trace (m : Module) (format : TxObject → Except JsError TxObject)
    (method : MethodState) (tx : TxObject) :
    (∀ e,
      ((∃ rpc, Event.request rpc
            ∈ (CfxSendTransactionMethod.selectSigner m format method tx).1 ∧
          m.send rpc = .error e) ∨
        (∃ t key, Event.sign t key
            ∈ (CfxSendTransactionMethod.selectSigner m format method tx).1 ∧
          m.sign t key = .error e)) →
      ((CfxSendTransactionMethod.selectSigner m format method tx).2 = .callbackError e ∧
          method.hasCallback = true) ∨
        ((CfxSendTransactionMethod.selectSigner m format method tx).2 = .emitted e ∧
          0 < method.errorListeners) ∨
        ((CfxSendTransactionMethod.selectSigner m format method tx).2 = .rejected e ∧
          method.errorListeners = 0)) ∧
    Event.request .gasPrice ∉ (CfxSendTransactionMethod.selectSigner m format method tx).1 ∧
    (∀ e, (CfxSendTransactionMethod.selectSigner m format method tx).2 = .thrown e →
      (CfxSendTransactionMethod.selectSigner m format method tx).1 = []) := by
  rcases selectSigner_cases m format method tx with ⟨key, hk⟩ | hk
  · rw [hk]
    refine ⟨fun e hraised => signAndSend_errors m format method tx key e hraised, ?_, ?_⟩
    · intro hmem
      rw [signAndSend_fst] at hmem
      exact ((sendRawTransaction_trace m format method.rpcMethod tx key).2 _ hmem).1 rfl
    · intro e he
      exact absurd he ((signAndSend_snd m format method tx key).2.2 e)
  · rw [hk]
    obtain ⟨herr, hok⟩ := observed_execute_trace m format method tx
    cases hb : CfxSendTransactionMethod.beforeExecution format method.rpcMethod tx with
    | error e0 =>
      rw [herr e0 hb]
      refine ⟨?_, by simp, fun _ _ => rfl⟩
      rintro e (⟨rpc, hmem, _⟩ | ⟨t, key, hmem, _⟩) <;> cases hmem
    | ok ftx =>
      rw [hok ftx hb]
      refine ⟨?_, by simp, ?_⟩
      · rintro e (⟨rpc, hmem, hfail⟩ | ⟨t, key, hmem, _⟩)
        · simp only [List.mem_singleton, Event.request.injEq] at hmem
          subst hmem
          simp only
          rw [hfail]
          exact settle_error_cases method e
        · simp only [List.mem_singleton, reduceCtorEq] at hmem
      · intro e he
        exact absurd he (settle_ne_thrown method _ e)

/-- A transaction with a gas price, 0 included: `execute` goes on to the
signer selection. -/
theorem execute_priced (m : Module) (format : TxObject → Except JsError TxObject)
    (method : MethodState) (fuel : Nat) (tx : TxObject)
    (h : (tx.field "gasPrice").truthy = true ∨ tx.field "gasPrice" = .number (.int 0)) :
    CfxSendTransactionMethod.execute m format method (fuel + 1) tx
      = some (CfxSendTransactionMethod.selectSigner m format method
          (CfxSendTransactionMethod.fillGas m tx)) := by
  simp only [CfxSendTransactionMethod.execute]
  rw [fillGas_field m tx "gasPrice" (by decide), if_neg]
  rintro ⟨h1, h2⟩
  rcases h with h | h
  · rw [h] at h1
    exact absurd h1 (by decide)
  · exact h2 h

/-- A transaction without gas price in a module with a truthy
`defaultGasPrice`: the default is set. -/
theorem execute_default (m : Module) (format : TxObject → Except JsError TxObject)
    (method : MethodState) (fuel : Nat) (tx : TxObject)
    (h1 : (tx.field "gasPrice").truthy = false) (h2 : tx.field "gasPrice" ≠ .number (.int 0))
    (hd : m.defaultGasPrice.truthy = true) :
    CfxSendTransactionMethod.execute m format method (fuel + 1) tx
      = some (CfxSendTransactionMethod.selectSigner m format method
          ((CfxSendTransactionMethod.fillGas m tx).assign "gasPrice" m.defaultGasPrice)) := by
  simp only [CfxSendTransactionMethod.execute]
  rw [fillGas_field m tx "gasPrice" (by decide), if_pos ⟨by rw [h1]; rfl, h2⟩,
    if_neg (by rw [hd]; decide)]

/-- A transaction without gas price in a module without a truthy
`defaultGasPrice`, when the request `cfx_gasPrice` fails. -/
theorem execute_ask_error (m : Module) (format : TxObject → Except JsError TxObject)
    (method : MethodState) (fuel : Nat) (tx : TxObject)
    (h1 : (tx.field "gasPrice").truthy = false) (h2 : tx.field "gasPrice" ≠ .number (.int 0))
    (hd : m.defaultGasPrice.truthy = false) (e : JsError) (hs : m.send .gasPrice = .error e) :
    CfxSendTransactionMethod.execute m format method (fuel + 1) tx
      = some ([.request .gasPrice], AbstractObservedTransactionMethod.handleError method e) := by
  simp only [CfxSendTransactionMethod.execute]
  rw [fillGas_field m tx "gasPrice" (by decide), if_pos ⟨by rw [h1]; rfl, h2⟩,
    if_pos (by rw [hd]; rfl)]
  simp only [hs]

/-- A transaction without gas price in a module without a truthy
`defaultGasPrice`, when the request `cfx_gasPrice` is answered: `execute` is
run again with the answer as the gas price; its trace follows the request,
and an error it throws is handed to `handleError`. -/
theorem execute_ask_ok (m : Module) (format : TxObject → Except JsError TxObject)
    (method : MethodState) (fuel : Nat) (tx : TxObject)
    (h1 : (tx.field "gasPrice").truthy = false) (h2 : tx.field "gasPrice" ≠ .number (.int 0))
    (hd : m.defaultGasPrice.truthy = false) (gasPrice : Value)
    (hs : m.send .gasPrice = .ok gasPrice) :
    (CfxSendTransactionMethod.execute m format method fuel
        ((CfxSendTransactionMethod.fillGas m tx).assign "gasPrice" gasPrice) = none →
      CfxSendTransactionMethod.execute m format method (fuel + 1) tx = none) ∧
    (∀ events d,
      CfxSendTransactionMethod.execute m format method fuel
        ((CfxSendTransactionMethod.fillGas m tx).assign "gasPrice" gasPrice)
          = some (events, d) →
      (∀ e, d = .thrown e →
        CfxSendTransactionMethod.execute m format method (fuel + 1) tx
          = some (.request .gasPrice :: events,
              AbstractObservedTransactionMethod.handleError method e)) ∧
      ((∀ e, d ≠ .thrown e) →
        CfxSendTransactionMethod.execute m format method (fuel + 1) tx
          = some (.request .gasPrice :: events, d))) := by
  have hunfold : CfxSendTransactionMethod.execute m format method (fuel + 1) tx
      = match CfxSendTransactionMethod.execute m format method fuel
          ((CfxSendTransactionMethod.fillGas m tx).assign "gasPrice" gasPrice) with
        | none => none
        | some (events, .thrown e) =>
          some (.request .gasPrice :: events,
            AbstractObservedTransactionMethod.handleError method e)
        | some (events, delivery) => some (.request .gasPrice :: events, delivery) := by
    simp only [CfxSendTransactionMethod.execute]
    rw [fillGas_field m tx "gasPrice" (by decide), if_pos ⟨by rw [h1]; rfl, h2⟩,
      if_pos (by rw [hd]; rfl)]
    simp only [hs]
  constructor
  · intro hnone
    rw [hunfold, hnone]
  · intro events d hsome
    rw [hunfold, hsome]
    constructor
    · intro e he
      subst he
      rfl
    · intro hne
      cases d with
      | thrown e => exact absurd rfl (hne e)
      | resolved _ => rfl
      | callbackHash _ => rfl
      | callbackError _ => rfl
      | emitted _ => rfl
      | rejected _ => rfl

/-- Every error of a request or of the signer in a run of `execute` reaches
the caller by the callback, by the event `error` or by the rejection of the
`PromiEvent`. -/
theorem execute_errors (m : Module) (format : TxObject → Except JsError TxObject)
    (method : MethodState) (fuel : Nat) :
    ∀ (tx : TxObject) (events : List Event) (d : Delivery),
      CfxSendTransactionMethod.execute m format method fuel tx = some (events, d) →
      ∀ e,
        ((∃ rpc, Event.request rpc ∈ events ∧ m.send rpc = .error e) ∨
          (∃ t key, Event.sign t key ∈ events ∧ m.sign t key = .error e)) →
        (d = .callbackError e ∧ method.hasCallback = true) ∨
          (d = .emitted e ∧ 0 < method.errorListeners) ∨
          (d = .rejected e ∧ method.errorListeners = 0) := by
  induction fuel with
  | zero =>
    intro tx events d h
    simp [CfxSendTransactionMethod.execute] at h
  | succ fuel ih =>
    intro tx events d h e hraised
    by_cases hp : (tx.field "gasPrice").truthy = true ∨ tx.field "gasPrice" = .number (.int 0)
    · rw [execute_priced m format method fuel tx hp] at h
      have hsel := (selectSigner_trace m format method
        (CfxSendTransactionMethod.fillGas m tx)).1 e
      simp only [Option.some.injEq] at h
      rw [h] at hsel
      exact hsel hraised
    · have h1 : (tx.field "gasPrice").truthy = false := by
        cases ht : (tx.field "gasPrice").truthy with
        | true => exact absurd (Or.inl ht) hp
        | false => rfl
      have h2 : tx.field "gasPrice" ≠ .number (.int 0) := fun h0 => hp (Or.inr h0)
      cases hd : m.defaultGasPrice.truthy with
      | true =>
        rw [execute_default m format method fuel tx h1 h2 hd] at h
        have hsel := (selectSigner_trace m format method
          ((CfxSendTransactionMethod.fillGas m tx).assign "gasPrice" m.defaultGasPrice)).1 e
        simp only [Option.some.injEq] at h
        rw [h] at hsel
        exact hsel hraised
      | false =>
        cases hs : m.send .gasPrice with
        | error e0 =>
          rw [execute_ask_error m format method fuel tx h1 h2 hd e0 hs] at h
          simp only [Option.some.injEq, Prod.mk.injEq] at h
          obtain ⟨hev, hdel⟩ := h
          subst hev hdel
          rcases hraised with ⟨rpc, hmem, hfail⟩ | ⟨t, key, hmem, _⟩
          · simp only [List.mem_singleton, Event.request.injEq] at hmem
            subst hmem
            rw [hs] at hfail
            simp only [Except.error.injEq] at hfail
            subst hfail
            exact Or.inr (handleError_cases method e0)
          · simp only [List.mem_singleton, reduceCtorEq] at hmem
        | ok gasPrice =>
          obtain ⟨hnone, hsome⟩ := execute_ask_ok m format method fuel tx h1 h2 hd gasPrice hs
          cases hinner : CfxSendTransactionMethod.execute m format method fuel
              ((CfxSendTransactionMethod.fillGas m tx).assign "gasPrice" gasPrice) with
          | none =>
            rw [hnone hinner] at h
            cases h
          | some r =>
            obtain ⟨events', d'⟩ := r
            obtain ⟨hthrown, hother⟩ := hsome events' d' hinner
            have hraised' : ∀ events0 : List Event, events = .request .gasPrice :: events0 →
                ((∃ rpc, Event.request rpc ∈ events0 ∧ m.send rpc = .error e) ∨
                  (∃ t key, Event.sign t key ∈ events0 ∧ m.sign t key = .error e)) := by
              intro events0 hev
              subst hev
              rcases hraised with ⟨rpc, hmem, hfail⟩ | ⟨t, key, hmem, hfail⟩
              · simp only [List.mem_cons, Event.request.injEq] at hmem
                rcases hmem with hmem | hmem
                · subst hmem
                  rw [hs] at hfail
                  cases hfail
                · exact Or.inl ⟨rpc, hmem, hfail⟩
              · simp only [List.mem_cons, reduceCtorEq, false_or] at hmem
                exact Or.inr ⟨t, key, hmem, hfail⟩
            by_cases hth : ∃ e', d' = .thrown e'
            · obtain ⟨e', he'⟩ := hth
              rw [hthrown e' he'] at h
              simp only [Option.some.injEq, Prod.mk.injEq] at h
              have hr := hraised' events' h.1.symm
              rcases ih _ events' d' hinner e hr with ⟨hc, _⟩ | ⟨hc, _⟩ | ⟨hc, _⟩ <;>
                · rw [he'] at hc
                  cases hc
            · have hne : ∀ e', d' ≠ .thrown e' := fun e' he' => hth ⟨e', he'⟩
              rw [hother hne] at h
              simp only [Option.some.injEq, Prod.mk.injEq] at h
              have hr := hraised' events' h.1.symm
              rw [← h.2]
              exact ih _ events' d' hinner e hr

/-- When the steps before the signing succeed, `sendRawTransaction` calls the
signer, with the key given (`null` when none was). -/
theorem sendRawTransaction_signs (m : Module) (format : TxObject → Except JsError TxObject)
    (rpcMethod : String) (tx : TxObject) (privateKey : Value) (tx0 tx1 tx2 : TxObject)
    (events events' : List Event)
    (h0 : CfxSendTransactionMethod.beforeExecution format rpcMethod tx = .ok tx0)
    (h1 : CfxSendTransactionMethod.fillNonce m tx0 = (events, .ok tx1))
    (h2 : CfxSendTransactionMethod.fillEpochHeight m (CfxSendTransactionMethod.fillDefaults tx1)
      = (events', .ok tx2)) :
    Event.sign (CfxSendTransactionMethod.finish tx2)
        (if privateKey = .undefined then Value.null else privateKey)
      ∈ (CfxSendTransactionMethod.sendRawTransaction m format rpcMethod tx privateKey).1 := by
  unfold CfxSendTransactionMethod.sendRawTransaction
  simp only [h0, h1, h2]
  split <;> simp

/-- A transaction without gas price in a module without a truthy
`defaultGasPrice`, when the node answers `cfx_gasPrice` with a gas price: the
second run of `execute` goes on to the signer selection with that price. -/
theorem execute_asked (m : Module) (format : TxObject → Except JsError TxObject)
    (method : MethodState) (fuel : Nat) (tx : TxObject)
    (h1 : (tx.field "gasPrice").truthy = false) (h2 : tx.field "gasPrice" ≠ .number (.int 0))
    (hd : m.defaultGasPrice.truthy = false) (gasPrice : Value)
    (hs : m.send .gasPrice = .ok gasPrice)
    (hgp : gasPrice.truthy = true ∨ gasPrice = .number (.int 0)) :
    (∀ e, (CfxSendTransactionMethod.selectSigner m format method
          ((CfxSendTransactionMethod.fillGas m tx).assign "gasPrice" gasPrice)).2 = .thrown e →
      CfxSendTransactionMethod.execute m format method (fuel + 2) tx
        = some (.request .gasPrice ::
              (CfxSendTransactionMethod.selectSigner m format method
                ((CfxSendTransactionMethod.fillGas m tx).assign "gasPrice" gasPrice)).1,
            AbstractObservedTransactionMethod.handleError method e)) ∧
    ((∀ e, (CfxSendTransactionMethod.selectSigner m format method
          ((CfxSendTransactionMethod.fillGas m tx).assign "gasPrice" gasPrice)).2 ≠ .thrown e) →
      CfxSendTransactionMethod.execute m format method (fuel + 2) tx
        = some (.request .gasPrice ::
              (CfxSendTransactionMethod.selectSigner m format method
                ((CfxSendTransactionMethod.fillGas m tx).assign "gasPrice" gasPrice)).1,
            (CfxSendTransactionMethod.selectSigner m format method
              ((CfxSendTransactionMethod.fillGas m tx).assign "gasPrice" gasPrice)).2)) := by
  have hinner : CfxSendTransactionMethod.execute m format method (fuel + 1)
        ((CfxSendTransactionMethod.fillGas m tx).assign "gasPrice" gasPrice)
      = some ((CfxSendTransactionMethod.selectSigner m format method
            ((CfxSendTransactionMethod.fillGas m tx).assign "gasPrice" gasPrice)).1,
          (CfxSendTransactionMethod.selectSigner m format method
            ((CfxSendTransactionMethod.fillGas m tx).assign "gasPrice" gasPrice)).2) := by
    rw [execute_priced m format method fuel _
      (by rw [TxObject.field_assign, if_pos rfl]; exact hgp), fillGas_assign_gasPrice]
  exact (execute_ask_ok m format method (fuel + 1) tx h1 h2 hd gasPrice hs).2 _ _ hinner

/-- C21: signer selection in `execute`, for a transaction that has a gas price.
With the default signer (type `TransactionSigner`), a wallet that holds
accounts and has an entry for `from`, the transaction is signed with the
private key of that entry; with a custom signer it is signed with the key
`null`, whatever the wallet holds; in both cases the signer is called as soon
as the steps before it succeed, and no unsigned transaction is sent. In the
remaining case (default signer, and no accounts or no entry for `from`) the
signer is not called and the formatted transaction is sent to the node. -/
theorem signer_selection (m : Module) (format : TxObject → Except JsError TxObject)
    (method : MethodState) (fuel : Nat) (tx : TxObject)
    (hprice : (tx.field "gasPrice").truthy = true ∨ tx.field "gasPrice" = .number (.int 0)) :
    ∃ events d,
      CfxSendTransactionMethod.execute m format method (fuel + 1) tx = some (events, d) ∧
      (∀ wallet account, m.signerType = .string "TransactionSigner" →
        m.accounts = some wallet → 0 < wallet.accountsIndex →
        wallet.get (tx.field "from") = some account →
        (events, d) = CfxSendTransactionMethod.signAndSend m format method
            (CfxSendTransactionMethod.fillGas m tx) (.string account.privateKey) ∧
          (∀ t key, Event.sign t key ∈ events → key = .string account.privateKey) ∧
          (∀ r t, Event.request (.sendTransaction r t) ∉ events) ∧
          (∀ tx0 tx1 tx2 ev ev',
            CfxSendTransactionMethod.beforeExecution format method.rpcMethod
              (CfxSendTransactionMethod.fillGas m tx) = .ok tx0 →
            CfxSendTransactionMethod.fillNonce m tx0 = (ev, .ok tx1) →
            CfxSendTransactionMethod.fillEpochHeight m
              (CfxSendTransactionMethod.fillDefaults tx1) = (ev', .ok tx2) →
            Event.sign (CfxSendTransactionMethod.finish tx2) (.string account.privateKey)
              ∈ events)) ∧
      (m.signerType ≠ .string "TransactionSigner" →
        (events, d) = CfxSendTransactionMethod.signAndSend m format method
            (CfxSendTransactionMethod.fillGas m tx) .undefined ∧
          (∀ t key, Event.sign t key ∈ events → key = .null) ∧
          (∀ r t, Event.request (.sendTransaction r t) ∉ events) ∧
          (∀ tx0 tx1 tx2 ev ev',
            CfxSendTransactionMethod.beforeExecution format method.rpcMethod
              (CfxSendTransactionMethod.fillGas m tx) = .ok tx0 →
            CfxSendTransactionMethod.fillNonce m tx0 = (ev, .ok tx1) →
            CfxSendTransactionMethod.fillEpochHeight m
              (CfxSendTransactionMethod.fillDefaults tx1) = (ev', .ok tx2) →
            Event.sign (CfxSendTransactionMethod.finish tx2) .null ∈ events)) ∧
      (m.signerType = .string "TransactionSigner" →
        (∀ wallet, m.accounts = some wallet →
          wallet.accountsIndex = 0 ∨ wallet.get (tx.field "from") = none) →
        (events, d) = AbstractObservedTransactionMethod.execute m format method
            (CfxSendTransactionMethod.fillGas m tx) ∧
          (∀ t key, Event.sign t key ∉ events) ∧
          (∀ ftx, CfxSendTransactionMethod.beforeExecution format method.rpcMethod
              (CfxSendTransactionMethod.fillGas m tx) = .ok ftx →
            events = [.request (.sendTransaction method.rpcMethod ftx)])) := by
  have hfrom := fillGas_field m tx "from" (by decide)
  cases hr : CfxSendTransactionMethod.selectSigner m format method
      (CfxSendTransactionMethod.fillGas m tx) with
  | mk events d =>
    have hsigned : ∀ key : Value,
        CfxSendTransactionMethod.selectSigner m format method
            (CfxSendTransactionMethod.fillGas m tx)
          = CfxSendTransactionMethod.signAndSend m format method
              (CfxSendTransactionMethod.fillGas m tx) key →
        (events, d) = CfxSendTransactionMethod.signAndSend m format method
            (CfxSendTransactionMethod.fillGas m tx) key ∧
        (∀ t k, Event.sign t k ∈ events →
          k = (if key = .undefined then Value.null else key)) ∧
        (∀ r t, Event.request (.sendTransaction r t) ∉ events) ∧
        (∀ tx0 tx1 tx2 ev ev',
          CfxSendTransactionMethod.beforeExecution format method.rpcMethod
            (CfxSendTransactionMethod.fillGas m tx) = .ok tx0 →
          CfxSendTransactionMethod.fillNonce m tx0 = (ev, .ok tx1) →
          CfxSendTransactionMethod.fillEpochHeight m
            (CfxSendTransactionMethod.fillDefaults tx1) = (ev', .ok tx2) →
          Event.sign (CfxSendTransactionMethod.finish tx2)
              (if key = .undefined then Value.null else key) ∈ events) := by
      intro key hsel
      obtain ⟨hsign, hreq⟩ := sendRawTransaction_trace m format method.rpcMethod
        (CfxSendTransactionMethod.fillGas m tx) key
      have heq : (events, d) = CfxSendTransactionMethod.signAndSend m format method
          (CfxSendTransactionMethod.fillGas m tx) key := by
        rw [← hr, hsel]
      have hev : events = (CfxSendTransactionMethod.sendRawTransaction m format
          method.rpcMethod (CfxSendTransactionMethod.fillGas m tx) key).1 := by
        have := congrArg Prod.fst heq
        rw [signAndSend_fst] at this
        exact this
      refine ⟨heq, ?_, ?_, ?_⟩
      · intro t k hmem
        rw [hev] at hmem
        exact (hsign t k hmem).1
      · intro r t hmem
        rw [hev] at hmem
        exact (hreq _ hmem).2.1 r t rfl
      · intro tx0 tx1 tx2 ev ev' h0 h1 h2
        rw [hev]
        exact sendRawTransaction_signs m format method.rpcMethod _ key tx0 tx1 tx2 ev ev'
          h0 h1 h2
    refine ⟨events, d, by rw [execute_priced m format method fuel tx hprice, hr], ?_, ?_, ?_⟩
    · intro wallet account hs hw hi hget
      exact hsigned (.string account.privateKey)
        (selectSigner_wallet m format method _ wallet account hs hw hi
          (by rw [hfrom]; exact hget))
    · intro hs
      exact hsigned .undefined (selectSigner_custom m format method _ hs)
    · intro hs hno
      have hsel := selectSigner_remote m format method
        (CfxSendTransactionMethod.fillGas m tx) hs (by rw [hfrom]; exact hno)
      obtain ⟨herr, hok⟩ := observed_execute_trace m format method
        (CfxSendTransactionMethod.fillGas m tx)
      have heq : (events, d) = AbstractObservedTransactionMethod.execute m format method
          (CfxSendTransactionMethod.fillGas m tx) := by
        rw [← hr, hsel]
      refine ⟨heq, ?_, ?_⟩
      · intro t key hmem
        cases hb : CfxSendTransactionMethod.beforeExecution format method.rpcMethod
            (CfxSendTransactionMethod.fillGas m tx) with
        | error e0 =>
          rw [herr e0 hb] at heq
          simp only [Prod.mk.injEq] at heq
          rw [heq.1] at hmem
          cases hmem
        | ok ftx =>
          rw [hok ftx hb] at heq
          simp only [Prod.mk.injEq] at heq
          rw [heq.1] at hmem
          simp only [List.mem_singleton, reduceCtorEq] at hmem
      · intro ftx hb
        rw [hok ftx hb] at heq
        simp only [Prod.mk.injEq] at heq
        exact heq.1

/-- The wallet of `Example.module` has an entry for the sender 0: the
transaction is signed with its key `0xkey`. -/
theorem signer_selection_witness :
    ∃ events d,
      CfxSendTransactionMethod.execute Example.module Example.format Example.method 1
        Example.bareTx = some (events, d) ∧
      (∀ t key, Event.sign t key ∈ events → key = .string "0xkey") ∧
      (∀ r t, Event.request (.sendTransaction r t) ∉ events) := by
  obtain ⟨events, d, h, hA, _, _⟩ :=
    signer_selection Example.module Example.format Example.method 0 Example.bareTx (Or.inl rfl)
  have := hA _ { address := "0xa1", privateKey := "0xkey" } rfl rfl (by decide) rfl
  exact ⟨events, d, h, this.2.1, this.2.2.1⟩

/-- C22: no send error is swallowed. In every run of `execute`, an error `e`
with which a request (`cfx_gasPrice`, the transaction count, the epoch number,
the sending itself) or the signer fails reaches the caller through exactly
one channel: the callback is called with `e`, or, with listeners of `error`,
the event is emitted with `e`, or else the `PromiEvent` rejects with `e`; so
without callback and without listener it rejects with `e`. And `execute` does
come to this end, with the same outcome for every fuel from 2 on, when the
node answers `cfx_gasPrice` with a gas price (a truthy value or 0). -/
theorem send_error_reaches_caller (m : Module) (format : TxObject → Except JsError TxObject)
    (method : MethodState) (tx : TxObject) :
    (∀ fuel events d,
      CfxSendTransactionMethod.execute m format method fuel tx = some (events, d) →
      ∀ e,
        ((∃ rpc, Event.request rpc ∈ events ∧ m.send rpc = .error e) ∨
          (∃ t key, Event.sign t key ∈ events ∧ m.sign t key = .error e)) →
        ((d = .callbackError e ∧ method.hasCallback = true) ∨
          (d = .emitted e ∧ 0 < method.errorListeners) ∨
          (d = .rejected e ∧ method.errorListeners = 0)) ∧
        (method.hasCallback = false → method.errorListeners = 0 → d = .rejected e)) ∧
    ((∀ gasPrice, m.send .gasPrice = .ok gasPrice →
        gasPrice.truthy = true ∨ gasPrice = .number (.int 0)) →
      ∃ events d, ∀ fuel,
        CfxSendTransactionMethod.execute m format method (fuel + 2) tx = some (events, d)) := by
  constructor
  · intro fuel events d h e hraised
    have hreach := execute_errors m format method fuel tx events d h e hraised
    refine ⟨hreach, ?_⟩
    intro hcb hl
    rcases hreach with ⟨_, hc⟩ | ⟨_, hpos⟩ | ⟨hd, _⟩
    · rw [hcb] at hc
      cases hc
    · omega
    · exact hd
  · intro hnode
    by_cases hp : (tx.field "gasPrice").truthy = true ∨ tx.field "gasPrice" = .number (.int 0)
    · exact ⟨_, _, fun fuel => execute_priced m format method (fuel + 1) tx hp⟩
    · have h1 : (tx.field "gasPrice").truthy = false := by
        cases ht : (tx.field "gasPrice").truthy with
        | true => exact absurd (Or.inl ht) hp
        | false => rfl
      have h2 : tx.field "gasPrice" ≠ .number (.int 0) := fun h0 => hp (Or.inr h0)
      cases hd : m.defaultGasPrice.truthy with
      | true => exact ⟨_, _, fun fuel => execute_default m format method (fuel + 1) tx h1 h2 hd⟩
      | false =>
        cases hs : m.send .gasPrice with
        | error e0 =>
          exact ⟨_, _, fun fuel =>
            execute_ask_error m format method (fuel + 1) tx h1 h2 hd e0 hs⟩
        | ok gasPrice =>
          by_cases hth : ∃ e', (CfxSendTransactionMethod.selectSigner m format method
              ((CfxSendTransactionMethod.fillGas m tx).assign "gasPrice" gasPrice)).2
                = .thrown e'
          · obtain ⟨e', he'⟩ := hth
            exact ⟨_, _, fun fuel =>
              (execute_asked m format method fuel tx h1 h2 hd gasPrice hs
                (hnode gasPrice hs)).1 e' he'⟩
          · exact ⟨_, _, fun fuel =>
              (execute_asked m format method fuel tx h1 h2 hd gasPrice hs
                (hnode gasPrice hs)).2 (fun e' he' => hth ⟨e', he'⟩)⟩

/-- The signer of `Example.rejectingModule` rejects with `ERROR`; the method
has no callback and no listener: the `PromiEvent` rejects with `ERROR`. -/
theorem send_error_reaches_caller_witness :
    ∃ events d,
      CfxSendTransactionMethod.execute Example.rejectingModule Example.format Example.method 1
        Example.bareTx = some (events, d) ∧
      d = .rejected "ERROR" :=
  ⟨_, _, rfl,
    ((send_error_reaches_caller Example.rejectingModule Example.format Example.method
        Example.bareTx).1 1 _ _ rfl "ERROR"
      (Or.inr ⟨_, _, List.Mem.tail _ (List.Mem.tail _ (List.Mem.head _)), rfl⟩)).2 rfl rfl⟩

/-- C30: gas price resolution in `execute`. A gas price of the caller (a truthy
value, or the number 0) is left as it is and no `cfx_gasPrice` is asked; and
without one, a truthy `defaultGasPrice` of the module is set, again without a
request. But the default is tested with `!defaultGasPrice` alone, without the
`!== 0` that the test of the transaction has: a module whose `defaultGasPrice`
is 0 is passed over like one without a default. For every falsy default,
`cfx_gasPrice` is asked, once, and its answer (a truthy value or 0) is the gas
price of the transaction with which `execute` goes on to the signing or the
sending. The other fields are not touched by the resolution. -/
theorem gas_price_resolution (m : Module) (format : TxObject → Except JsError TxObject)
    (method : MethodState) (fuel : Nat) (tx : TxObject) :
    ((tx.field "gasPrice").truthy = true ∨ tx.field "gasPrice" = .number (.int 0) →
      CfxSendTransactionMethod.execute m format method (fuel + 1) tx
          = some (CfxSendTransactionMethod.selectSigner m format method
              (CfxSendTransactionMethod.fillGas m tx)) ∧
        (CfxSendTransactionMethod.fillGas m tx).field "gasPrice" = tx.field "gasPrice" ∧
        Event.request .gasPrice ∉ (CfxSendTransactionMethod.selectSigner m format method
          (CfxSendTransactionMethod.fillGas m tx)).1) ∧
    ((tx.field "gasPrice").truthy = false → tx.field "gasPrice" ≠ .number (.int 0) →
      m.defaultGasPrice.truthy = true →
      CfxSendTransactionMethod.execute m format method (fuel + 1) tx
          = some (CfxSendTransactionMethod.selectSigner m format method
              ((CfxSendTransactionMethod.fillGas m tx).assign "gasPrice" m.defaultGasPrice)) ∧
        ((CfxSendTransactionMethod.fillGas m tx).assign "gasPrice" m.defaultGasPrice).field
          "gasPrice" = m.defaultGasPrice ∧
        Event.request .gasPrice ∉ (CfxSendTransactionMethod.selectSigner m format method
          ((CfxSendTransactionMethod.fillGas m tx).assign "gasPrice" m.defaultGasPrice)).1) ∧
    ((tx.field "gasPrice").truthy = false → tx.field "gasPrice" ≠ .number (.int 0) →
      m.defaultGasPrice.truthy = false →
      ∀ gasPrice, m.send .gasPrice = .ok gasPrice →
        gasPrice.truthy = true ∨ gasPrice = .number (.int 0) →
        ∃ d,
          CfxSendTransactionMethod.execute m format method (fuel + 2) tx
            = some (.request .gasPrice ::
                (CfxSendTransactionMethod.selectSigner m format method
                  ((CfxSendTransactionMethod.fillGas m tx).assign "gasPrice" gasPrice)).1, d) ∧
          ((CfxSendTransactionMethod.fillGas m tx).assign "gasPrice" gasPrice).field "gasPrice"
            = gasPrice ∧
          Event.request .gasPrice ∉ (CfxSendTransactionMethod.selectSigner m format method
            ((CfxSendTransactionMethod.fillGas m tx).assign "gasPrice" gasPrice)).1 ∧
          (∀ e, (CfxSendTransactionMethod.selectSigner m format method
              ((CfxSendTransactionMethod.fillGas m tx).assign "gasPrice" gasPrice)).2
                = .thrown e →
            d = AbstractObservedTransactionMethod.handleError method e) ∧
          ((∀ e, (CfxSendTransactionMethod.selectSigner m format method
              ((CfxSendTransactionMethod.fillGas m tx).assign "gasPrice" gasPrice)).2
                ≠ .thrown e) →
            d = (CfxSendTransactionMethod.selectSigner m format method
              ((CfxSendTransactionMethod.fillGas m tx).assign "gasPrice" gasPrice)).2)) := by
  refine ⟨?_, ?_, ?_⟩
  · intro hp
    exact ⟨execute_priced m format method fuel tx hp,
      fillGas_field m tx "gasPrice" (by decide),
      (selectSigner_trace m format method _).2.1⟩
  · intro h1 h2 hd
    exact ⟨execute_default m format method fuel tx h1 h2 hd,
      by rw [TxObject.field_assign, if_pos rfl],
      (selectSigner_trace m format method _).2.1⟩
  · intro h1 h2 hd gasPrice hs hgp
    obtain ⟨hthrown, hother⟩ := execute_asked m format method fuel tx h1 h2 hd gasPrice hs hgp
    have hfield : ((CfxSendTransactionMethod.fillGas m tx).assign "gasPrice" gasPrice).field
        "gasPrice" = gasPrice := by
      rw [TxObject.field_assign, if_pos rfl]
    have hno := (selectSigner_trace m format method
      ((CfxSendTransactionMethod.fillGas m tx).assign "gasPrice" gasPrice)).2.1
    by_cases hth : ∃ e', (CfxSendTransactionMethod.selectSigner m format method
        ((CfxSendTransactionMethod.fillGas m tx).assign "gasPrice" gasPrice)).2 = .thrown e'
    · obtain ⟨e', he'⟩ := hth
      refine ⟨_, hthrown e' he', hfield, hno, ?_, ?_⟩
      · intro e he
        rw [he'] at he
        simp only [Delivery.thrown.injEq] at he
        rw [he]
      · intro hne
        exact absurd he' (hne e')
    · refine ⟨_, hother (fun e' he' => hth ⟨e', he'⟩), hfield, hno, ?_, fun _ => rfl⟩
      intro e he
      exact absurd ⟨e, he⟩ hth

/-- The module has the `defaultGasPrice` 0 and the caller gave no gas price:
`cfx_gasPrice` is asked all the same, and the transaction is signed with the
price `0x7b` that the node answers, not with 0. -/
theorem gas_price_resolution_witness :
    Example.zeroPriceModule.defaultGasPrice = .number (.int 0) ∧
      Example.unpricedTx.field "gasPrice" = .undefined ∧
      ∃ d,
        CfxSendTransactionMethod.execute Example.zeroPriceModule Example.format Example.method 2
            Example.unpricedTx
          = some (.request .gasPrice ::
              (CfxSendTransactionMethod.selectSigner Example.zeroPriceModule Example.format
                Example.method
                ((CfxSendTransactionMethod.fillGas Example.zeroPriceModule
                  Example.unpricedTx).assign "gasPrice" (.string "0x7b"))).1, d) ∧
        ((CfxSendTransactionMethod.fillGas Example.zeroPriceModule Example.unpricedTx).assign
          "gasPrice" (.string "0x7b")).field "gasPrice" = .string "0x7b" ∧
        ∃ t, Event.sign t (.string "0xkey")
            ∈ (CfxSendTransactionMethod.selectSigner Example.zeroPriceModule Example.format
                Example.method
                ((CfxSendTransactionMethod.fillGas Example.zeroPriceModule
                  Example.unpricedTx).assign "gasPrice" (.string "0x7b"))).1 ∧
          t.field "gasPrice" = .string "0x7b" := by
  obtain ⟨d, h, hfield, _⟩ :=
    (gas_price_resolution Example.zeroPriceModule Example.format Example.method 0
      Example.unpricedTx).2.2 rfl (by decide) rfl (.string "0x7b") rfl (Or.inl rfl)
  exact ⟨rfl, rfl, d, h, hfield, _,
    List.Mem.tail _ (List.Mem.tail _ (List.Mem.head _)), rfl⟩

end Method

end ConfluxWeb
